import Mathlib

/-!
# GIFGlitcher: a shallow embedding of the effect pipeline and its drivers

The C++ module `GIFGlitcher` (src/src/GIFGlitcher.cpp, GIFGlitcher.hpp) is
embedded as pure functions over an explicit module state.

Modelling conventions
* `float` values are rational numbers, and `f32 q` is the binary32 value
  nearest to `q` (round to nearest, ties to even).  Where the rounding of an
  operation decides a truncation, a floor or a comparison, every operation is
  rounded by `f32` as the processor rounds it: in the sampling and store steps
  of a pass, the colour adjustment, the posterize quantisation, the block size
  of the pixelation, the shift of the channel aberration, and the brightness
  and comparator of the pixel sort.  The other operations are exact; there the
  result of the program differs from the result of the model by rounding only.
* `int` is modelled by `Int`; the loaders bound both image dimensions by 4096,
  so no index computation of the pipeline overflows.  `size_t` is modelled by
  `Nat` with explicit wrap-around modulo `2 ^ 64` where a decrement or
  increment can wrap.
* `std::vector<unsigned char>` is a `List Nat` (bytes are `< 256`),
  `std::vector<PixelInfo>` is a `List PixelInfo`; an indexed read or write
  outside the vector (undefined behaviour in C++) reads a default value,
  respectively leaves the vector unchanged.
* Library collaborators that are not part of the repository
  (`random::uniform`, `std::sqrt`, `std::sort`, the giflib decoder, NanoVG
  texture creation, the asynchronously changing `threadRunning` flag) are the
  fields of `Externals`.
-/

/-! ## Numeric helpers -/

/-- The conversion `static_cast<int>(q)`: truncation toward zero. -/
def truncToInt (q : ℚ) : Int :=
  if 0 ≤ q then Int.floor q else -Int.floor (-q)

/-- The C function `fmod(x, y)`: the remainder of the truncated quotient. -/
def fmodQ (x y : ℚ) : ℚ :=
  x - (truncToInt (x / y) : ℚ) * y

/-- The function `rack::math::clamp(x, a, b) = fmax(fmin(x, b), a)`. -/
def clampQ (x a b : ℚ) : ℚ :=
  max (min x b) a

/-! ## binary32 rounding -/

/-- The power `2 ^ e` as a rational number. -/
def pow2 (e : Int) : ℚ :=
  if 0 ≤ e then ((2 ^ e.toNat : Nat) : ℚ) else 1 / ((2 ^ (-e).toNat : Nat) : ℚ)

/-- The number of halvings that bring `n` below 2, counted with `fuel` steps
at most. -/
def log2Aux : Nat → Nat → Nat
  | 0, _ => 0
  | fuel + 1, n => if n < 2 then 0 else log2Aux fuel (n / 2) + 1

/-- The binary logarithm of a positive natural number, rounded down. -/
def natLog2 (n : Nat) : Nat :=
  log2Aux n n

/-- The binary exponent of a rational `q ≠ 0`: the `e` with
`2 ^ e ≤ |q| < 2 ^ (e + 1)`. -/
def floorLog2 (q : ℚ) : Int :=
  let e0 : Int := (natLog2 q.num.natAbs : Int) - (natLog2 q.den : Int)
  if |q| < pow2 e0 then e0 - 1 else e0

/-- Rounding to the nearest integer, a tie to the even one. -/
def roundHalfEven (q : ℚ) : Int :=
  let n := Int.floor q
  if q - n < 1 / 2 then n
  else if 1 / 2 < q - n then n + 1
  else if n % 2 = 0 then n else n + 1

/-- The binary32 (`float`) value nearest to `q`, a tie to the value with an
even significand: a number of binary exponent `e` is rounded to a multiple of
`2 ^ (e - 23)` (24 significant bits), and to a multiple of `2 ^ -149` in the
subnormal range.  Every `float` operation `a ∘ b` of the processor is
`f32 (a ∘ b)`.  Overflow to infinity (`|q| ≥ 2 ^ 128`) is not modelled. -/
def f32 (q : ℚ) : ℚ :=
  if q = 0 then 0
  else
    let e := max (-149) (floorLog2 q - 23)
    (roundHalfEven (q / pow2 e) : ℚ) * pow2 e

/-- The values `0, 1, ..., n-1` of a loop `for (int x = 0; x < n; ++x)`. -/
def intRange (n : Int) : List Int :=
  (List.range n.toNat).map Int.ofNat

/-- The values `a, a+1, ..., b-1` of a loop `for (int x = a; x < b; ++x)`. -/
def intRangeFrom (a b : Int) : List Int :=
  (List.range (b - a).toNat).map (fun k => a + Int.ofNat k)

/-- The values `0, s, 2s, ...` below `n` of a loop
`for (int x = 0; x < n; x += s)` with `s ≥ 1`. -/
def strideRange (n s : Int) : List Int :=
  (List.range ((n + s - 1) / s).toNat).map (fun k => Int.ofNat k * s)

/-- Indexed read `buf[i]` of a vector. -/
def readAt {α : Type} [Inhabited α] (buf : List α) (i : Int) : α :=
  if i < 0 then default else buf.getD i.toNat default

/-- Indexed write `buf[i] = v` of a vector. -/
def writeAt {α : Type} (buf : List α) (i : Int) (v : α) : List α :=
  if i < 0 then buf else buf.set i.toNat v

/-- In-place update `buf[i] = f(buf[i])` of a vector element. -/
def modifyAt {α : Type} (buf : List α) (i : Int) (f : α → α) : List α :=
  if i < 0 then buf else List.modify f i.toNat buf

/-- Indexed read of a byte buffer. -/
def readByte (buf : List Nat) (i : Int) : Nat :=
  if i < 0 then 0 else buf.getD i.toNat 0

/-- The conversion `static_cast<unsigned char>(q)`. -/
def toByte (q : ℚ) : Nat :=
  (truncToInt q % 256).toNat

/-! ## Data model (GIFGlitcher.hpp) -/

/-- The parameter snapshot `ProcessingParams` with its default member values. -/
structure ProcessingParams where
  brightness : ℚ := 1
  contrast : ℚ := 1
  saturation : ℚ := 1
  hueShift : ℚ := 0
  sharpness : ℚ := 0
  pixelation : ℚ := 0
  edgeDetect : ℚ := 0
  rgbAberration : ℚ := 0
  noise : ℚ := 0
  glitchSlice : ℚ := 0
  mirrorEffect : Bool := false
  flipEffect : Bool := false
  ditherEffect : Bool := false
  ditherIntensity : ℚ := 1 / 5
  interlaceEffect : Bool := false
  interlaceIntensity : ℚ := 1 / 2
  invertColors : Bool := false
  halfMirrorEffect : Bool := false
  halfMirrorVerticalEffect : Bool := false
  posterize : ℚ := 0
  glitchArtifacts : ℚ := 0
  glitchBlockSize : ℚ := 0
  glitchDisplacement : ℚ := 0
  bitCrush : ℚ := 0
  dataShift : ℚ := 0
  pixelSort : ℚ := 0
deriving DecidableEq

/-- The working unit `GIFGlitcher::PixelInfo`. -/
structure PixelInfo where
  sourceX : Int := 0
  sourceY : Int := 0
  r : ℚ := 0
  g : ℚ := 0
  b : ℚ := 0
  a : ℚ := 0
  processed : Bool := false
deriving DecidableEq

instance : Inhabited PixelInfo := ⟨{}⟩

/-- One decoded animation frame `GIFGlitcher::GifFrame`. -/
structure GifFrame where
  data : List Nat := []
  delay : Int := 0
  imageHandle : Int := 0
deriving DecidableEq

instance : Inhabited GifFrame := ⟨{}⟩

/-- The enumeration `GIFGlitcher::PlaybackMode`. -/
inductive PlaybackMode where
  | FORWARD
  | PING_PONG
  | RANDOM
deriving DecidableEq

/-- A render context `NVGcontext`; the pointer `vg` is an `Option` of it. -/
structure NVGcontext where
  id : Nat
deriving DecidableEq

/-- The module state: the data members of `struct GIFGlitcher`. -/
structure GIFGlitcher where
  gifFrames : List GifFrame := []
  currentFrame : Nat := 0
  frameAccumulator : ℚ := 0
  isAnimated : Bool := false
  textureNeedsUpdate : Bool := false
  vg : Option NVGcontext := none
  imageHandle : Int := 0
  outputImageHandle : Int := 0
  imageWidth : Int := 0
  imageHeight : Int := 0
  imagePath : String := ""
  imageData : List Nat := []
  processedData : List Nat := []
  threadRunning : Bool := false
  processRequested : Bool := false
  accumulatedTime : ℚ := 0
  currentParams : ProcessingParams := {}
  playbackSpeed : ℚ := 1
  playbackMode : PlaybackMode := PlaybackMode.FORWARD
  playbackReverse : Bool := false
  pendingGifPath : String := ""
  hasPendingGif : Bool := false
  /-- Ghost field, not a member of the C++ struct: the paths handed to the
  decoder (`DGifOpenFileName`) so far, oldest first. -/
  decodeLog : List String := []

/-! ## giflib data (gif_lib.h), as far as `loadGif` reads it -/

/-- A palette entry `GifColorType`. -/
structure GifColorType where
  Red : Nat := 0
  Green : Nat := 0
  Blue : Nat := 0
deriving DecidableEq

instance : Inhabited GifColorType := ⟨{}⟩

/-- A palette `ColorMapObject`. -/
structure ColorMapObject where
  Colors : List GifColorType := []
deriving DecidableEq

/-- An image descriptor `GifImageDesc`; a null `ColorMap` is `none`. -/
structure GifImageDesc where
  Left : Int := 0
  Top : Int := 0
  Width : Int := 0
  Height : Int := 0
  ColorMap : Option ColorMapObject := none
deriving DecidableEq

/-- An extension record `ExtensionBlock`. -/
structure ExtensionBlock where
  Function : Int := 0
  Bytes : List Nat := []
deriving DecidableEq

/-- A decoded image `SavedImage`; `ExtensionBlockCount` is the length of
`ExtensionBlocks`. -/
structure SavedImage where
  ImageDesc : GifImageDesc := {}
  RasterBits : List Nat := []
  ExtensionBlocks : List ExtensionBlock := []
deriving DecidableEq

instance : Inhabited SavedImage := ⟨{}⟩

/-- A decoded file `GifFileType`. -/
structure GifFileType where
  SWidth : Int := 0
  SHeight : Int := 0
  SColorMap : Option ColorMapObject := none
  ImageCount : Int := 0
  SavedImages : List SavedImage := []
deriving DecidableEq

/-- The giflib constant `GRAPHICS_EXT_FUNC_CODE` (0xf9). -/
def GRAPHICS_EXT_FUNC_CODE : Int := 249

/-- The giflib constant `DISPOSE_BACKGROUND`. -/
def DISPOSE_BACKGROUND : Int := 2

/-- The giflib constant `DISPOSE_PREVIOUS`. -/
def DISPOSE_PREVIOUS : Int := 3

/-! ## External collaborators -/

/-- The library functions and asynchronous inputs the module depends on.
`uniform n` is the value of the `n`-th call of `random::uniform()` (a value in
`[0, 1)`), `sqrt` is `std::sqrt`, `stdSort lt l` is `std::sort` of the range
`l` with comparator `lt`, `threadRunningAt k` is the value of the atomic flag
`threadRunning` read after chunk `k` of a pass, `DGifOpenFileName` and
`DGifSlurp` are the giflib decoder (`none` is a failure), and
`nvgCreateImageRGBA w h data` is the texture handle NanoVG returns. -/
structure Externals where
  uniform : Nat → ℚ
  sqrt : ℚ → ℚ
  stdSort : (PixelInfo → PixelInfo → Bool) → List PixelInfo → List PixelInfo
  threadRunningAt : Nat → Bool
  DGifOpenFileName : String → Option GifFileType
  DGifSlurp : GifFileType → Option GifFileType
  nvgCreateImageRGBA : Int → Int → List Nat → Int

/-- The 8x8 Bayer matrix `bayer8x8` for ordered dithering. -/
def bayer8x8 : List (List Int) :=
  [ [ 0, 32,  8, 40,  2, 34, 10, 42],
    [48, 16, 56, 24, 50, 18, 58, 26],
    [12, 44,  4, 36, 14, 46,  6, 38],
    [60, 28, 52, 20, 62, 30, 54, 22],
    [ 3, 35, 11, 43,  1, 33,  9, 41],
    [51, 19, 59, 27, 49, 17, 57, 25],
    [15, 47,  7, 39, 13, 45,  5, 37],
    [63, 31, 55, 23, 61, 29, 53, 21] ]

/-! ## Colour conversion helpers -/

/-- The helper `rgbToHsv`: returns `(h, s, v)`.  Every operation is rounded
to binary32; `1e-6f` is `f32 (1 / 1000000)`, and `fmod` is exact. -/
def rgbToHsv (r g b : ℚ) : ℚ × ℚ × ℚ :=
  let maxVal := max r (max g b)
  let minVal := min r (min g b)
  let delta := f32 (maxVal - minVal)
  let v := maxVal
  if maxVal = 0 then (0, 0, v)
  else
    let s := f32 (delta / maxVal)
    if delta < f32 (1 / 1000000) then (0, s, v)
    else
      let h :=
        if maxVal = r then f32 (60 * fmodQ (f32 (f32 (g - b) / delta)) 6)
        else if maxVal = g then f32 (60 * f32 (f32 (f32 (b - r) / delta) + 2))
        else f32 (60 * f32 (f32 (f32 (r - g) / delta) + 4))
      let h := if h < 0 then f32 (h + 360) else h
      (h, s, v)

/-- The helper `hsvToRgb`: returns `(r, g, b)`.  Every operation is rounded to
binary32; `fmod` and `floor` are exact. -/
def hsvToRgb (h s v : ℚ) : ℚ × ℚ × ℚ :=
  if s < f32 (1 / 1000000) then (v, v, v)
  else
    let h := fmodQ h 360
    let h := if h < 0 then f32 (h + 360) else h
    let h := f32 (h / 60)
    let i : Int := Int.floor h
    let f := f32 (h - (i : ℚ))
    let p := f32 (v * f32 (1 - s))
    let q := f32 (v * f32 (1 - f32 (s * f)))
    let t := f32 (v * f32 (1 - f32 (s * f32 (1 - f))))
    if i = 0 then (v, t, p)
    else if i = 1 then (q, v, p)
    else if i = 2 then (p, v, t)
    else if i = 3 then (p, q, v)
    else if i = 4 then (t, p, v)
    else (v, p, q)

namespace GIFGlitcher

/-! ## Stage 1: geometric remap -/

/-- The method `applyGeometricEffects(pixel, x, y)`. -/
def applyGeometricEffects (m : GIFGlitcher) (pixel : PixelInfo) (x y : Int) : PixelInfo :=
  let pixel := { pixel with sourceX := x, sourceY := y }
  let pixel :=
    if m.currentParams.mirrorEffect then
      { pixel with sourceX := m.imageWidth - 1 - x }
    else if m.currentParams.halfMirrorEffect && decide (x ≥ m.imageWidth.tdiv 2) then
      { pixel with sourceX := m.imageWidth - 1 - x }
    else pixel
  if m.currentParams.flipEffect then
    { pixel with sourceY := m.imageHeight - 1 - y }
  else if m.currentParams.halfMirrorVerticalEffect && decide (y ≥ m.imageHeight.tdiv 2) then
    { pixel with sourceY := m.imageHeight - 1 - y }
  else pixel

/-! ## Stage 2: pixelation -/

/-- The method `applyPixelation(pixelBuffer, y)`.  The block size is the
truncated binary32 product `pixelation * 40.0f`; the block sums and means are
exact. -/
def applyPixelation (m : GIFGlitcher) (pixelBuffer : List PixelInfo) (_y : Int) :
    List PixelInfo :=
  if m.currentParams.pixelation ≤ 0 then pixelBuffer
  else
    let pixelSize : Int := max 1 (truncToInt (f32 (m.currentParams.pixelation * 40)))
    (strideRange m.imageWidth pixelSize).foldl
      (fun buf x =>
        let pxs := intRange (min pixelSize (m.imageWidth - x))
        let acc : ℚ × ℚ × ℚ × Int :=
          pxs.foldl
            (fun s px =>
              (s.1 + (readAt buf (x + px)).r,
               s.2.1 + (readAt buf (x + px)).g,
               s.2.2.1 + (readAt buf (x + px)).b,
               s.2.2.2 + 1))
            (0, 0, 0, 0)
        let count := acc.2.2.2
        if count > 0 then
          let avgR := acc.1 / (count : ℚ)
          let avgG := acc.2.1 / (count : ℚ)
          let avgB := acc.2.2.1 / (count : ℚ)
          pxs.foldl
            (fun buf px =>
              modifyAt buf (x + px) (fun p => { p with r := avgR, g := avgG, b := avgB }))
            buf
        else buf)
      pixelBuffer

/-! ## Stage 3: channel aberration -/

/-- The method `applyRgbAberration(pixelBuffer, y)`.  The shift is the
truncated binary32 product `rgbAberration * 20.0f`; the blend is exact. -/
def applyRgbAberration (m : GIFGlitcher) (pixelBuffer : List PixelInfo) (_y : Int) :
    List PixelInfo :=
  if m.currentParams.rgbAberration ≤ 0 then pixelBuffer
  else
    let shift : Int := truncToInt (f32 (m.currentParams.rgbAberration * 20))
    (intRange m.imageWidth).foldl
      (fun buf x =>
        let aberrationX :=
          if m.currentParams.mirrorEffect then (readAt buf x).sourceX - shift
          else (readAt buf x).sourceX + shift
        if aberrationX ≥ 0 ∧ aberrationX < m.imageWidth then
          let aberrationIdx := ((readAt buf x).sourceY * m.imageWidth + aberrationX) * 4
          let rShifted : ℚ := (readByte m.imageData aberrationIdx : ℚ) / 255
          modifyAt buf x (fun p =>
            { p with r := p.r * (1 - m.currentParams.rgbAberration)
                          + rShifted * m.currentParams.rgbAberration })
        else buf)
      pixelBuffer

/-! ## Stage 4: colour adjustment -/

/-- The brightness and contrast line of `applyColorAdjustments` for one
channel: `(c - 0.5f) * contrast + 0.5f + (brightness - 1.0f)`, every operation
rounded to binary32. -/
def adjustChannel (m : GIFGlitcher) (c : ℚ) : ℚ :=
  f32 (f32 (f32 (f32 (c - 1 / 2) * m.currentParams.contrast) + 1 / 2)
    + f32 (m.currentParams.brightness - 1))

/-- The hue, saturation and value `rgbToHsv` returns in the loop of
`applyColorAdjustments` for one pixel, after brightness and contrast and
before the saturation is scaled and the hue shifted. -/
def adjustedHsv (m : GIFGlitcher) (pixel : PixelInfo) : ℚ × ℚ × ℚ :=
  rgbToHsv (adjustChannel m pixel.r) (adjustChannel m pixel.g) (adjustChannel m pixel.b)

/-- The body of the loop of `applyColorAdjustments` for one pixel, every
operation rounded to binary32. -/
def adjustPixel (m : GIFGlitcher) (pixel : PixelInfo) : PixelInfo :=
  let hsv := adjustedHsv m pixel
  let s := f32 (hsv.2.1 * m.currentParams.saturation)
  let h := f32 (hsv.1 + f32 (m.currentParams.hueShift * 360))
  let rgb := hsvToRgb h s hsv.2.2
  { pixel with r := rgb.1, g := rgb.2.1, b := rgb.2.2 }

/-- The method `applyColorAdjustments(pixelBuffer)`. -/
def applyColorAdjustments (m : GIFGlitcher) (pixelBuffer : List PixelInfo) : List PixelInfo :=
  pixelBuffer.map (adjustPixel m)

/-! ## Stage 5: posterize and dither -/

/-- The variable `levels` of `applyPosterizeAndDither`:
`2.0f + posterize * 14.0f` in binary32 when posterize is on, else 0. -/
def posterizeLevels (m : GIFGlitcher) : ℚ :=
  if m.currentParams.posterize > 0 then f32 (2 + f32 (m.currentParams.posterize * 14))
  else 0

/-- The quantisation `std::floor(c * levels) / levels` of one channel in
binary32. -/
def quantizeChannel (levels c : ℚ) : ℚ :=
  f32 ((Int.floor (f32 (c * levels)) : ℚ) / levels)

/-- The method `applyPosterizeAndDither(pixelBuffer, y)`.  The number of
levels, the quantisation and the dither that feeds it are rounded to binary32
operation by operation; the dither-only pattern, which feeds no quantisation,
is exact. -/
def applyPosterizeAndDither (m : GIFGlitcher) (pixelBuffer : List PixelInfo) (y : Int) :
    List PixelInfo :=
  if m.currentParams.posterize ≤ 0 ∧ m.currentParams.ditherEffect = false then pixelBuffer
  else
    let levels : ℚ := posterizeLevels m
    (intRange m.imageWidth).foldl
      (fun buf x =>
        modifyAt buf x (fun pixel =>
          let pixel :=
            if m.currentParams.ditherEffect then
              let bayer_value : ℚ :=
                ((readAt (readAt bayer8x8 (y.tmod 8)) (x.tmod 8) : Int) : ℚ) / 64
              if levels > 0 then
                let dither_strength := f32 (f32 (1 / levels) * m.currentParams.ditherIntensity)
                let dither_adjustment := f32 (f32 (bayer_value - 1 / 2) * dither_strength)
                { pixel with r := f32 (pixel.r + dither_adjustment),
                             g := f32 (pixel.g + dither_adjustment),
                             b := f32 (pixel.b + dither_adjustment) }
              else
                let dither_mod :=
                  (bayer_value - 1 / 2) * m.currentParams.ditherIntensity * (1 / 5)
                { pixel with r := pixel.r + dither_mod,
                             g := pixel.g + dither_mod,
                             b := pixel.b + dither_mod }
            else pixel
          if levels > 0 then
            { pixel with r := quantizeChannel levels pixel.r,
                         g := quantizeChannel levels pixel.g,
                         b := quantizeChannel levels pixel.b }
          else pixel))
      pixelBuffer

/-! ## Stage 6: kernel effects -/

/-- The method `applyKernelEffects(pixelBuffer, y)`. -/
def applyKernelEffects (m : GIFGlitcher) (ext : Externals) (pixelBuffer : List PixelInfo)
    (y : Int) : List PixelInfo :=
  if m.currentParams.edgeDetect ≤ 0 ∧ m.currentParams.sharpness ≤ 0 then pixelBuffer
  else
    (intRangeFrom 1 (m.imageWidth - 1)).foldl
      (fun edgeBuffer x =>
        let edgeBuffer :=
          if m.currentParams.edgeDetect > 0 then
            let gxy : ℚ × ℚ :=
              ([-1, 0, 1] : List Int).foldl
                (fun acc i =>
                  ([-1, 0, 1] : List Int).foldl
                    (fun acc j =>
                      if x + j ≥ 0 ∧ x + j < m.imageWidth ∧ y + i ≥ 0 ∧ y + i < m.imageHeight then
                        let val : ℚ :=
                          ((readAt pixelBuffer (x + j)).r + (readAt pixelBuffer (x + j)).g
                            + (readAt pixelBuffer (x + j)).b) / 3
                        (acc.1 + val * (((if j = 0 then 0 else if j = 1 then 1 else -1 : Int)) : ℚ),
                         acc.2 + val * (((if i = 0 then 0 else if i = 1 then 1 else -1 : Int)) : ℚ))
                      else acc)
                    acc)
                (0, 0)
            let edge := ext.sqrt (gxy.1 * gxy.1 + gxy.2 * gxy.2) * m.currentParams.edgeDetect
            modifyAt edgeBuffer x (fun p => { p with r := edge, g := edge, b := edge })
          else edgeBuffer
        if m.currentParams.sharpness > 0 then
          let centerR := (readAt pixelBuffer x).r
          let centerG := (readAt pixelBuffer x).g
          let centerB := (readAt pixelBuffer x).b
          let blur : ℚ × ℚ × ℚ × Int :=
            ([-1, 0, 1] : List Int).foldl
              (fun s j =>
                if x + j ≥ 0 ∧ x + j < m.imageWidth then
                  (s.1 + (readAt pixelBuffer (x + j)).r,
                   s.2.1 + (readAt pixelBuffer (x + j)).g,
                   s.2.2.1 + (readAt pixelBuffer (x + j)).b,
                   s.2.2.2 + 1)
                else s)
              (0, 0, 0, 0)
          let validNeighbors := blur.2.2.2
          if validNeighbors > 0 then
            let blurR := blur.1 / (validNeighbors : ℚ)
            let blurG := blur.2.1 / (validNeighbors : ℚ)
            let blurB := blur.2.2.1 / (validNeighbors : ℚ)
            let normalizedSharpness := m.currentParams.sharpness
            modifyAt edgeBuffer x (fun p =>
              { p with r := clampQ (centerR + (centerR - blurR) * normalizedSharpness) 0 1,
                       g := clampQ (centerG + (centerG - blurG) * normalizedSharpness) 0 1,
                       b := clampQ (centerB + (centerB - blurB) * normalizedSharpness) 0 1 })
          else edgeBuffer
        else edgeBuffer)
      pixelBuffer

/-! ## Stage 7: glitch effects -/

/-- The slice part of `applyGlitchEffects`; `rng` counts the calls of
`random::uniform()` made so far. -/
def applyGlitchSlice (m : GIFGlitcher) (ext : Externals) (pixelBuffer : List PixelInfo)
    (y : Int) (rng : Nat) : List PixelInfo × Nat :=
  if m.currentParams.glitchSlice > 0 then
    let sliceHeight : Int := truncToInt (10 + m.currentParams.glitchSlice * 40)
    let maxOffset : Int :=
      truncToInt (m.currentParams.glitchSlice * (m.imageWidth : ℚ) * (3 / 10))
    let timeSlice : Int := (truncToInt (m.accumulatedTime * 10)).tmod sliceHeight
    if ((y + timeSlice).tdiv sliceHeight).tmod 2 = 0 then
      let offset : Int := truncToInt (ext.uniform rng * (maxOffset : ℚ))
      let shiftedLine := pixelBuffer
      ((intRange m.imageWidth).foldl
        (fun buf x =>
          let newX := (x + offset).tmod m.imageWidth
          let buf := writeAt buf x (readAt shiftedLine newX)
          let buf := modifyAt buf x (fun p =>
            { p with r := p.r * (1 + (1 / 5) * m.currentParams.glitchSlice) })
          modifyAt buf x (fun p =>
            { p with b := p.b * (1 - (1 / 10) * m.currentParams.glitchSlice) }))
        pixelBuffer, rng + 1)
    else (pixelBuffer, rng)
  else (pixelBuffer, rng)

/-- The artifacts part of `applyGlitchEffects`. -/
def applyGlitchArtifacts (m : GIFGlitcher) (ext : Externals) (pixelBuffer : List PixelInfo)
    (_y : Int) (rng : Nat) : List PixelInfo × Nat :=
  if m.currentParams.glitchArtifacts > 0 then
    let originalLine := pixelBuffer
    let artifactProbability := (1 / 20) * m.currentParams.glitchArtifacts
    let blockSize : Int := 1 + truncToInt (m.currentParams.glitchBlockSize * 31)
    (strideRange m.imageWidth blockSize).foldl
      (fun (st : List PixelInfo × Nat) x =>
        let buf := st.1
        let rng := st.2
        let bxs := intRange (min blockSize (m.imageWidth - x))
        if ext.uniform rng < artifactProbability then
          let rng := rng + 1
          let displaceDraw : Bool := decide (m.currentParams.glitchDisplacement > 0)
          let rng2 := if displaceDraw then rng + 1 else rng
          if displaceDraw && decide (ext.uniform rng < 1 / 2) then
            if m.currentParams.glitchDisplacement > 1 / 2 then
              let smearPixel := readAt originalLine x
              (bxs.foldl (fun buf bx => writeAt buf (x + bx) smearPixel) buf, rng2)
            else
              let displacementAmount := m.currentParams.glitchDisplacement * 2
              let maxDisplacement := (m.imageWidth : ℚ) * (3 / 10) * displacementAmount
              let xOffset : Int := truncToInt ((ext.uniform rng2 * 2 - 1) * maxDisplacement)
              (bxs.foldl
                (fun buf bx =>
                  let sourceX := x + bx + xOffset
                  let sourceX := (sourceX.tmod m.imageWidth + m.imageWidth).tmod m.imageWidth
                  writeAt buf (x + bx) (readAt originalLine sourceX))
                buf, rng2 + 1)
          else
            let shiftAmount := m.currentParams.glitchArtifacts * (1 / 2)
            let rShift := (ext.uniform rng2 * 2 - 1) * shiftAmount
            let gShift := (ext.uniform (rng2 + 1) * 2 - 1) * shiftAmount
            let bShift := (ext.uniform (rng2 + 2) * 2 - 1) * shiftAmount
            (bxs.foldl
              (fun buf bx =>
                modifyAt buf (x + bx) (fun p =>
                  { p with r := clampQ ((readAt originalLine (x + bx)).r + rShift) 0 1,
                           g := clampQ ((readAt originalLine (x + bx)).g + gShift) 0 1,
                           b := clampQ ((readAt originalLine (x + bx)).b + bShift) 0 1 }))
              buf, rng2 + 3)
        else (buf, rng + 1))
      (pixelBuffer, rng)
  else (pixelBuffer, rng)

/-- The method `applyGlitchEffects(pixelBuffer, y)`. -/
def applyGlitchEffects (m : GIFGlitcher) (ext : Externals) (pixelBuffer : List PixelInfo)
    (y : Int) (rng : Nat) : List PixelInfo × Nat :=
  let st := applyGlitchSlice m ext pixelBuffer y rng
  applyGlitchArtifacts m ext st.1 y st.2

/-! ## Stage 8: data-mosh effects -/

/-- The bit-crush part of `applyDataMoshEffects`. -/
def applyBitCrush (m : GIFGlitcher) (pixelBuffer : List PixelInfo) : List PixelInfo :=
  if m.currentParams.bitCrush > 0 then
    let bits : Int := 8 - truncToInt (m.currentParams.bitCrush * 7)
    if bits < 8 then
      let mask : Int := 255 * 2 ^ (8 - bits).toNat
      pixelBuffer.map (fun pixel =>
        { pixel with r := ((Int.land (truncToInt (pixel.r * 255)) mask : Int) : ℚ) / 255,
                     g := ((Int.land (truncToInt (pixel.g * 255)) mask : Int) : ℚ) / 255,
                     b := ((Int.land (truncToInt (pixel.b * 255)) mask : Int) : ℚ) / 255 })
    else pixelBuffer
  else pixelBuffer

/-- The 24-bit packing, shift and unpacking of one pixel in the data-shift
part of `applyDataMoshEffects`; `packed` is a 32-bit `unsigned int`. -/
def dataShiftPixel (shift : Int) (p : PixelInfo) : PixelInfo :=
  let r : Int := truncToInt (p.r * 255)
  let g : Int := truncToInt (p.g * 255)
  let b : Int := truncToInt (p.b * 255)
  let packed : Int := (Int.lor (Int.lor (r * 2 ^ 16) (g * 2 ^ 8)) b) % 2 ^ 32
  let packed : Int := (packed * 2 ^ shift.toNat) % 2 ^ 32
  { p with r := ((Int.land (packed / 2 ^ 16) 255 : Int) : ℚ) / 255,
           g := ((Int.land (packed / 2 ^ 8) 255 : Int) : ℚ) / 255,
           b := ((Int.land packed 255 : Int) : ℚ) / 255 }

/-- The data-shift part of `applyDataMoshEffects`. -/
def applyDataShift (m : GIFGlitcher) (ext : Externals) (pixelBuffer : List PixelInfo)
    (rng : Nat) : List PixelInfo × Nat :=
  if m.currentParams.dataShift > 0 then
    let blockSize : Int := 32
    (strideRange m.imageWidth blockSize).foldl
      (fun (st : List PixelInfo × Nat) x =>
        if ext.uniform st.2 < m.currentParams.dataShift * (1 / 10) then
          let shift : Int := truncToInt (m.currentParams.dataShift * 7)
          ((intRange (min blockSize (m.imageWidth - x))).foldl
            (fun buf bx => modifyAt buf (x + bx) (dataShiftPixel shift))
            st.1, st.2 + 1)
        else (st.1, st.2 + 1))
      (pixelBuffer, rng)
  else (pixelBuffer, rng)

/-- The sum `p.r + p.g + p.b` of the pixel sort, two binary32 additions. -/
def channelSum (p : PixelInfo) : ℚ :=
  f32 (f32 (p.r + p.g) + p.b)

/-- The value `brightness` of the pixel sort: `(p.r + p.g + p.b) / 3.f` in
binary32. -/
def sortBrightness (p : PixelInfo) : ℚ :=
  f32 (channelSum p / 3)

/-- The comparator of the pixel sort: `(a.r + a.g + a.b) < (b.r + b.g + b.b)`. -/
def sumLess (a b : PixelInfo) : Bool :=
  decide (channelSum a < channelSum b)

/-- The call `std::sort(buf.begin() + first, buf.begin() + last, sumLess)`;
every call of the source has `0 ≤ first ≤ last`. -/
def sortRange (ext : Externals) (buf : List PixelInfo) (first last : Int) : List PixelInfo :=
  buf.take first.toNat
    ++ ext.stdSort sumLess ((buf.drop first.toNat).take (last.toNat - first.toNat))
    ++ buf.drop (max first.toNat last.toNat)

/-- The body of the pixel-sort loop of `applyDataMoshEffects` for column `x`;
the loop state is the buffer and the variable `start`. -/
def pixelSortStep (m : GIFGlitcher) (ext : Externals) (st : List PixelInfo × Int) (x : Int) :
    List PixelInfo × Int :=
  let threshold := m.currentParams.pixelSort
  let brightness : ℚ := sortBrightness (readAt st.1 x)
  let start : Int := if st.2 = -1 ∧ brightness > threshold then x else st.2
  if start ≠ -1 ∧ (brightness < threshold ∨ x = m.imageWidth - 1) then
    (sortRange ext st.1 start x, -1)
  else (st.1, start)

/-- The pixel-sort part of `applyDataMoshEffects`. -/
def applyPixelSort (m : GIFGlitcher) (ext : Externals) (pixelBuffer : List PixelInfo) :
    List PixelInfo :=
  if m.currentParams.pixelSort > 0 then
    ((intRange m.imageWidth).foldl (pixelSortStep m ext) (pixelBuffer, -1)).1
  else pixelBuffer

/-- The method `applyDataMoshEffects(pixelBuffer, y)`. -/
def applyDataMoshEffects (m : GIFGlitcher) (ext : Externals) (pixelBuffer : List PixelInfo)
    (_y : Int) (rng : Nat) : List PixelInfo × Nat :=
  let crushed := applyBitCrush m pixelBuffer
  let shifted := applyDataShift m ext crushed rng
  (applyPixelSort m ext shifted.1, shifted.2)

/-! ## Stage 9: post-processing -/

/-- The method `applyPostProcessingEffects(pixel, x, y)`. -/
def applyPostProcessingEffects (m : GIFGlitcher) (ext : Externals) (pixel : PixelInfo)
    (_x y : Int) (rng : Nat) : PixelInfo × Nat :=
  let pixel :=
    if m.currentParams.interlaceEffect then
      let lineOffset : Int := (truncToInt (m.accumulatedTime * 60)).tmod 2
      if (y + lineOffset).tmod 2 = 0 then
        let intensity := 1 - m.currentParams.interlaceIntensity
        { pixel with r := pixel.r * intensity, g := pixel.g * intensity,
                     b := pixel.b * intensity }
      else pixel
    else pixel
  let st : PixelInfo × Nat :=
    if m.currentParams.noise > 0 then
      let noiseR := ext.uniform rng * 2 - 1
      let noiseG := ext.uniform (rng + 1) * 2 - 1
      let noiseB := ext.uniform (rng + 2) * 2 - 1
      ({ pixel with
          r := clampQ (pixel.r + noiseR * m.currentParams.noise * (1 / 2)) 0 1,
          g := clampQ (pixel.g + noiseG * m.currentParams.noise * (1 / 2)) 0 1,
          b := clampQ (pixel.b + noiseB * m.currentParams.noise * (1 / 2)) 0 1 }, rng + 3)
    else (pixel, rng)
  if m.currentParams.invertColors then
    ({ st.1 with r := 1 - st.1.r, g := 1 - st.1.g, b := 1 - st.1.b }, st.2)
  else st

/-! ## The pass over the image -/

/-- Step 1 of a row of `processImage`: a fresh row buffer of `imageWidth`
pixels, each remapped by `applyGeometricEffects` and sampled from the local
copy of the source buffer, a byte divided by `255.0f` in binary32. -/
def sampleRow (m : GIFGlitcher) (localImageData : List Nat) (cy : Int) : List PixelInfo :=
  (intRange m.imageWidth).foldl
    (fun buf x =>
      modifyAt buf x (fun pixel =>
        let pixel := applyGeometricEffects m pixel x cy
        let sourceIdx := (pixel.sourceY * m.imageWidth + pixel.sourceX) * 4
        { pixel with r := f32 ((readByte localImageData sourceIdx : ℚ) / 255),
                     g := f32 ((readByte localImageData (sourceIdx + 1) : ℚ) / 255),
                     b := f32 ((readByte localImageData (sourceIdx + 2) : ℚ) / 255),
                     a := f32 ((readByte localImageData (sourceIdx + 3) : ℚ) / 255) }))
    (List.replicate m.imageWidth.toNat default)

/-- Steps 2 to 8 of a row of `processImage`, in the order of the source. -/
def applyRowStages (m : GIFGlitcher) (ext : Externals) (pixelBuffer : List PixelInfo)
    (cy : Int) (rng : Nat) : List PixelInfo × Nat :=
  let pixelBuffer := applyPixelation m pixelBuffer cy
  let pixelBuffer := applyRgbAberration m pixelBuffer cy
  let pixelBuffer := applyColorAdjustments m pixelBuffer
  let pixelBuffer := applyPosterizeAndDither m pixelBuffer cy
  let pixelBuffer := applyKernelEffects m ext pixelBuffer cy
  let st := applyGlitchEffects m ext pixelBuffer cy rng
  applyDataMoshEffects m ext st.1 cy st.2

/-- Step 9 of a row of `processImage`: post-processing of each pixel and the
conversion to four bytes of the work buffer, the binary32 product with
`255.0f` truncated. -/
def storeRow (m : GIFGlitcher) (ext : Externals) (workBuffer : List Nat)
    (pixelBuffer : List PixelInfo) (cy : Int) (rng : Nat) : List Nat × Nat :=
  (intRange m.imageWidth).foldl
    (fun (st : List Nat × Nat) x =>
      let pp := applyPostProcessingEffects m ext (readAt pixelBuffer x) x cy st.2
      let pixel := pp.1
      let currentIdx := (cy * m.imageWidth + x) * 4
      let wb := writeAt st.1 currentIdx (toByte (clampQ (f32 (pixel.r * 255)) 0 255))
      let wb := writeAt wb (currentIdx + 1) (toByte (clampQ (f32 (pixel.g * 255)) 0 255))
      let wb := writeAt wb (currentIdx + 2) (toByte (clampQ (f32 (pixel.b * 255)) 0 255))
      let wb := writeAt wb (currentIdx + 3) (toByte (f32 (pixel.a * 255)))
      (wb, pp.2))
    (workBuffer, rng)

/-- The body of the row loop of `processImage` for row `cy`. -/
def processRow (m : GIFGlitcher) (ext : Externals) (localImageData : List Nat)
    (st : List Nat × Nat) (cy : Int) : List Nat × Nat :=
  let staged := applyRowStages m ext (sampleRow m localImageData cy) cy st.2
  storeRow m ext st.1 staged.1 cy staged.2

/-- The chunk loop of `processImage`: the state is the work buffer, the
random counter and whether the pass has returned early because
`threadRunning` was observed false after a chunk. -/
def processChunks (m : GIFGlitcher) (ext : Externals) (localImageData : List Nat)
    (workBuffer : List Nat) (rng : Nat) : (List Nat × Nat) × Bool :=
  let chunkSize : Int := 64
  (strideRange m.imageHeight chunkSize).foldl
    (fun (st : (List Nat × Nat) × Bool) y =>
      if st.2 then st
      else
        let endY := min (y + chunkSize) m.imageHeight
        let done := (intRangeFrom y endY).foldl (processRow m ext localImageData) st.1
        if ext.threadRunningAt (y / chunkSize).toNat then (done, false) else (done, true))
    ((workBuffer, rng), false)

/-- The method `processImage()`: returns the new module state and the random
counter. -/
def processImage (m : GIFGlitcher) (ext : Externals) (rng : Nat) : GIFGlitcher × Nat :=
  if m.imageData.isEmpty then (m, rng)
  else
    let workBuffer : List Nat := List.replicate m.imageData.length 0
    let localImageData := m.imageData
    let res := processChunks m ext localImageData workBuffer rng
    if res.2 then (m, res.1.2)
    else ({ m with processedData := res.1.1, textureNeedsUpdate := true }, res.1.2)

/-! ## The animation driver (the last block of `process`) -/

/-- The frame selection `switch (playbackMode)` of `process`: returns the new
`currentFrame`, the new `playbackReverse` and the random counter.
`currentFrame` is a `size_t`, so `++` and `--` wrap modulo `2 ^ 64`. -/
def advanceFrame (m : GIFGlitcher) (ext : Externals) (rng : Nat) : Nat × Bool × Nat :=
  let size := m.gifFrames.length
  match m.playbackMode with
  | PlaybackMode.FORWARD =>
    (((m.currentFrame + 1) % 2 ^ 64) % size, m.playbackReverse, rng)
  | PlaybackMode.PING_PONG =>
    if m.playbackReverse = false then
      let currentFrame := (m.currentFrame + 1) % 2 ^ 64
      if currentFrame ≥ (size + 2 ^ 64 - 1) % 2 ^ 64 then
        ((size + 2 ^ 64 - 1) % 2 ^ 64, true, rng)
      else (currentFrame, false, rng)
    else
      let currentFrame := (m.currentFrame + 2 ^ 64 - 1) % 2 ^ 64
      if currentFrame ≤ 0 then (0, false, rng)
      else (currentFrame, true, rng)
  | PlaybackMode.RANDOM =>
    ((truncToInt (ext.uniform rng * (size : ℚ)) % 2 ^ 64).toNat, m.playbackReverse, rng + 1)

/-- The method `stopWorkerThread()`. -/
def stopWorkerThread (m : GIFGlitcher) : GIFGlitcher :=
  if m.threadRunning then { m with threadRunning := false } else m

/-- The method `startWorkerThread()`. -/
def startWorkerThread (m : GIFGlitcher) : GIFGlitcher :=
  if m.threadRunning = false then { m with threadRunning := true, processRequested := false }
  else m

/-- The first extension loop of a frame in `loadGif`: returns
`(transparentColor, disposal)`, taken from the graphics-control extensions
(the last one wins). -/
def gifControl (image : SavedImage) : Int × Int :=
  image.ExtensionBlocks.foldl
    (fun (st : Int × Int) eb =>
      if eb.Function = GRAPHICS_EXT_FUNC_CODE then
        let disposal : Int := (((readByte eb.Bytes 0 >>> 2) &&& 7 : Nat) : Int)
        let transparentColor : Int :=
          if (readByte eb.Bytes 0 &&& 1) ≠ 0 then ((readByte eb.Bytes 3 : Nat) : Int) else st.1
        (transparentColor, disposal)
      else st)
    (-1, 0)

/-- The `DISPOSE_BACKGROUND` loop of `loadGif`: clears the rectangle of
`image` on the canvas to transparent. -/
def clearRect (imageWidth : Int) (image : SavedImage) (canvas : List Nat) : List Nat :=
  (intRange image.ImageDesc.Height).foldl
    (fun canvas y =>
      (intRange image.ImageDesc.Width).foldl
        (fun canvas x =>
          let idx := ((y + image.ImageDesc.Top) * imageWidth + (x + image.ImageDesc.Left)) * 4
          let canvas := writeAt canvas idx 0
          let canvas := writeAt canvas (idx + 1) 0
          let canvas := writeAt canvas (idx + 2) 0
          writeAt canvas (idx + 3) 0)
        canvas)
    canvas

/-- The compositing loop of `loadGif`: draws the non-transparent pixels of
`image` onto the canvas. -/
def drawFrame (imageWidth : Int) (image : SavedImage) (colorMap : Option ColorMapObject)
    (transparentColor : Int) (canvas : List Nat) : List Nat :=
  (intRange image.ImageDesc.Height).foldl
    (fun canvas y =>
      (intRange image.ImageDesc.Width).foldl
        (fun canvas x =>
          let srcIdx := y * image.ImageDesc.Width + x
          let dstIdx := ((y + image.ImageDesc.Top) * imageWidth + (x + image.ImageDesc.Left)) * 4
          let colorIndex : Int := (readByte image.RasterBits srcIdx : Int)
          if colorIndex ≠ transparentColor then
            let color : GifColorType :=
              readAt (match colorMap with
                      | some cm => cm.Colors
                      | none => []) colorIndex
            let canvas := writeAt canvas dstIdx color.Red
            let canvas := writeAt canvas (dstIdx + 1) color.Green
            let canvas := writeAt canvas (dstIdx + 2) color.Blue
            writeAt canvas (dstIdx + 3) 255
          else canvas)
        canvas)
    canvas

/-- The delay loop of a frame in `loadGif`: the default of 100 ms, replaced by
ten times the centisecond delay of the first graphics-control extension when
that is positive. -/
def frameDelay (image : SavedImage) : Int :=
  match image.ExtensionBlocks.find? (fun eb => decide (eb.Function = GRAPHICS_EXT_FUNC_CODE)) with
  | some eb =>
    let delay : Int := (((readByte eb.Bytes 2 <<< 8) ||| readByte eb.Bytes 1 : Nat) : Int) * 10
    if delay > 0 then delay else 100
  | none => 100

/-- The body of the frame loop of `loadGif` for image `i`; the state is
`(canvas, prevCanvas, gifFrames)`. -/
def loadFrame (m : GIFGlitcher) (ext : Externals) (gif : GifFileType)
    (st : List Nat × List Nat × List GifFrame) (i : Int) :
    List Nat × List Nat × List GifFrame :=
  let image : SavedImage := readAt gif.SavedImages i
  let canvas := st.1
  let prevCanvas := st.2.1
  let ctl := gifControl image
  let transparentColor := ctl.1
  let disposal := ctl.2
  let colorMap : Option ColorMapObject :=
    match image.ImageDesc.ColorMap with
    | some cm => some cm
    | none => gif.SColorMap
  let canvas :=
    if i > 0 then
      if disposal = DISPOSE_BACKGROUND then clearRect m.imageWidth image canvas
      else if disposal = DISPOSE_PREVIOUS then prevCanvas
      else canvas
    else canvas
  let prevCanvas := canvas
  let canvas := drawFrame m.imageWidth image colorMap transparentColor canvas
  let frame : GifFrame :=
    { data := canvas,
      delay := frameDelay image,
      imageHandle :=
        if m.vg.isSome then ext.nvgCreateImageRGBA m.imageWidth m.imageHeight canvas else 0 }
  (canvas, prevCanvas, st.2.2 ++ [frame])

/-- The start of the locked block of `loadGif`, after the worker has been
stopped: the output texture handle is dropped, the frame store is cleared and
the image dimensions are taken from the decoded file. -/
def resetFrameStore (m : GIFGlitcher) (gif : GifFileType) : GIFGlitcher :=
  let m := stopWorkerThread m
  let m := if m.vg.isSome then { m with outputImageHandle := 0 } else m
  { m with gifFrames := [], currentFrame := 0, frameAccumulator := 0,
           imageWidth := gif.SWidth, imageHeight := gif.SHeight }

/-- The frame loop of `loadGif` over a zeroed canvas: returns the final
`(canvas, prevCanvas, gifFrames)`. -/
def loadFrames (m : GIFGlitcher) (ext : Externals) (gif : GifFileType) :
    List Nat × List Nat × List GifFrame :=
  let canvas : List Nat := List.replicate (m.imageWidth * m.imageHeight * 4).toNat 0
  let prevCanvas : List Nat := canvas
  (intRange gif.ImageCount).foldl (loadFrame m ext gif) (canvas, prevCanvas, [])

/-- The end of `loadGif` after the frame loop: the frames are stored, the
first frame becomes the source and output buffer, and the worker is
restarted. -/
def installFrames (m : GIFGlitcher) (ext : Externals) (path : String)
    (frames : List GifFrame) : GIFGlitcher × Bool :=
  let m := { m with gifFrames := frames }
  let m := { m with isAnimated := decide (m.gifFrames.length > 1) }
  if ¬ m.gifFrames.isEmpty then
    let m := { m with imageData := (m.gifFrames.getD 0 default).data }
    let m := { m with processedData := m.imageData, imagePath := path }
    let m :=
      if m.vg.isSome then
        { m with outputImageHandle :=
            ext.nvgCreateImageRGBA m.imageWidth m.imageHeight m.processedData }
      else m
    let m := startWorkerThread m
    ({ m with textureNeedsUpdate := true, processRequested := true }, true)
  else (m, false)

/-- The part of `loadGif(path)` that follows a successful decode: the
dimension check, the reset of the frame store, the check for frames, the frame
loop and the installation of the frames. -/
def loadDecoded (m : GIFGlitcher) (ext : Externals) (path : String) (gif : GifFileType) :
    GIFGlitcher × Bool :=
  if gif.SWidth ≤ 0 ∨ gif.SHeight ≤ 0 ∨ gif.SWidth > 4096 ∨ gif.SHeight > 4096 then
    (m, false)
  else
    let m := resetFrameStore m gif
    if gif.ImageCount ≤ 0 then (m, false)
    else installFrames m ext path (loadFrames m ext gif).2.2

/-- The method `loadGif(path)`: returns the new module state and the boolean
result. -/
def loadGif (m : GIFGlitcher) (ext : Externals) (path : String) : GIFGlitcher × Bool :=
  if path.isEmpty then (m, false)
  else
    let m := { m with imagePath := path }
    if m.vg.isNone then
      ({ m with pendingGifPath := path, hasPendingGif := true }, false)
    else
      let m := { m with decodeLog := m.decodeLog ++ [path] }
      match ext.DGifOpenFileName path with
      | none => (m, false)
      | some opened =>
        match ext.DGifSlurp opened with
        | none => (m, false)
        | some gif => loadDecoded m ext path gif

/-- The method `setVG(_vg)`. -/
def setVG (m : GIFGlitcher) (ext : Externals) (_vg : Option NVGcontext) : GIFGlitcher :=
  let m := { m with vg := _vg }
  if m.hasPendingGif ∧ m.vg.isSome then
    let res := loadGif m ext m.pendingGifPath
    { res.1 with hasPendingGif := false }
  else m

end GIFGlitcher

/-! ## Example states used by the witnesses -/

/-- A 4 x 3 module state with both full mirror flags and both half-mirror
flags set. -/
def mirrorFlipModule : GIFGlitcher :=
  { imageWidth := 4, imageHeight := 3,
    currentParams :=
      { mirrorEffect := true, flipEffect := true,
        halfMirrorEffect := true, halfMirrorVerticalEffect := true } }

/-- A module state of width 1 with `posterize = 0.1f`, that is `3.4f` levels,
and dither off. -/
def posterizeModule : GIFGlitcher :=
  { imageWidth := 1, imageHeight := 1, currentParams := { posterize := f32 (1 / 10) } }

/-- A row of one pixel with channels `0.295f`, `0.5f` and 0. -/
def levelEdgeRow : List PixelInfo :=
  [{ sourceX := 0, r := f32 (295 / 1000), g := 1 / 2, b := 0, a := 1 }]

/-- A row of two pixels. -/
def twoPixelRow : List PixelInfo :=
  [ { sourceX := 0, sourceY := 0, r := 1 / 2, g := 3 / 10, b := 9 / 10, a := 1 },
    { sourceX := 1, sourceY := 0, r := 1 / 5, g := 1, b := 0, a := 1 / 2 } ]

/-- A module state of width 2 in dither-only mode: posterize 0, dither on,
dither intensity at its default `0.2`. -/
def ditherModule : GIFGlitcher :=
  { imageWidth := 2, imageHeight := 4, currentParams := { ditherEffect := true } }

/-! ## Drivers that iterate the animation -/

/-- The state after `k` successive frame advances (each one the `switch` of
`process` followed by the assignment of its results). -/
def advanceTimes (ext : Externals) : Nat → GIFGlitcher × Nat → GIFGlitcher × Nat
  | 0, st => st
  | k + 1, st =>
    let prev := advanceTimes ext k st
    let adv := prev.1.advanceFrame ext prev.2
    ({ prev.1 with currentFrame := adv.1, playbackReverse := adv.2.1 }, adv.2.2)

/-- External collaborators for the examples: the random generator always
returns 0, the worker is never asked to stop, the decoder fails, and
`std::sort` is modelled by insertion sort. -/
def quietExternals : Externals :=
  { uniform := fun _ => 0,
    sqrt := fun q => q,
    stdSort := fun lt l => l.insertionSort (fun a b => lt b a = false),
    threadRunningAt := fun _ => true,
    DGifOpenFileName := fun _ => none,
    DGifSlurp := fun _ => none,
    nvgCreateImageRGBA := fun _ _ _ => 1 }

/-- A four-frame animation in PingPong mode at index 0, direction forward. -/
def pingPongModule : GIFGlitcher :=
  { gifFrames := [{ delay := 100 }, { delay := 100 }, { delay := 100 }, { delay := 100 }],
    isAnimated := true, playbackMode := PlaybackMode.PING_PONG }

/-- A decoder that opens every file and delivers a 1 x 1 animation with one
frame. -/
def onePixelExternals : Externals :=
  { quietExternals with
    DGifOpenFileName := fun _ => some { SWidth := 1, SHeight := 1 },
    DGifSlurp := fun g =>
      some { g with
        SColorMap := some { Colors := [{ Red := 10, Green := 20, Blue := 30 }] },
        ImageCount := 1,
        SavedImages := [{ ImageDesc := { Width := 1, Height := 1 }, RasterBits := [0] }] } }

/-- The fields that record a deferred load, the decode log and the context. -/
def deferredFields (m : GIFGlitcher) : List String × Bool × String × Option NVGcontext :=
  (m.decodeLog, m.hasPendingGif, m.pendingGifPath, m.vg)

/-! ## Pixel sort: the contract of `std::sort` and a list view of the loop -/

/-- The average brightness `(r + g + b) / 3` the pixel sort compares with the
threshold. -/
def avgBrightness (p : PixelInfo) : ℚ :=
  (p.r + p.g + p.b) / 3

/-- The contract of `std::sort` with the comparator of the pixel sort: the
result is a permutation of the range in which no element is less than an
earlier one.  The order of elements that compare equal is not specified. -/
def StdSortContract
    (sort : (PixelInfo → PixelInfo → Bool) → List PixelInfo → List PixelInfo) : Prop :=
  ∀ l : List PixelInfo,
    (sort GIFGlitcher.sumLess l).Perm l
      ∧ (sort GIFGlitcher.sumLess l).Pairwise (fun a b => GIFGlitcher.sumLess b a = false)

/-- A sort leaves sorted ranges unchanged when a range in which no element is
less than an earlier one is returned as it is (every stable sort does). -/
def KeepsSortedRanges
    (sort : (PixelInfo → PixelInfo → Bool) → List PixelInfo → List PixelInfo) : Prop :=
  ∀ l : List PixelInfo,
    l.Pairwise (fun a b => GIFGlitcher.sumLess b a = false) → sort GIFGlitcher.sumLess l = l

/-- A list view of the pixel-sort loop, used to reason about it: the row is
consumed from the left; the state is `none` while `start == -1` and
`some run` while a run is open, `run` being the pixels from `start` up to the
current column. -/
def sortRuns (sort : List PixelInfo → List PixelInfo) (threshold : ℚ) :
    Option (List PixelInfo) → List PixelInfo → List PixelInfo
  | none, [] => []
  | some run, [] => run
  | none, p :: ps =>
    if GIFGlitcher.sortBrightness p > threshold then
      if ps = [] then [p] else sortRuns sort threshold (some [p]) ps
    else p :: sortRuns sort threshold none ps
  | some run, p :: ps =>
    if GIFGlitcher.sortBrightness p < threshold ∨ ps = [] then sort run ++ p :: sortRuns sort threshold none ps
    else sortRuns sort threshold (some (run ++ [p])) ps

/-- A module state of width 3 with pixel sort at threshold `0.1f` and the other
data-mosh effects off. -/
def pixelSortModule : GIFGlitcher :=
  { imageWidth := 3, imageHeight := 1, currentParams := { pixelSort := f32 (1 / 10) } }

/-! ## The `std::sort` of libstdc++ -/

/-- A 2 x 1 image with the neutral parameter snapshot. -/
def neutralModule : GIFGlitcher :=
  { imageWidth := 2, imageHeight := 1,
    imageData := [255, 0, 128, 255, 17, 17, 17, 0],
    processedData := [0, 0, 0, 0, 0, 0, 0, 0] }

/-- A decoder that opens every file and delivers a 3 x 2 canvas without any
image. -/
def noImageExternals : Externals :=
  { quietExternals with
    DGifOpenFileName := fun _ => some { SWidth := 3, SHeight := 2 },
    DGifSlurp := fun g => some g }

/-- A module with a render context that has loaded the 1 x 1 animation
"old.gif" and whose worker is running. -/
def loadedModule : GIFGlitcher :=
  { vg := some { id := 1 }, imagePath := "old.gif", imageWidth := 1, imageHeight := 1,
    gifFrames := [{ data := [10, 20, 30, 255], delay := 100, imageHandle := 1 }],
    imageData := [10, 20, 30, 255], processedData := [10, 20, 30, 255],
    outputImageHandle := 1, threadRunning := true }

/-! ## Example states for the row stages -/

/-- A 2 x 1 image (a red and a black pixel) with `rgbAberration = 0.05f`, that
is a shift of one column. -/
def aberrationModule : GIFGlitcher :=
  { imageWidth := 2, imageHeight := 1,
    imageData := [255, 0, 0, 255, 0, 0, 0, 255],
    currentParams := { rgbAberration := f32 (1 / 20) } }

/-- The sampled row of the 2 x 1 image of `aberrationModule`. -/
def redBlackRow : List PixelInfo :=
  [{ sourceX := 0, sourceY := 0, r := 1, g := 0, b := 0, a := 1 },
   { sourceX := 1, sourceY := 0, r := 0, g := 0, b := 0, a := 1 }]

/-- An 8 x 1 image, black but for the red bytes 100 and 200 of columns 6 and
7, with `rgbAberration = 0.35f`. -/
def wideAberrationModule : GIFGlitcher :=
  { imageWidth := 8, imageHeight := 1,
    imageData := [0, 0, 0, 255, 0, 0, 0, 255, 0, 0, 0, 255, 0, 0, 0, 255,
                  0, 0, 0, 255, 0, 0, 0, 255, 100, 0, 0, 255, 200, 0, 0, 255],
    currentParams := { rgbAberration := f32 (7 / 20) } }

/-- The sampled row of the 8 x 1 image of `wideAberrationModule`. -/
def wideAberrationRow : List PixelInfo :=
  wideAberrationModule.sampleRow wideAberrationModule.imageData 0

/-- A 3 x 1 image with `sharpness = 1` and no edge detection. -/
def sharpenModule : GIFGlitcher :=
  { imageWidth := 3, imageHeight := 1,
    imageData := [77, 77, 77, 255, 153, 153, 153, 255, 77, 77, 77, 255],
    currentParams := { sharpness := 1 } }

/-- A grey row of three pixels with values `3/10`, `6/10`, `3/10`. -/
def greyPeakRow : List PixelInfo :=
  [{ sourceX := 0, r := 3 / 10, g := 3 / 10, b := 3 / 10, a := 1 },
   { sourceX := 1, r := 6 / 10, g := 6 / 10, b := 6 / 10, a := 1 },
   { sourceX := 2, r := 3 / 10, g := 3 / 10, b := 3 / 10, a := 1 }]

/-- The block mean of the specification: the arithmetic mean of the channel
`chan` over the columns `lo .. hi - 1` of a row. -/
def blockMean (chan : PixelInfo → ℚ) (row : List PixelInfo) (lo hi : Nat) : ℚ :=
  ((List.range (hi - lo)).map (fun j => chan (readAt row ((lo + j : Nat) : Int)))).sum
    / ((hi - lo : Nat) : ℚ)

/-- A 3 x 1 image with `pixelation = 0.05f`, that is a block size of 2. -/
def pixelationModule : GIFGlitcher :=
  { imageWidth := 3, imageHeight := 1,
    imageData := [51, 0, 0, 255, 102, 0, 0, 255, 230, 0, 0, 255],
    currentParams := { pixelation := f32 (1 / 20) } }

/-- The sampled row of the 3 x 1 image of `pixelationModule`. -/
def redRampRow : List PixelInfo :=
  [{ sourceX := 0, r := f32 (51 / 255), a := 1 },
   { sourceX := 1, r := f32 (102 / 255), a := 1 },
   { sourceX := 2, r := f32 (230 / 255), a := 1 }]

/-- A module state of width 7 with `pixelation = 0.175f`. -/
def coarsePixelationModule : GIFGlitcher :=
  { imageWidth := 7, imageHeight := 1,
    currentParams := { pixelation := f32 (7 / 40) } }

/-- A row of six black pixels and a red one. -/
def blackThenRedRow : List PixelInfo :=
  [{ sourceX := 0, a := 1 }, { sourceX := 1, a := 1 }, { sourceX := 2, a := 1 },
   { sourceX := 3, a := 1 }, { sourceX := 4, a := 1 }, { sourceX := 5, a := 1 },
   { sourceX := 6, r := 1, a := 1 }]

/-! ## Pixel sort: the segments of a row -/

/-- A segment of a row as the pixel-sort loop sees it: a pixel outside every
run, or a run made of the pixel that opens it, the pixels it then swallows and
the pixel that closes it. -/
inductive SortSegment where
  | dark (p : PixelInfo)
  | run (first : PixelInfo) (mid : List PixelInfo) (stop : PixelInfo)

/-- The pixels of a segment, in row order. -/
def SortSegment.pixels : SortSegment → List PixelInfo
  | SortSegment.dark p => [p]
  | SortSegment.run first mid stop => first :: mid ++ [stop]

/-- The pixels of a segment after the pixel sort: the opening pixel and the
swallowed pixels are sorted, the closing pixel stays behind them. -/
def SortSegment.sortedPixels (sort : List PixelInfo → List PixelInfo) :
    SortSegment → List PixelInfo
  | SortSegment.dark p => [p]
  | SortSegment.run first mid stop => sort (first :: mid) ++ [stop]

/-- The condition under which the loop cuts a segment at threshold `t`.  A
pixel outside every run is not brighter than `t`, or is the last pixel of the
row.  A run opens with a pixel brighter than `t`, swallows pixels that are not
darker than `t`, and is closed by a pixel darker than `t`, or by the last
pixel of the row. -/
def SortSegment.valid (t : ℚ) (isLast : Bool) : SortSegment → Prop
  | SortSegment.dark p => GIFGlitcher.sortBrightness p ≤ t ∨ isLast = true
  | SortSegment.run first mid stop =>
    GIFGlitcher.sortBrightness first > t ∧ (∀ x ∈ mid, ¬ GIFGlitcher.sortBrightness x < t)
      ∧ (GIFGlitcher.sortBrightness stop < t ∨ isLast = true)

/-- A row cut into segments at threshold `t`; only the last segment may end
at the last pixel of the row. -/
def validSegments (t : ℚ) : List SortSegment → Prop
  | [] => True
  | [s] => s.valid t true
  | s :: s2 :: rest => s.valid t false ∧ validSegments t (s2 :: rest)

/-- The row that a list of segments was cut from. -/
def rowOfSegments : List SortSegment → List PixelInfo
  | [] => []
  | s :: rest => s.pixels ++ rowOfSegments rest

/-- The row after each segment was sorted. -/
def sortedSegments (sort : List PixelInfo → List PixelInfo) :
    List SortSegment → List PixelInfo
  | [] => []
  | s :: rest => s.sortedPixels sort ++ sortedSegments sort rest

/-- A grey pixel of value `v` at column `x`. -/
def greyPixel (x : Int) (v : ℚ) : PixelInfo :=
  { sourceX := x, r := v, g := v, b := v, a := 1 }

/-- A row of three grey pixels `0.9f, 0.7f, 0.8f`, all brighter than `0.1f`. -/
def brightRunRow : List PixelInfo :=
  [greyPixel 0 (f32 (9 / 10)), greyPixel 1 (f32 (7 / 10)), greyPixel 2 (f32 (8 / 10))]

/-- A row of three grey pixels: `0.9f`, `0.1f` (its brightness in binary32 is
exactly `0.1f`), and black. -/
def thresholdPixelRow : List PixelInfo :=
  [greyPixel 0 (f32 (9 / 10)), greyPixel 1 (f32 (1 / 10)), greyPixel 2 0]

/-- A module state of width 4 with pixel sort at threshold `0.9f`. -/
def highThresholdModule : GIFGlitcher :=
  { imageWidth := 4, imageHeight := 1, currentParams := { pixelSort := f32 (9 / 10) } }

/-- A row of four grey pixels `0.95f, 0.9f, 0.92f, 0`: the brightness of the
second, `(0.9f + 0.9f + 0.9f) / 3.f` in binary32, is below `0.9f`. -/
def roundedBrightnessRow : List PixelInfo :=
  [greyPixel 0 (f32 (95 / 100)), greyPixel 1 (f32 (9 / 10)), greyPixel 2 (f32 (92 / 100)),
   greyPixel 3 0]

/-! ## Example states for the colour adjustment -/

/-- A module state with the default snapshot (brightness, contrast and
saturation 1) and hue shift `h`. -/
def hueShiftModule (h : ℚ) : GIFGlitcher :=
  { currentParams := { hueShift := h } }

/-- The pixel sampled from the bytes `(0, 15, 195, 255)`. -/
def bluishPixel : PixelInfo :=
  { r := 0, g := f32 (15 / 255), b := f32 (195 / 255), a := 1 }

/-- A row of a red, a green, a blue and a grey pixel: their hues are 0, 120,
240 and 0. -/
def primaryRow : List PixelInfo :=
  [{ sourceX := 0, r := 1, g := 0, b := 0, a := 1 },
   { sourceX := 1, r := 0, g := 1, b := 0, a := 1 },
   { sourceX := 2, r := 0, g := 0, b := 1, a := 1 },
   { sourceX := 3, r := f32 (17 / 255), g := f32 (17 / 255), b := f32 (17 / 255), a := 1 }]

/-! ## Example decoder results for the frame loop -/

/-- A module with a render context and nothing loaded. -/
def contextModule : GIFGlitcher :=
  { vg := some { id := 1 } }

/-- A decoded 2 x 1 animation with two images over a two-colour palette.
Image 0 covers the canvas with colour 0, has disposal method 2
(restore to background) and a delay of 5 centiseconds.  Image 1 is the single
pixel (0, 0) in colour 1, with disposal method 0, no transparency and a delay
of 0. -/
def backgroundDisposalGif : GifFileType :=
  { SWidth := 2, SHeight := 1,
    SColorMap := some { Colors := [{ Red := 10, Green := 20, Blue := 30 },
                                   { Red := 40, Green := 50, Blue := 60 }] },
    ImageCount := 2,
    SavedImages :=
      [{ ImageDesc := { Left := 0, Top := 0, Width := 2, Height := 1 },
         RasterBits := [0, 0],
         ExtensionBlocks := [{ Function := 249, Bytes := [8, 5, 0, 0] }] },
       { ImageDesc := { Left := 0, Top := 0, Width := 1, Height := 1 },
         RasterBits := [1],
         ExtensionBlocks := [{ Function := 249, Bytes := [0, 0, 0, 0] }] }] }

/-- A decoder that opens every file and delivers `backgroundDisposalGif`. -/
def backgroundDisposalExternals : Externals :=
  { quietExternals with
    DGifOpenFileName := fun _ => some {},
    DGifSlurp := fun _ => some backgroundDisposalGif }

/-! ## The parameter snapshot of `process` -/

/-- The knob identifiers `GIFGlitcher::ParamIds`. -/
inductive ParamIds where
  | BRIGHTNESS_PARAM
  | CONTRAST_PARAM
  | SATURATION_PARAM
  | HUE_SHIFT_PARAM
  | SHARPNESS_PARAM
  | PIXELATION_PARAM
  | EDGE_DETECT_PARAM
  | RGB_ABERRATION_PARAM
  | NOISE_PARAM
  | GLITCH_SLICE_PARAM
  | POSTERIZE_PARAM
  | DITHER_INTENSITY_PARAM
  | INTERLACE_INTENSITY_PARAM
  | GLITCH_ARTIFACTS_INTENSITY_PARAM
  | GLITCH_BLOCK_SIZE_PARAM
  | GLITCH_DISPLACEMENT_PARAM
  | BIT_CRUSH_PARAM
  | DATA_SHIFT_PARAM
  | PIXEL_SORT_PARAM
deriving DecidableEq

/-- The CV input identifiers `GIFGlitcher::InputIds`. -/
inductive InputIds where
  | BRIGHTNESS_INPUT
  | CONTRAST_INPUT
  | SATURATION_INPUT
  | HUE_SHIFT_INPUT
  | SHARPNESS_INPUT
  | PIXELATION_INPUT
  | EDGE_DETECT_INPUT
  | RGB_ABERRATION_INPUT
  | MIRROR_INPUT
  | FLIP_INPUT
  | INVERT_INPUT
  | DITHER_INPUT
  | INTERLACE_INPUT
  | NOISE_INPUT
  | GLITCH_SLICE_INPUT
  | POSTERIZE_INPUT
  | HALF_MIRROR_INPUT
  | HALF_MIRROR_VERTICAL_INPUT
  | GLITCH_ARTIFACTS_INPUT
  | DATA_MOSH_INPUT
  | RESET_INPUT
  | RANDOM_INPUT
deriving DecidableEq

/-- The range `(minValue, maxValue)` that the constructor configures for each
knob with `configParam`. -/
def configParam : ParamIds → ℚ × ℚ
  | ParamIds.BRIGHTNESS_PARAM => (0, 2)
  | ParamIds.CONTRAST_PARAM => (0, 2)
  | ParamIds.SATURATION_PARAM => (0, 2)
  | ParamIds.HUE_SHIFT_PARAM => (0, 1)
  | ParamIds.SHARPNESS_PARAM => (0, 5)
  | ParamIds.PIXELATION_PARAM => (0, 1)
  | ParamIds.EDGE_DETECT_PARAM => (0, 1)
  | ParamIds.RGB_ABERRATION_PARAM => (0, 1)
  | ParamIds.NOISE_PARAM => (0, 1)
  | ParamIds.GLITCH_SLICE_PARAM => (0, 1)
  | ParamIds.POSTERIZE_PARAM => (0, 1)
  | ParamIds.DITHER_INTENSITY_PARAM => (0, 1)
  | ParamIds.INTERLACE_INTENSITY_PARAM => (0, 1)
  | ParamIds.GLITCH_ARTIFACTS_INTENSITY_PARAM => (0, 2)
  | ParamIds.GLITCH_BLOCK_SIZE_PARAM => (0, 5)
  | ParamIds.GLITCH_DISPLACEMENT_PARAM => (0, 1)
  | ParamIds.BIT_CRUSH_PARAM => (0, 1)
  | ParamIds.DATA_SHIFT_PARAM => (0, 1)
  | ParamIds.PIXEL_SORT_PARAM => (0, 1)

/-- The snapshot `newParams` that `process(args)` derives from the knob values
`params[..].getValue()` and the input voltages `inputs[..].getVoltage()`. -/
def newParams (params : ParamIds → ℚ) (inputs : InputIds → ℚ) : ProcessingParams :=
  let glitchCv : ℚ := inputs InputIds.GLITCH_ARTIFACTS_INPUT / 10
  let dataMoshCv : ℚ := inputs InputIds.DATA_MOSH_INPUT / 10
  { brightness :=
      clampQ (params ParamIds.BRIGHTNESS_PARAM + inputs InputIds.BRIGHTNESS_INPUT / 10) 0 2,
    contrast :=
      clampQ (params ParamIds.CONTRAST_PARAM + inputs InputIds.CONTRAST_INPUT / 10) 0 2,
    saturation :=
      clampQ (params ParamIds.SATURATION_PARAM + inputs InputIds.SATURATION_INPUT / 10) 0 2,
    hueShift :=
      clampQ (params ParamIds.HUE_SHIFT_PARAM + inputs InputIds.HUE_SHIFT_INPUT / 10) 0 1,
    sharpness :=
      clampQ (params ParamIds.SHARPNESS_PARAM + inputs InputIds.SHARPNESS_INPUT / 10) 0 5,
    pixelation :=
      clampQ (params ParamIds.PIXELATION_PARAM + inputs InputIds.PIXELATION_INPUT / 10) 0 1,
    edgeDetect :=
      clampQ (params ParamIds.EDGE_DETECT_PARAM + inputs InputIds.EDGE_DETECT_INPUT / 10) 0 1,
    rgbAberration :=
      clampQ (params ParamIds.RGB_ABERRATION_PARAM
        + inputs InputIds.RGB_ABERRATION_INPUT / 10) 0 1,
    mirrorEffect := decide (inputs InputIds.MIRROR_INPUT > 2),
    halfMirrorEffect := decide (inputs InputIds.HALF_MIRROR_INPUT > 2),
    halfMirrorVerticalEffect := decide (inputs InputIds.HALF_MIRROR_VERTICAL_INPUT > 2),
    flipEffect := decide (inputs InputIds.FLIP_INPUT > 2),
    invertColors := decide (inputs InputIds.INVERT_INPUT > 2),
    ditherEffect := decide (inputs InputIds.DITHER_INPUT > 2),
    ditherIntensity := params ParamIds.DITHER_INTENSITY_PARAM,
    interlaceEffect := decide (inputs InputIds.INTERLACE_INPUT > 2),
    interlaceIntensity := params ParamIds.INTERLACE_INTENSITY_PARAM,
    noise := clampQ (params ParamIds.NOISE_PARAM + inputs InputIds.NOISE_INPUT / 10) 0 1,
    glitchSlice :=
      clampQ (params ParamIds.GLITCH_SLICE_PARAM + inputs InputIds.GLITCH_SLICE_INPUT / 10) 0 1,
    posterize :=
      clampQ (params ParamIds.POSTERIZE_PARAM + inputs InputIds.POSTERIZE_INPUT / 10) 0 1,
    glitchArtifacts :=
      clampQ (params ParamIds.GLITCH_ARTIFACTS_INTENSITY_PARAM + glitchCv) 0 2,
    glitchBlockSize := params ParamIds.GLITCH_BLOCK_SIZE_PARAM,
    glitchDisplacement := clampQ (params ParamIds.GLITCH_DISPLACEMENT_PARAM + glitchCv) 0 1,
    bitCrush := clampQ (params ParamIds.BIT_CRUSH_PARAM + dataMoshCv) 0 1,
    dataShift := clampQ (params ParamIds.DATA_SHIFT_PARAM + dataMoshCv) 0 1,
    pixelSort := clampQ (params ParamIds.PIXEL_SORT_PARAM + dataMoshCv) 0 1 }

/-! ## The canvas indices written while compositing -/

/-- The canvas indices that the compositing loop of `loadGif` assigns for
`image`, in the order of the loop: `dstIdx .. dstIdx + 3` for every pixel of
the image whose colour index is not the transparent one. -/
def drawFrameWrites (imageWidth : Int) (image : SavedImage) (transparentColor : Int) :
    List Int :=
  (intRange image.ImageDesc.Height).foldl
    (fun written y =>
      (intRange image.ImageDesc.Width).foldl
        (fun written x =>
          let srcIdx := y * image.ImageDesc.Width + x
          let dstIdx := ((y + image.ImageDesc.Top) * imageWidth + (x + image.ImageDesc.Left)) * 4
          let colorIndex : Int := (readByte image.RasterBits srcIdx : Int)
          if colorIndex ≠ transparentColor then
            written ++ [dstIdx, dstIdx + 1, dstIdx + 2, dstIdx + 3]
          else written)
        written)
    []

/-- A decoded 1 x 1 animation whose only image is 2 pixels wide. -/
def wideImageGif : GifFileType :=
  { SWidth := 1, SHeight := 1,
    SColorMap := some { Colors := [{ Red := 10, Green := 20, Blue := 30 }] },
    ImageCount := 1,
    SavedImages :=
      [{ ImageDesc := { Left := 0, Top := 0, Width := 2, Height := 1 },
         RasterBits := [0, 0] }] }

/-- A decoder that opens every file and delivers `wideImageGif`. -/
def wideImageExternals : Externals :=
  { quietExternals with
    DGifOpenFileName := fun _ => some {},
    DGifSlurp := fun _ => some wideImageGif }

/-- A module with a render context in PingPong mode whose direction flag
`playbackReverse` is set, as an animation that reached its last frame leaves
it. -/
def reversedPingPongModule : GIFGlitcher :=
  { vg := some { id := 1 }, playbackMode := PlaybackMode.PING_PONG, playbackReverse := true }

/-! ## An exact square root for the examples -/

/-- A square root on the rationals that is exact on squares: the integer
square roots of numerator and denominator. -/
def exactSqrt (q : ℚ) : ℚ :=
  (Nat.sqrt q.num.natAbs : ℚ) / (Nat.sqrt q.den : ℚ)

/-- External collaborators whose `std::sqrt` is `exactSqrt`. -/
def exactSqrtExternals : Externals :=
  { quietExternals with sqrt := exactSqrt }

/-- A 3 x 3 image with `edgeDetect = 1/2` and no sharpening. -/
def edgeModule : GIFGlitcher :=
  { imageWidth := 3, imageHeight := 3, currentParams := { edgeDetect := 1 / 2 } }

/-- A module whose canvas is 2 x 1, as `loadGif` sets it for
`backgroundDisposalGif`. -/
def twoByOneModule : GIFGlitcher :=
  { imageWidth := 2, imageHeight := 1 }

/-! # Theorems -/

/-! ## binary32 rounding: basic facts -/

/-- The rational `pow2 e` is the power `2 ^ e`. -/
theorem pow2_eq (e : Int) : pow2 e = (2 : ℚ) ^ e := by
  unfold pow2
  split
  · rename_i h
    obtain ⟨n, rfl⟩ := Int.eq_ofNat_of_zero_le h
    simp
  · rename_i h
    have h' : 0 ≤ -e := by omega
    obtain ⟨n, hn⟩ := Int.eq_ofNat_of_zero_le h'
    have he : e = -(n : Int) := by omega
    rw [hn, he]
    simp

/-- Powers of two are positive. -/
theorem pow2_pos (e : Int) : 0 < pow2 e := by
  rw [pow2_eq]
  positivity

/-- Powers of two multiply by adding exponents. -/
theorem pow2_add (a b : Int) : pow2 (a + b) = pow2 a * pow2 b := by
  rw [pow2_eq, pow2_eq, pow2_eq, zpow_add₀ (by norm_num)]

/-- Powers of two are ordered as their exponents. -/
theorem pow2_le_iff (a b : Int) : pow2 a ≤ pow2 b ↔ a ≤ b := by
  rw [pow2_eq, pow2_eq]
  exact zpow_le_zpow_iff_right₀ (by norm_num)

/-- Powers of two are strictly ordered as their exponents. -/
theorem pow2_lt_iff (a b : Int) : pow2 a < pow2 b ↔ a < b := by
  rw [pow2_eq, pow2_eq]
  exact zpow_lt_zpow_iff_right₀ (by norm_num)

/-- A power of two with a natural exponent. -/
theorem pow2_natCast (n : Nat) : pow2 (n : Int) = ((2 ^ n : Nat) : ℚ) := by
  rw [pow2_eq]
  simp

/-- With enough fuel the halving count of `n > 0` is its binary logarithm. -/
theorem log2Aux_spec : ∀ (fuel n : Nat), 0 < n → n ≤ fuel →
    2 ^ log2Aux fuel n ≤ n ∧ n < 2 ^ (log2Aux fuel n + 1) := by
  intro fuel
  induction fuel with
  | zero => intro n h1 h2; omega
  | succ f ih =>
    intro n h1 h2
    unfold log2Aux
    split
    · rename_i h
      have : n = 1 := by omega
      subst this
      simp
    · rename_i h
      have h2' : 2 ≤ n := by omega
      have := ih (n / 2) (by omega) (by omega)
      obtain ⟨ha, hb⟩ := this
      constructor
      · rw [pow_succ]
        omega
      · rw [pow_succ]
        omega

/-- The binary logarithm brackets `n > 0` between two powers of two. -/
theorem natLog2_spec (n : Nat) (h : 0 < n) :
    2 ^ natLog2 n ≤ n ∧ n < 2 ^ (natLog2 n + 1) :=
  log2Aux_spec n n h (le_refl n)

/-- The absolute value of a rational from its numerator and denominator. -/
theorem abs_eq_natAbs_div_den (q : ℚ) : |q| = (q.num.natAbs : ℚ) / (q.den : ℚ) := by
  have h := Rat.num_div_den q
  have hd : (0 : ℚ) < q.den := by exact_mod_cast q.den_pos
  conv_lhs => rw [← h]
  rw [abs_div, abs_of_pos hd]
  congr 1
  rw [← Int.cast_abs, Int.abs_eq_natAbs, Int.cast_natCast]

/-- The binary exponent brackets `|q|` for `q ≠ 0`. -/
theorem floorLog2_spec (q : ℚ) (hq : q ≠ 0) :
    pow2 (floorLog2 q) ≤ |q| ∧ |q| < pow2 (floorLog2 q + 1) := by
  have hn : 0 < q.num.natAbs := Int.natAbs_pos.mpr (Rat.num_ne_zero.mpr hq)
  have hd : 0 < q.den := q.den_pos
  obtain ⟨na, nb⟩ := natLog2_spec _ hn
  obtain ⟨da, db⟩ := natLog2_spec _ hd
  have hdq : (0 : ℚ) < q.den := by exact_mod_cast hd
  have na' : ((2 : ℚ) ^ natLog2 q.num.natAbs) ≤ (q.num.natAbs : ℚ) := by exact_mod_cast na
  have nb' : (q.num.natAbs : ℚ) < ((2 : ℚ) ^ (natLog2 q.num.natAbs + 1)) := by exact_mod_cast nb
  have da' : ((2 : ℚ) ^ natLog2 q.den) ≤ (q.den : ℚ) := by exact_mod_cast da
  have db' : (q.den : ℚ) < ((2 : ℚ) ^ (natLog2 q.den + 1)) := by exact_mod_cast db
  have habs := abs_eq_natAbs_div_den q
  have hlow : pow2 ((natLog2 q.num.natAbs : Int) - (natLog2 q.den : Int) - 1) ≤ |q| := by
    rw [habs, pow2_eq, le_div_iff₀ hdq]
    have e : (2 : ℚ) ^ ((natLog2 q.num.natAbs : Int) - (natLog2 q.den : Int) - 1)
        * (2 : ℚ) ^ (natLog2 q.den + 1) = (2 : ℚ) ^ natLog2 q.num.natAbs := by
      rw [← zpow_natCast, ← zpow_natCast, ← zpow_add₀ (by norm_num)]
      congr 1
      push_cast
      ring
    have hpos : (0 : ℚ) < (2 : ℚ) ^ ((natLog2 q.num.natAbs : Int) - (natLog2 q.den : Int) - 1) := by
      positivity
    calc (2 : ℚ) ^ ((natLog2 q.num.natAbs : Int) - (natLog2 q.den : Int) - 1) * (q.den : ℚ)
        ≤ (2 : ℚ) ^ ((natLog2 q.num.natAbs : Int) - (natLog2 q.den : Int) - 1)
            * (2 : ℚ) ^ (natLog2 q.den + 1) := by
          apply mul_le_mul_of_nonneg_left (le_of_lt db') (le_of_lt hpos)
      _ = (2 : ℚ) ^ natLog2 q.num.natAbs := e
      _ ≤ _ := na'
  have hup : |q| < pow2 ((natLog2 q.num.natAbs : Int) - (natLog2 q.den : Int) + 1) := by
    rw [habs, pow2_eq, div_lt_iff₀ hdq]
    have e : (2 : ℚ) ^ ((natLog2 q.num.natAbs : Int) - (natLog2 q.den : Int) + 1)
        * (2 : ℚ) ^ (natLog2 q.den) = (2 : ℚ) ^ (natLog2 q.num.natAbs + 1) := by
      rw [← zpow_natCast, ← zpow_natCast, ← zpow_add₀ (by norm_num)]
      congr 1
      push_cast
      ring
    have hpos : (0 : ℚ) < (2 : ℚ) ^ ((natLog2 q.num.natAbs : Int) - (natLog2 q.den : Int) + 1) := by
      positivity
    calc (q.num.natAbs : ℚ) < (2 : ℚ) ^ (natLog2 q.num.natAbs + 1) := nb'
      _ = (2 : ℚ) ^ ((natLog2 q.num.natAbs : Int) - (natLog2 q.den : Int) + 1)
            * (2 : ℚ) ^ (natLog2 q.den) := e.symm
      _ ≤ _ := mul_le_mul_of_nonneg_left da' (le_of_lt hpos)
  unfold floorLog2
  dsimp only
  split
  · rename_i h
    refine ⟨hlow, ?_⟩
    have : (natLog2 q.num.natAbs : Int) - (natLog2 q.den : Int) - 1 + 1
        = (natLog2 q.num.natAbs : Int) - (natLog2 q.den : Int) := by ring
    rw [this]
    exact h
  · rename_i h
    exact ⟨not_lt.mp h, hup⟩

/-- The binary exponent is the only exponent that brackets `|q|`. -/
theorem floorLog2_unique (q : ℚ) (e : Int) (h1 : pow2 e ≤ |q|) (h2 : |q| < pow2 (e + 1)) :
    floorLog2 q = e := by
  have hq : q ≠ 0 := by
    intro h
    rw [h, abs_zero] at h1
    exact absurd (pow2_pos e) (not_lt.mpr h1)
  obtain ⟨s1, s2⟩ := floorLog2_spec q hq
  have a1 : e < floorLog2 q + 1 := (pow2_lt_iff _ _).mp (lt_of_le_of_lt h1 s2)
  have a2 : floorLog2 q < e + 1 := (pow2_lt_iff _ _).mp (lt_of_le_of_lt s1 h2)
  omega

/-- Rounding yields the floor or the floor plus one. -/
theorem roundHalfEven_bounds (q : ℚ) :
    Int.floor q ≤ roundHalfEven q ∧ roundHalfEven q ≤ Int.floor q + 1 := by
  unfold roundHalfEven
  dsimp only
  split_ifs <;> constructor <;> omega

/-- Rounding leaves an integer as it is. -/
theorem roundHalfEven_intCast (n : Int) : roundHalfEven (n : ℚ) = n := by
  unfold roundHalfEven
  dsimp only
  rw [Int.floor_intCast, sub_self, if_pos (by norm_num)]

/-- Rounding moves a number by at most one half. -/
theorem roundHalfEven_err (q : ℚ) : |(roundHalfEven q : ℚ) - q| ≤ 1 / 2 := by
  have h1 := Int.floor_le q
  have h2 := Int.lt_floor_add_one q
  unfold roundHalfEven
  dsimp only
  rw [abs_le]
  split_ifs with a b c
  · constructor <;> linarith
  · push_cast
    constructor <;> linarith
  · constructor <;> linarith
  · push_cast
    constructor <;> linarith

/-- Rounding is monotone. -/
theorem roundHalfEven_mono (q r : ℚ) (h : q ≤ r) : roundHalfEven q ≤ roundHalfEven r := by
  have hfl : Int.floor q ≤ Int.floor r := Int.floor_le_floor h
  rcases lt_or_eq_of_le hfl with hlt | heq
  · have := (roundHalfEven_bounds q).2
    have := (roundHalfEven_bounds r).1
    omega
  · unfold roundHalfEven
    dsimp only
    rw [← heq]
    split_ifs <;> first | omega | (exfalso; linarith)

/-- The floor of the negation of a number that is not an integer. -/
theorem floor_neg_of_not_int (q : ℚ) (h : (Int.floor q : ℚ) ≠ q) :
    Int.floor (-q) = -Int.floor q - 1 := by
  rw [Int.floor_eq_iff]
  have h1 := Int.floor_le q
  have h2 := Int.lt_floor_add_one q
  have h3 : (Int.floor q : ℚ) < q := lt_of_le_of_ne h1 h
  push_cast
  constructor <;> linarith

/-- Rounding commutes with negation. -/
theorem roundHalfEven_neg (q : ℚ) : roundHalfEven (-q) = -roundHalfEven q := by
  by_cases hint : (Int.floor q : ℚ) = q
  · rw [← hint, ← Int.cast_neg, roundHalfEven_intCast, roundHalfEven_intCast]
  · have hf := floor_neg_of_not_int q hint
    have h1 := Int.floor_le q
    have h2 := Int.lt_floor_add_one q
    unfold roundHalfEven
    dsimp only
    rw [hf]
    push_cast
    split_ifs <;> first | omega | (exfalso; linarith)

/-- The binary32 rounding of `q ≠ 0`, written out. -/
theorem f32_of_ne_zero (q : ℚ) (hq : q ≠ 0) :
    f32 q = (roundHalfEven (q / pow2 (max (-149) (floorLog2 q - 23))) : ℚ)
      * pow2 (max (-149) (floorLog2 q - 23)) := by
  unfold f32
  rw [if_neg hq]

/-- Zero is a binary32 value. -/
theorem f32_zero : f32 0 = 0 := by
  unfold f32
  rw [if_pos rfl]

/-- The binary exponent ignores the sign. -/
theorem floorLog2_neg (q : ℚ) : floorLog2 (-q) = floorLog2 q := by
  unfold floorLog2
  simp only [Rat.neg_num, Rat.neg_den, Int.natAbs_neg, abs_neg]

/-- binary32 rounding commutes with negation. -/
theorem f32_neg (q : ℚ) : f32 (-q) = -f32 q := by
  by_cases hq : q = 0
  · rw [hq, neg_zero, f32_zero, neg_zero]
  · have hq' : -q ≠ 0 := neg_ne_zero.mpr hq
    rw [f32_of_ne_zero q hq, f32_of_ne_zero (-q) hq', floorLog2_neg, neg_div, roundHalfEven_neg]
    push_cast
    ring

/-- A multiple of the grid step below `q` is below `f32 q`. -/
theorem grid_le_f32 (q : ℚ) (hq : q ≠ 0) (N : Int)
    (h : (N : ℚ) * pow2 (max (-149) (floorLog2 q - 23)) ≤ q) :
    (N : ℚ) * pow2 (max (-149) (floorLog2 q - 23)) ≤ f32 q := by
  rw [f32_of_ne_zero q hq]
  have hp := pow2_pos (max (-149) (floorLog2 q - 23))
  have h1 : (N : ℚ) ≤ q / pow2 (max (-149) (floorLog2 q - 23)) := by
    rw [le_div_iff₀ hp]
    exact h
  have h2 := roundHalfEven_mono _ _ h1
  rw [roundHalfEven_intCast] at h2
  have h3 : (N : ℚ) ≤ (roundHalfEven (q / pow2 (max (-149) (floorLog2 q - 23))) : ℚ) := by
    exact_mod_cast h2
  exact mul_le_mul_of_nonneg_right h3 (le_of_lt hp)

/-- A multiple of the grid step above `q` is above `f32 q`. -/
theorem f32_le_grid (q : ℚ) (hq : q ≠ 0) (N : Int)
    (h : q ≤ (N : ℚ) * pow2 (max (-149) (floorLog2 q - 23))) :
    f32 q ≤ (N : ℚ) * pow2 (max (-149) (floorLog2 q - 23)) := by
  rw [f32_of_ne_zero q hq]
  have hp := pow2_pos (max (-149) (floorLog2 q - 23))
  have h1 : q / pow2 (max (-149) (floorLog2 q - 23)) ≤ (N : ℚ) := by
    rw [div_le_iff₀ hp]
    exact h
  have h2 := roundHalfEven_mono _ _ h1
  rw [roundHalfEven_intCast] at h2
  have h3 : (roundHalfEven (q / pow2 (max (-149) (floorLog2 q - 23))) : ℚ) ≤ (N : ℚ) := by
    exact_mod_cast h2
  exact mul_le_mul_of_nonneg_right h3 (le_of_lt hp)

/-- binary32 rounding keeps a number that is not negative so. -/
theorem f32_nonneg (q : ℚ) (h : 0 ≤ q) : 0 ≤ f32 q := by
  by_cases hq : q = 0
  · rw [hq, f32_zero]
  · have := grid_le_f32 q hq 0 (by simpa using h)
    simpa using this

/-- binary32 rounding keeps a number that is not positive so. -/
theorem f32_nonpos (q : ℚ) (h : q ≤ 0) : f32 q ≤ 0 := by
  have := f32_nonneg (-q) (by linarith)
  rw [f32_neg] at this
  linarith

/-- A power of two as a multiple of a smaller one. -/
theorem pow2_eq_grid (k E : Int) (h : E ≤ k) :
    pow2 k = (((2 ^ (k - E).toNat : Nat) : Int) : ℚ) * pow2 E := by
  have hk : k = ((k - E).toNat : Int) + E := by
    rw [Int.toNat_of_nonneg (by omega)]
    ring
  conv_lhs => rw [hk, pow2_add, pow2_natCast]
  push_cast
  ring

/-- binary32 rounding does not cross a power of two from below. -/
theorem f32_le_pow2 (q : ℚ) (k : Int) (hk : -149 ≤ k) (h : q ≤ pow2 k) : f32 q ≤ pow2 k := by
  rcases le_or_lt q 0 with hneg | hpos
  · exact le_trans (f32_nonpos q hneg) (le_of_lt (pow2_pos k))
  · have hq : q ≠ 0 := ne_of_gt hpos
    obtain ⟨s1, _⟩ := floorLog2_spec q hq
    rw [abs_of_pos hpos] at s1
    have he : floorLog2 q ≤ k := (pow2_le_iff _ _).mp (le_trans s1 h)
    have hE : max (-149) (floorLog2 q - 23) ≤ k := by omega
    have := f32_le_grid q hq _ (by rw [← pow2_eq_grid k _ hE]; exact h)
    rw [← pow2_eq_grid k _ hE] at this
    exact this

/-- binary32 rounding does not cross a power of two from above. -/
theorem pow2_le_f32 (q : ℚ) (k : Int) (hk : -149 ≤ k) (h : pow2 k ≤ q) : pow2 k ≤ f32 q := by
  have hpos : 0 < q := lt_of_lt_of_le (pow2_pos k) h
  have hq : q ≠ 0 := ne_of_gt hpos
  obtain ⟨s1, s2⟩ := floorLog2_spec q hq
  rw [abs_of_pos hpos] at s1 s2
  have he : k < floorLog2 q + 1 := (pow2_lt_iff _ _).mp (lt_of_le_of_lt h s2)
  have hE : max (-149) (floorLog2 q - 23) ≤ floorLog2 q := by omega
  have := grid_le_f32 q hq _ (by rw [← pow2_eq_grid (floorLog2 q) _ hE]; exact s1)
  rw [← pow2_eq_grid (floorLog2 q) _ hE] at this
  exact le_trans ((pow2_le_iff _ _).mpr (by omega)) this

/-- Powers of two from `2 ^ -149` on are binary32 values. -/
theorem f32_pow2 (k : Int) (hk : -149 ≤ k) : f32 (pow2 k) = pow2 k :=
  le_antisymm (f32_le_pow2 _ k hk (le_refl _)) (pow2_le_f32 _ k hk (le_refl _))

/-- binary32 rounding is monotone on positive numbers. -/
theorem f32_mono_pos (x y : ℚ) (hx : 0 < x) (h : x ≤ y) : f32 x ≤ f32 y := by
  have hy : 0 < y := lt_of_lt_of_le hx h
  have hxq : x ≠ 0 := ne_of_gt hx
  have hyq : y ≠ 0 := ne_of_gt hy
  obtain ⟨x1, x2⟩ := floorLog2_spec x hxq
  obtain ⟨y1, y2⟩ := floorLog2_spec y hyq
  rw [abs_of_pos hx] at x1 x2
  rw [abs_of_pos hy] at y1 y2
  have hle : floorLog2 x < floorLog2 y + 1 :=
    (pow2_lt_iff _ _).mp (lt_of_le_of_lt (le_trans x1 h) y2)
  by_cases hE : max (-149) (floorLog2 x - 23) = max (-149) (floorLog2 y - 23)
  · rw [f32_of_ne_zero x hxq, f32_of_ne_zero y hyq, hE]
    have hp := pow2_pos (max (-149) (floorLog2 y - 23))
    have h1 : x / pow2 (max (-149) (floorLog2 y - 23))
        ≤ y / pow2 (max (-149) (floorLog2 y - 23)) :=
      div_le_div_of_nonneg_right h (le_of_lt hp)
    have h2 := roundHalfEven_mono _ _ h1
    have h3 : (roundHalfEven (x / pow2 (max (-149) (floorLog2 y - 23))) : ℚ)
        ≤ (roundHalfEven (y / pow2 (max (-149) (floorLog2 y - 23))) : ℚ) := by
      exact_mod_cast h2
    exact mul_le_mul_of_nonneg_right h3 (le_of_lt hp)
  · have hk : -149 ≤ floorLog2 y := by omega
    have hlt : floorLog2 x + 1 ≤ floorLog2 y := by omega
    have hxk : x ≤ pow2 (floorLog2 y) :=
      le_trans (le_of_lt x2) ((pow2_le_iff _ _).mpr hlt)
    exact le_trans (f32_le_pow2 x _ hk hxk) (pow2_le_f32 y _ hk y1)

/-- binary32 rounding is monotone. -/
theorem f32_mono (x y : ℚ) (h : x ≤ y) : f32 x ≤ f32 y := by
  rcases lt_trichotomy 0 x with hx | hx | hx
  · exact f32_mono_pos x y hx h
  · rw [← hx, f32_zero]
    exact f32_nonneg y (by rw [← hx] at h; exact h)
  · rcases le_or_lt 0 y with hy | hy
    · exact le_trans (f32_nonpos x (le_of_lt hx)) (f32_nonneg y hy)
    · have := f32_mono_pos (-y) (-x) (by linarith) (by linarith)
      rw [f32_neg, f32_neg] at this
      linarith

/-- binary32 rounding moves `q` by at most half a step of its grid. -/
theorem f32_err (q : ℚ) (hq : q ≠ 0) :
    |f32 q - q| ≤ pow2 (max (-149) (floorLog2 q - 23)) / 2 := by
  have hp := pow2_pos (max (-149) (floorLog2 q - 23))
  have h := roundHalfEven_err (q / pow2 (max (-149) (floorLog2 q - 23)))
  rw [f32_of_ne_zero q hq]
  have e : (roundHalfEven (q / pow2 (max (-149) (floorLog2 q - 23))) : ℚ)
        * pow2 (max (-149) (floorLog2 q - 23)) - q
      = ((roundHalfEven (q / pow2 (max (-149) (floorLog2 q - 23))) : ℚ)
          - q / pow2 (max (-149) (floorLog2 q - 23))) * pow2 (max (-149) (floorLog2 q - 23)) := by
    field_simp
  rw [e, abs_mul, abs_of_pos hp]
  calc _ ≤ 1 / 2 * pow2 (max (-149) (floorLog2 q - 23)) :=
        mul_le_mul_of_nonneg_right h (le_of_lt hp)
    _ = _ := by ring

/-- In the normal range binary32 rounding has relative error at most `2 ^ -24`. -/
theorem f32_rel_err (q : ℚ) (h : pow2 (-126) ≤ |q|) : |f32 q - q| ≤ |q| * pow2 (-24) := by
  have hq : q ≠ 0 := by
    intro h0
    rw [h0, abs_zero] at h
    exact absurd (pow2_pos _) (not_lt.mpr h)
  obtain ⟨s1, s2⟩ := floorLog2_spec q hq
  have he : -126 < floorLog2 q + 1 := (pow2_lt_iff _ _).mp (lt_of_le_of_lt h s2)
  have hE : max (-149) (floorLog2 q - 23) = floorLog2 q + (-24) + 1 := by omega
  have := f32_err q hq
  rw [hE, pow2_add, pow2_add] at this
  have h2 : pow2 1 = 2 := by rw [pow2_eq]; norm_num
  rw [h2] at this
  calc |f32 q - q| ≤ pow2 (floorLog2 q) * pow2 (-24) * 2 / 2 := this
    _ = pow2 (floorLog2 q) * pow2 (-24) := by ring
    _ ≤ |q| * pow2 (-24) := mul_le_mul_of_nonneg_right s1 (le_of_lt (pow2_pos _))

/-- A positive multiple `N * 2 ^ E` with `N ≤ 2 ^ 24` and `E ≥ -149` is a binary32 value. -/
theorem f32_grid_fixed_pos (N : Int) (E : Int) (hE : -149 ≤ E) (h0 : 0 < N)
    (hN : N ≤ 2 ^ 24) : f32 ((N : ℚ) * pow2 E) = (N : ℚ) * pow2 E := by
  have hp := pow2_pos E
  have hNq : (0 : ℚ) < (N : ℚ) := by exact_mod_cast h0
  have hy : 0 < (N : ℚ) * pow2 E := mul_pos hNq hp
  rcases lt_or_eq_of_le hN with hlt | heq
  · have hq : (N : ℚ) * pow2 E ≠ 0 := ne_of_gt hy
    obtain ⟨s1, _⟩ := floorLog2_spec _ hq
    rw [abs_of_pos hy] at s1
    have h24 : pow2 24 = ((2 ^ 24 : Int) : ℚ) := by rw [pow2_eq]; norm_num
    have hup : (N : ℚ) * pow2 E < pow2 (24 + E) := by
      rw [pow2_add, h24]
      exact mul_lt_mul_of_pos_right (by exact_mod_cast hlt) hp
    have he : floorLog2 ((N : ℚ) * pow2 E) < 24 + E :=
      (pow2_lt_iff _ _).mp (lt_of_le_of_lt s1 hup)
    have hEy : max (-149) (floorLog2 ((N : ℚ) * pow2 E) - 23) ≤ E := by omega
    have hgrid : (N : ℚ) * pow2 E
        = ((N * ((2 ^ (E - max (-149) (floorLog2 ((N : ℚ) * pow2 E) - 23)).toNat : Nat) : Int)
            : Int) : ℚ) * pow2 (max (-149) (floorLog2 ((N : ℚ) * pow2 E) - 23)) := by
      conv_lhs => rw [pow2_eq_grid E _ hEy]
      push_cast
      ring
    apply le_antisymm
    · have := f32_le_grid _ hq _ (le_of_eq hgrid)
      rw [← hgrid] at this
      exact this
    · have := grid_le_f32 _ hq _ (le_of_eq hgrid.symm)
      rw [← hgrid] at this
      exact this
  · have h24 : ((2 ^ 24 : Int) : ℚ) = pow2 24 := by rw [pow2_eq]; norm_num
    rw [heq, h24, ← pow2_add]
    exact f32_pow2 _ (by omega)

/-- A multiple `N * 2 ^ E` with `|N| ≤ 2 ^ 24` and `E ≥ -149` is a binary32 value. -/
theorem f32_grid_fixed (N : Int) (E : Int) (hE : -149 ≤ E) (hN : |N| ≤ 2 ^ 24) :
    f32 ((N : ℚ) * pow2 E) = (N : ℚ) * pow2 E := by
  rcases lt_trichotomy 0 N with h | h | h
  · exact f32_grid_fixed_pos N E hE h (by rw [abs_of_pos h] at hN; exact hN)
  · rw [← h]
    simp [f32_zero]
  · have h' : 0 < -N := by omega
    have hN' : -N ≤ 2 ^ 24 := by rw [abs_of_neg h] at hN; exact hN
    have := f32_grid_fixed_pos (-N) E hE h' hN'
    push_cast at this
    rw [neg_mul, f32_neg] at this
    linarith

/-- binary32 rounding is idempotent: its results are binary32 values. -/
theorem f32_idem (q : ℚ) : f32 (f32 q) = f32 q := by
  by_cases hq : q = 0
  · rw [hq, f32_zero, f32_zero]
  · rw [f32_of_ne_zero q hq]
    apply f32_grid_fixed _ _ (le_max_left _ _)
    obtain ⟨_, s2⟩ := floorLog2_spec q hq
    have hp := pow2_pos (max (-149) (floorLog2 q - 23))
    have hE : floorLog2 q + 1 ≤ 24 + max (-149) (floorLog2 q - 23) := by omega
    have h24 : pow2 24 = ((2 ^ 24 : Int) : ℚ) := by rw [pow2_eq]; norm_num
    have hb : |q| ≤ ((2 ^ 24 : Int) : ℚ) * pow2 (max (-149) (floorLog2 q - 23)) := by
      rw [← h24, ← pow2_add]
      exact le_trans (le_of_lt s2) ((pow2_le_iff _ _).mpr hE)
    have hb' := abs_le.mp hb
    have h1 : q / pow2 (max (-149) (floorLog2 q - 23)) ≤ ((2 ^ 24 : Int) : ℚ) := by
      rw [div_le_iff₀ hp]
      exact hb'.2
    have h2 : ((-(2 ^ 24) : Int) : ℚ) ≤ q / pow2 (max (-149) (floorLog2 q - 23)) := by
      rw [le_div_iff₀ hp]
      push_cast
      push_cast at hb'
      linarith [hb'.1]
    have r1 := roundHalfEven_mono _ _ h1
    have r2 := roundHalfEven_mono _ _ h2
    rw [roundHalfEven_intCast] at r1 r2
    rw [abs_le]
    constructor <;> omega

/-! ## Geometric remap -/

/-- C2: when both `mirrorEffect` and `flipEffect` are set, the geometric remap
sends the output pixel `(x, y)` to the source pixel
`(imageWidth - 1 - x, imageHeight - 1 - y)`, whatever the two half-mirror
flags are. -/
theorem mirror_flip_sends_to_opposite_pixel (m : GIFGlitcher) (pixel : PixelInfo) (x y : Int)
    (hmirror : m.currentParams.mirrorEffect = true)
    (hflip : m.currentParams.flipEffect = true) :
    (m.applyGeometricEffects pixel x y).sourceX = m.imageWidth - 1 - x
      ∧ (m.applyGeometricEffects pixel x y).sourceY = m.imageHeight - 1 - y := by
  simp [GIFGlitcher.applyGeometricEffects, hmirror, hflip]

/-- Witness of C2 on a 4 x 3 image with all four mirror flags set, at the
output pixel `(1, 2)`. -/
theorem mirror_flip_sends_to_opposite_pixel_witness :
    (mirrorFlipModule.applyGeometricEffects {} 1 2).sourceX = 4 - 1 - 1
      ∧ (mirrorFlipModule.applyGeometricEffects {} 1 2).sourceY = 3 - 1 - 2 :=
  mirror_flip_sends_to_opposite_pixel mirrorFlipModule {} 1 2 rfl rfl

/-- C3: with only `halfMirrorEffect` set (mirror, flip and the vertical
half-mirror off), the remap keeps `sourceY = y`, keeps `sourceX = x` for
`x < imageWidth / 2` and yields `sourceX = imageWidth - 1 - x` for
`x ≥ imageWidth / 2`; symmetrically, with only `halfMirrorVerticalEffect`
set, `sourceX = x` and `sourceY` is `y` below `imageHeight / 2` and
`imageHeight - 1 - y` from there on. -/
theorem half_mirror_alone_reflects_far_half (m : GIFGlitcher) (pixel : PixelInfo) (x y : Int)
    (hW : 1 ≤ m.imageWidth) (hH : 1 ≤ m.imageHeight) :
    (({ m with currentParams :=
          { m.currentParams with
              mirrorEffect := false, flipEffect := false,
              halfMirrorEffect := true, halfMirrorVerticalEffect := false } }
        ).applyGeometricEffects pixel x y).sourceY = y
      ∧ (({ m with currentParams :=
          { m.currentParams with
              mirrorEffect := false, flipEffect := false,
              halfMirrorEffect := true, halfMirrorVerticalEffect := false } }
        ).applyGeometricEffects pixel x y).sourceX
          = (if x < m.imageWidth / 2 then x else m.imageWidth - 1 - x)
      ∧ (({ m with currentParams :=
          { m.currentParams with
              mirrorEffect := false, flipEffect := false,
              halfMirrorEffect := false, halfMirrorVerticalEffect := true } }
        ).applyGeometricEffects pixel x y).sourceX = x
      ∧ (({ m with currentParams :=
          { m.currentParams with
              mirrorEffect := false, flipEffect := false,
              halfMirrorEffect := false, halfMirrorVerticalEffect := true } }
        ).applyGeometricEffects pixel x y).sourceY
          = (if y < m.imageHeight / 2 then y else m.imageHeight - 1 - y) := by
  have hw2 : m.imageWidth.tdiv 2 = m.imageWidth / 2 :=
    Int.tdiv_eq_ediv (by omega) (by decide)
  have hh2 : m.imageHeight.tdiv 2 = m.imageHeight / 2 :=
    Int.tdiv_eq_ediv (by omega) (by decide)
  refine ⟨?_, ?_, ?_, ?_⟩
  · simp only [GIFGlitcher.applyGeometricEffects]
    simp only [Bool.false_eq_true, if_false, Bool.false_and]
    split <;> simp
  · simp only [GIFGlitcher.applyGeometricEffects, hw2]
    by_cases h : x < m.imageWidth / 2
    · have h2 : ¬ (x ≥ m.imageWidth / 2) := by omega
      simp [h, h2]
    · have h2 : x ≥ m.imageWidth / 2 := by omega
      simp [h, h2]
  · simp only [GIFGlitcher.applyGeometricEffects]
    simp only [Bool.false_eq_true, if_false, Bool.false_and]
    split <;> simp
  · simp only [GIFGlitcher.applyGeometricEffects, hh2]
    by_cases h : y < m.imageHeight / 2
    · have h2 : ¬ (y ≥ m.imageHeight / 2) := by omega
      simp [h, h2]
    · have h2 : y ≥ m.imageHeight / 2 := by omega
      simp [h, h2]

/-- Witness of C3 on a 4 x 3 image at the output pixel `(3, 0)`: the column
lies in the far half, the row in the near half. -/
theorem half_mirror_alone_reflects_far_half_witness :
    (({ mirrorFlipModule with currentParams :=
          { mirrorFlipModule.currentParams with
              mirrorEffect := false, flipEffect := false,
              halfMirrorEffect := true, halfMirrorVerticalEffect := false } }
        ).applyGeometricEffects {} 3 0).sourceX = 0 := by
  have h := (half_mirror_alone_reflects_far_half mirrorFlipModule {} 3 0
    (by decide) (by decide)).2.1
  simpa [mirrorFlipModule] using h

/-! ## Loops that update one element per iteration -/

/-- A loop over `0 .. k-1` that updates element `i` in iteration `i` is an
indexed map over the first `k` elements. -/
theorem foldl_modify_range {α : Type} (f : Nat → α → α) (k : Nat) (buf : List α) :
    (List.range k).foldl (fun buf i => List.modify (f i) i buf) buf
      = buf.mapIdx (fun i p => if i < k then f i p else p) := by
  induction k with
  | zero => 
    apply List.ext_getElem?
    intro n
    simp
  | succ k ih =>
    rw [List.range_succ, List.foldl_append, ih]
    apply List.ext_getElem?
    intro n
    simp only [List.foldl_cons, List.foldl_nil, List.getElem?_modify, List.getElem?_mapIdx]
    cases h : buf[n]? with
    | none => simp
    | some p =>
      simp only [Option.map_some', Option.map_eq_map]
      by_cases hkn : k = n
      · subst hkn
        simp
      · by_cases hlt : n < k
        · have : n < k + 1 := by omega
          simp [hkn, hlt, this]
        · have : ¬ n < k + 1 := by omega
          simp [hkn, hlt, this]

/-- The loop `for (int x = 0; x < n; ++x) buf[x] = f(x, buf[x])`. -/
theorem foldl_modifyAt_intRange {α : Type} (f : Int → α → α) (n : Int) (buf : List α) :
    (intRange n).foldl (fun buf x => modifyAt buf x (f x)) buf
      = buf.mapIdx (fun i p => if (i : Int) < n then f i p else p) := by
  unfold intRange
  rw [List.foldl_map]
  have h : (fun (buf : List α) (i : Nat) => modifyAt buf (Int.ofNat i) (f (Int.ofNat i)))
      = (fun buf i => List.modify ((fun j => f (Int.ofNat j)) i) i buf) := by
    funext buf i
    simp [modifyAt]
  rw [h, foldl_modify_range]
  apply List.ext_getElem?
  intro i
  simp only [List.getElem?_mapIdx]
  cases buf[i]? with
  | none => rfl
  | some p =>
    simp only [Option.map_some']
    by_cases hi : (i : Int) < n
    · have : i < n.toNat := by omega
      simp [hi, this]
    · have : ¬ i < n.toNat := by omega
      simp [hi, this]

/-! ## Posterize -/

/-- binary32 rounding keeps a number inside `[-2 ^ k, 2 ^ k]`. -/
theorem f32_abs_le_pow2 (q : ℚ) (k : Int) (hk : -149 ≤ k) (h : |q| ≤ pow2 k) :
    |f32 q| ≤ pow2 k := by
  obtain ⟨h1, h2⟩ := abs_le.mp h
  rw [abs_le]
  constructor
  · have := f32_le_pow2 (-q) k hk (by linarith)
    rw [f32_neg] at this
    linarith
  · exact f32_le_pow2 q k hk h2

/-- The number of levels of a posterize value in `(0, 1]` lies in `[2, 16]`. -/
theorem posterizeLevels_bounds (m : GIFGlitcher) (hp : 0 < m.currentParams.posterize)
    (hp1 : m.currentParams.posterize ≤ 1) :
    2 ≤ m.posterizeLevels ∧ m.posterizeLevels ≤ 16 := by
  have h14 : f32 14 = 14 := by decide!
  have e1 : pow2 1 = 2 := by rw [pow2_eq]; norm_num
  have e4 : pow2 4 = 16 := by rw [pow2_eq]; norm_num
  have hp' : m.currentParams.posterize > 0 := hp
  unfold GIFGlitcher.posterizeLevels
  rw [if_pos hp']
  have a0 : 0 ≤ f32 (m.currentParams.posterize * 14) := f32_nonneg _ (by linarith)
  have a1 : f32 (m.currentParams.posterize * 14) ≤ 14 := by
    have := f32_mono (m.currentParams.posterize * 14) 14 (by linarith)
    rwa [h14] at this
  constructor
  · have := pow2_le_f32 (2 + f32 (m.currentParams.posterize * 14)) 1 (by decide)
      (by rw [e1]; linarith)
    rwa [e1] at this
  · have := f32_le_pow2 (2 + f32 (m.currentParams.posterize * 14)) 4 (by decide)
      (by rw [e4]; linarith)
    rwa [e4] at this

/-- Quantising a quantised channel again finds the level of the first
quantisation or the level below it. -/
theorem requantized_level (L c : ℚ) (hL2 : 2 ≤ L) (hL16 : L ≤ 16) (hc : |c| ≤ 1024) :
    Int.floor (f32 (f32 ((Int.floor (f32 (c * L)) : ℚ) / L) * L)) = Int.floor (f32 (c * L))
      ∨ Int.floor (f32 (f32 ((Int.floor (f32 (c * L)) : ℚ) / L) * L))
          = Int.floor (f32 (c * L)) - 1 := by
  have hLpos : 0 < L := by linarith
  have e14 : pow2 14 = 16384 := by rw [pow2_eq]; norm_num
  have eu : pow2 (-24) = 1 / 16777216 := by rw [pow2_eq]; norm_num
  have emin : pow2 (-126) ≤ 1 / 16 := by
    have : pow2 (-126) ≤ pow2 (-4) := (pow2_le_iff _ _).mpr (by decide)
    have e : pow2 (-4) = 1 / 16 := by rw [pow2_eq]; norm_num
    rwa [e] at this
  -- the level of the first quantisation is at most 2 ^ 14 in absolute value
  have hcl : |c * L| ≤ pow2 14 := by
    rw [abs_mul, abs_of_pos hLpos, e14]
    calc |c| * L ≤ 1024 * 16 := mul_le_mul hc hL16 (le_of_lt hLpos) (by norm_num)
      _ = 16384 := by norm_num
  have hfl := abs_le.mp (f32_abs_le_pow2 _ 14 (by decide) hcl)
  rw [e14] at hfl
  generalize hn : Int.floor (f32 (c * L)) = n
  have hn1 : (-16384 : ℚ) ≤ (n : ℚ) := by
    have : (-16384 : Int) ≤ n := by
      rw [← hn]
      exact Int.le_floor.mpr (by push_cast; exact hfl.1)
    exact_mod_cast this
  have hn2 : (n : ℚ) ≤ 16384 := by
    have h1 : (n : ℚ) ≤ f32 (c * L) := by
      rw [← hn]
      exact Int.floor_le _
    linarith [hfl.2]
  have hnabs : |(n : ℚ)| ≤ 16384 := abs_le.mpr ⟨hn1, hn2⟩
  by_cases hzero : n = 0
  · left
    subst hzero
    simp [f32_zero]
  · have hn0 : (n : ℚ) ≠ 0 := by exact_mod_cast hzero
    have hnge1 : (1 : ℚ) ≤ |(n : ℚ)| := by
      have : (1 : Int) ≤ |n| := Int.one_le_abs hzero
      exact_mod_cast this
    -- first rounding: w = fl(n / L)
    have hx : pow2 (-126) ≤ |(n : ℚ) / L| := by
      rw [abs_div, abs_of_pos hLpos]
      have : (1 : ℚ) / 16 ≤ |(n : ℚ)| / L := by
        rw [div_le_div_iff₀ (by norm_num) hLpos]
        nlinarith
      linarith
    have r1 := f32_rel_err ((n : ℚ) / L) hx
    rw [eu, abs_div, abs_of_pos hLpos] at r1
    have hwL : |f32 ((n : ℚ) / L) * L - (n : ℚ)| ≤ |(n : ℚ)| / 16777216 := by
      have e : f32 ((n : ℚ) / L) * L - (n : ℚ) = (f32 ((n : ℚ) / L) - (n : ℚ) / L) * L := by
        field_simp
      rw [e, abs_mul, abs_of_pos hLpos]
      calc |f32 ((n : ℚ) / L) - (n : ℚ) / L| * L
          ≤ (|(n : ℚ)| / L * (1 / 16777216)) * L :=
            mul_le_mul_of_nonneg_right r1 (le_of_lt hLpos)
        _ = |(n : ℚ)| / 16777216 := by
          field_simp
          ring
    have hwL' := abs_le.mp hwL
    -- second rounding: y = fl(w * L)
    have hwLabs : |f32 ((n : ℚ) / L) * L| ≤ 16385 := by
      have := abs_sub_abs_le_abs_sub (f32 ((n : ℚ) / L) * L) (n : ℚ)
      linarith
    have hwLlow : pow2 (-126) ≤ |f32 ((n : ℚ) / L) * L| := by
      have := abs_sub_abs_le_abs_sub (n : ℚ) (f32 ((n : ℚ) / L) * L)
      rw [abs_sub_comm] at this
      linarith
    have r2 := f32_rel_err (f32 ((n : ℚ) / L) * L) hwLlow
    rw [eu] at r2
    have r2' := abs_le.mp r2
    have hy1 : (n : ℚ) - 1 < f32 (f32 ((n : ℚ) / L) * L) := by linarith [hwL'.1, r2'.1]
    have hy2 : f32 (f32 ((n : ℚ) / L) * L) < (n : ℚ) + 1 := by linarith [hwL'.2, r2'.2]
    by_cases hge : (n : ℚ) ≤ f32 (f32 ((n : ℚ) / L) * L)
    · left
      rw [Int.floor_eq_iff]
      exact ⟨hge, hy2⟩
    · right
      rw [Int.floor_eq_iff]
      push_cast
      exact ⟨le_of_lt hy1, by linarith [not_le.mp hge]⟩

/-- With posterize on and dither off, `applyPosterizeAndDither` quantises the
three colour channels of the first `imageWidth` pixels with `levels` levels. -/
theorem applyPosterizeAndDither_posterize_only (m : GIFGlitcher) (row : List PixelInfo)
    (y : Int) (hp : 0 < m.currentParams.posterize)
    (hd : m.currentParams.ditherEffect = false) (hlev : 0 < m.posterizeLevels) :
    m.applyPosterizeAndDither row y
      = row.mapIdx (fun i p =>
          if (i : Int) < m.imageWidth then
            { p with
              r := GIFGlitcher.quantizeChannel m.posterizeLevels p.r,
              g := GIFGlitcher.quantizeChannel m.posterizeLevels p.g,
              b := GIFGlitcher.quantizeChannel m.posterizeLevels p.b }
          else p) := by
  have hnot : ¬ (m.currentParams.posterize ≤ 0 ∧ m.currentParams.ditherEffect = false) := by
    intro h
    linarith [h.1]
  unfold GIFGlitcher.applyPosterizeAndDither
  rw [if_neg hnot]
  simp only [hd, gt_iff_lt, hlev, if_true, Bool.false_eq_true, if_false]
  rw [foldl_modifyAt_intRange]

/-- Element `i` of a row after an indexed map. -/
theorem readAt_mapIdx (f : Nat → PixelInfo → PixelInfo) (row : List PixelInfo) (i : Nat)
    (hi : i < row.length) : readAt (row.mapIdx f) (i : Int) = f i (readAt row (i : Int)) := by
  have hneg : ¬ ((i : Int) < 0) := by omega
  unfold readAt
  rw [if_neg hneg, if_neg hneg, Int.toNat_natCast, List.getD_eq_getElem?_getD,
    List.getD_eq_getElem?_getD, List.getElem?_mapIdx, List.getElem?_eq_getElem hi]
  rfl

/-- C4 (amended): posterize is idempotent up to one level.  For every row,
every row index `y`, every posterize value `0 < p ≤ 1` (the range of the
parameter) with dither disabled and channel values up to 1024 in absolute
value, with `L = fl(2 + fl(14 * p))` the number of levels in binary32: the
first application of `applyPosterizeAndDither` stores in each channel of the
first `imageWidth` pixels the level `fl(n / L)` with `n = floor(fl(v * L))`,
and the second application stores the same level or the level below it,
`fl((n - 1) / L)`. -/
theorem posterize_twice_drops_at_most_one_level (m : GIFGlitcher) (row : List PixelInfo)
    (y : Int) (hp : 0 < m.currentParams.posterize) (hp1 : m.currentParams.posterize ≤ 1)
    (hd : m.currentParams.ditherEffect = false)
    (hbound : ∀ p ∈ row, |p.r| ≤ 1024 ∧ |p.g| ≤ 1024 ∧ |p.b| ≤ 1024)
    (i : Nat) (hi : i < row.length) (hiW : (i : Int) < m.imageWidth) :
    ((readAt (m.applyPosterizeAndDither row y) i).r
          = f32 ((Int.floor (f32 ((readAt row i).r * m.posterizeLevels)) : ℚ) / m.posterizeLevels)
        ∧ ((readAt (m.applyPosterizeAndDither (m.applyPosterizeAndDither row y) y) i).r
              = (readAt (m.applyPosterizeAndDither row y) i).r
            ∨ (readAt (m.applyPosterizeAndDither (m.applyPosterizeAndDither row y) y) i).r
              = f32 (((Int.floor (f32 ((readAt row i).r * m.posterizeLevels)) - 1 : Int) : ℚ)
                  / m.posterizeLevels)))
      ∧ ((readAt (m.applyPosterizeAndDither row y) i).g
          = f32 ((Int.floor (f32 ((readAt row i).g * m.posterizeLevels)) : ℚ) / m.posterizeLevels)
        ∧ ((readAt (m.applyPosterizeAndDither (m.applyPosterizeAndDither row y) y) i).g
              = (readAt (m.applyPosterizeAndDither row y) i).g
            ∨ (readAt (m.applyPosterizeAndDither (m.applyPosterizeAndDither row y) y) i).g
              = f32 (((Int.floor (f32 ((readAt row i).g * m.posterizeLevels)) - 1 : Int) : ℚ)
                  / m.posterizeLevels)))
      ∧ ((readAt (m.applyPosterizeAndDither row y) i).b
          = f32 ((Int.floor (f32 ((readAt row i).b * m.posterizeLevels)) : ℚ) / m.posterizeLevels)
        ∧ ((readAt (m.applyPosterizeAndDither (m.applyPosterizeAndDither row y) y) i).b
              = (readAt (m.applyPosterizeAndDither row y) i).b
            ∨ (readAt (m.applyPosterizeAndDither (m.applyPosterizeAndDither row y) y) i).b
              = f32 (((Int.floor (f32 ((readAt row i).b * m.posterizeLevels)) - 1 : Int) : ℚ)
                  / m.posterizeLevels))) := by
  obtain ⟨hL2, hL16⟩ := posterizeLevels_bounds m hp hp1
  have hlev : 0 < m.posterizeLevels := by linarith
  have hmem : readAt row (i : Int) ∈ row := by
    have hneg : ¬ ((i : Int) < 0) := by omega
    unfold readAt
    rw [if_neg hneg, Int.toNat_natCast, List.getD_eq_getElem?_getD, List.getElem?_eq_getElem hi]
    exact List.getElem_mem hi
  obtain ⟨br, bg, bb⟩ := hbound _ hmem
  have hlen1 : i < (m.applyPosterizeAndDither row y).length := by
    rw [applyPosterizeAndDither_posterize_only m row y hp hd hlev, List.length_mapIdx]
    exact hi
  have once := applyPosterizeAndDither_posterize_only m row y hp hd hlev
  have h1 : readAt (m.applyPosterizeAndDither row y) (i : Int)
      = { readAt row (i : Int) with
          r := GIFGlitcher.quantizeChannel m.posterizeLevels (readAt row (i : Int)).r,
          g := GIFGlitcher.quantizeChannel m.posterizeLevels (readAt row (i : Int)).g,
          b := GIFGlitcher.quantizeChannel m.posterizeLevels (readAt row (i : Int)).b } := by
    rw [once, readAt_mapIdx _ row i hi, if_pos hiW]
  have h2 : readAt (m.applyPosterizeAndDither (m.applyPosterizeAndDither row y) y) (i : Int)
      = { readAt (m.applyPosterizeAndDither row y) (i : Int) with
          r := GIFGlitcher.quantizeChannel m.posterizeLevels
            (readAt (m.applyPosterizeAndDither row y) (i : Int)).r,
          g := GIFGlitcher.quantizeChannel m.posterizeLevels
            (readAt (m.applyPosterizeAndDither row y) (i : Int)).g,
          b := GIFGlitcher.quantizeChannel m.posterizeLevels
            (readAt (m.applyPosterizeAndDither row y) (i : Int)).b } := by
    rw [applyPosterizeAndDither_posterize_only m _ y hp hd hlev, readAt_mapIdx _ _ i hlen1,
      if_pos hiW]
  have key : ∀ c : ℚ, |c| ≤ 1024 →
      GIFGlitcher.quantizeChannel m.posterizeLevels c
          = f32 ((Int.floor (f32 (c * m.posterizeLevels)) : ℚ) / m.posterizeLevels)
        ∧ (GIFGlitcher.quantizeChannel m.posterizeLevels
              (GIFGlitcher.quantizeChannel m.posterizeLevels c)
            = GIFGlitcher.quantizeChannel m.posterizeLevels c
          ∨ GIFGlitcher.quantizeChannel m.posterizeLevels
              (GIFGlitcher.quantizeChannel m.posterizeLevels c)
            = f32 (((Int.floor (f32 (c * m.posterizeLevels)) - 1 : Int) : ℚ)
                / m.posterizeLevels)) := by
    intro c hc
    refine ⟨rfl, ?_⟩
    unfold GIFGlitcher.quantizeChannel
    rcases requantized_level m.posterizeLevels c hL2 hL16 hc with h | h
    · left
      rw [h]
    · right
      rw [h]
  rw [h2, h1]
  exact ⟨key _ br, key _ bg, key _ bb⟩

/-- Witness of the amended C4 on the green channel `0.5f` of a one-pixel row
with `posterize = 0.1f`. -/
theorem posterize_twice_drops_at_most_one_level_witness :
    (readAt (posterizeModule.applyPosterizeAndDither levelEdgeRow 0) (0 : Nat)).g
        = f32 ((Int.floor (f32 ((readAt levelEdgeRow (0 : Nat)).g
            * posterizeModule.posterizeLevels)) : ℚ) / posterizeModule.posterizeLevels)
      ∧ ((readAt (posterizeModule.applyPosterizeAndDither
            (posterizeModule.applyPosterizeAndDither levelEdgeRow 0) 0) (0 : Nat)).g
          = (readAt (posterizeModule.applyPosterizeAndDither levelEdgeRow 0) (0 : Nat)).g
        ∨ (readAt (posterizeModule.applyPosterizeAndDither
            (posterizeModule.applyPosterizeAndDither levelEdgeRow 0) 0) (0 : Nat)).g
          = f32 (((Int.floor (f32 ((readAt levelEdgeRow (0 : Nat)).g
              * posterizeModule.posterizeLevels)) - 1 : Int) : ℚ)
              / posterizeModule.posterizeLevels)) :=
  (posterize_twice_drops_at_most_one_level posterizeModule levelEdgeRow 0 (by decide!)
    (by decide!) rfl (by decide!) 0 (by decide) (by decide)).2.1

/-- C4 as stated fails at `posterize = 0.1f` on a channel of value `0.295f`.
The number of levels is `3.4f`; the first application finds level 1 and
stores `fl(1 / 3.4f)`; the product of this value with `3.4f`, rounded to
binary32, is below 1, so the second application finds level 0 and stores 0. -/
theorem posterize_is_not_idempotent_in_binary32 :
    0 < posterizeModule.currentParams.posterize
      ∧ posterizeModule.currentParams.ditherEffect = false
      ∧ posterizeModule.posterizeLevels = f32 (34 / 10)
      ∧ Int.floor (f32 ((readAt levelEdgeRow 0).r * posterizeModule.posterizeLevels)) = 1
      ∧ (readAt (posterizeModule.applyPosterizeAndDither levelEdgeRow 0) 0).r
          = f32 (1 / f32 (34 / 10))
      ∧ f32 (f32 (1 / f32 (34 / 10)) * f32 (34 / 10)) < 1
      ∧ (readAt (posterizeModule.applyPosterizeAndDither
            (posterizeModule.applyPosterizeAndDither levelEdgeRow 0) 0) 0).r = 0
      ∧ posterizeModule.applyPosterizeAndDither
            (posterizeModule.applyPosterizeAndDither levelEdgeRow 0) 0
          ≠ posterizeModule.applyPosterizeAndDither levelEdgeRow 0 := by
  decide!

/-! ## Pixelation keeps the shape of a row -/

/-- A property that every iteration of a loop preserves holds after the loop. -/
theorem foldl_preserves {α β : Type} (P : β → Prop) (f : β → α → β)
    (h : ∀ b a, P b → P (f b a)) (l : List α) (b : β) (hb : P b) : P (l.foldl f b) := by
  induction l generalizing b with
  | nil => exact hb
  | cons a l ih => exact ih (f b a) (h b a hb)

/-- Updating one element by a function that keeps a projection `key` keeps
the row of projections. -/
theorem map_modifyAt_of_key {α β : Type} (key : α → β) (f : α → α)
    (hf : ∀ p, key (f p) = key p) (buf : List α) (i : Int) :
    (modifyAt buf i f).map key = buf.map key := by
  unfold modifyAt
  split
  · rfl
  · apply List.ext_getElem?
    intro n
    simp only [List.getElem?_map, List.getElem?_modify]
    cases buf[n]? with
    | none => rfl
    | some p =>
      by_cases h : i.toNat = n
      · simp [h, hf]
      · simp [h]

/-- C6: `applyPixelation` with `pixelation = 0` returns the row unchanged, and
for every value of `pixelation` (in particular every `pixelation > 0`) the
returned row has the same number of pixels as the input and every pixel keeps
its alpha and its source coordinates: only `r`, `g`, `b` may change. -/
theorem pixelation_keeps_length_alpha_and_coordinates (m : GIFGlitcher)
    (row : List PixelInfo) (y : Int) :
    ({ m with currentParams := { m.currentParams with pixelation := 0 } }
        ).applyPixelation row y = row
      ∧ (m.applyPixelation row y).length = row.length
      ∧ (m.applyPixelation row y).map (fun p => (p.sourceX, p.sourceY, p.a, p.processed))
          = row.map (fun p => (p.sourceX, p.sourceY, p.a, p.processed)) := by
  have hkey : (m.applyPixelation row y).map (fun p => (p.sourceX, p.sourceY, p.a, p.processed))
      = row.map (fun p => (p.sourceX, p.sourceY, p.a, p.processed)) := by
    unfold GIFGlitcher.applyPixelation
    split
    · rfl
    · apply foldl_preserves
        (fun buf : List PixelInfo =>
          buf.map (fun p => (p.sourceX, p.sourceY, p.a, p.processed))
            = row.map (fun p => (p.sourceX, p.sourceY, p.a, p.processed)))
      · intro buf x hbuf
        dsimp only
        split
        · apply foldl_preserves
            (fun buf : List PixelInfo =>
              buf.map (fun p => (p.sourceX, p.sourceY, p.a, p.processed))
                = row.map (fun p => (p.sourceX, p.sourceY, p.a, p.processed)))
          · intro b px hb
            refine Eq.trans (map_modifyAt_of_key _ _ ?_ b (x + px)) hb
            intro p
            rfl
          · exact hbuf
        · exact hbuf
      · rfl
  refine ⟨?_, ?_, hkey⟩
  · simp [GIFGlitcher.applyPixelation]
  · have h := congrArg List.length hkey
    simpa using h

/-! ## Dither-only mode -/

/-- Every entry of the Bayer matrix lies in `0 .. 63`. -/
theorem bayer8x8_entry_bounds (i j : Int) (hi : 0 ≤ i ∧ i < 8) (hj : 0 ≤ j ∧ j < 8) :
    0 ≤ (readAt (readAt bayer8x8 i) j : Int) ∧ (readAt (readAt bayer8x8 i) j : Int) ≤ 63 := by
  obtain ⟨hi0, hi8⟩ := hi
  obtain ⟨hj0, hj8⟩ := hj
  interval_cases i <;> interval_cases j <;> simp [readAt, bayer8x8]

/-- In dither-only mode (`posterize ≤ 0`, dither on) `applyPosterizeAndDither`
adds the same offset to the three colour channels of each of the first
`imageWidth` pixels and does not quantize. -/
theorem applyPosterizeAndDither_dither_only (m : GIFGlitcher) (row : List PixelInfo)
    (y : Int) (hp : m.currentParams.posterize ≤ 0)
    (hd : m.currentParams.ditherEffect = true) :
    m.applyPosterizeAndDither row y
      = row.mapIdx (fun i p =>
          if (i : Int) < m.imageWidth then
            { p with
              r := p.r + (((readAt (readAt bayer8x8 (y.tmod 8)) ((i : Int).tmod 8) : Int) : ℚ) / 64
                      - 1 / 2) * m.currentParams.ditherIntensity * (1 / 5),
              g := p.g + (((readAt (readAt bayer8x8 (y.tmod 8)) ((i : Int).tmod 8) : Int) : ℚ) / 64
                      - 1 / 2) * m.currentParams.ditherIntensity * (1 / 5),
              b := p.b + (((readAt (readAt bayer8x8 (y.tmod 8)) ((i : Int).tmod 8) : Int) : ℚ) / 64
                      - 1 / 2) * m.currentParams.ditherIntensity * (1 / 5) }
          else p) := by
  have hnot : ¬ (m.currentParams.posterize ≤ 0 ∧ m.currentParams.ditherEffect = false) := by
    intro h
    rw [hd] at h
    exact Bool.noConfusion h.2
  have hp2 : ¬ (m.currentParams.posterize > 0) := not_lt.mpr hp
  have hlev : m.posterizeLevels = 0 := by
    unfold GIFGlitcher.posterizeLevels
    rw [if_neg hp2]
  unfold GIFGlitcher.applyPosterizeAndDither
  rw [if_neg hnot]
  simp only [hlev, hd, gt_iff_lt, if_true, if_false, lt_irrefl]
  rw [foldl_modifyAt_intRange]

/-- C7: in dither-only mode (`posterize = 0`, `ditherEffect` on), for every row
index `y ≥ 0`, every column `x` of the row and every `ditherIntensity = d ≥ 0`,
`applyPosterizeAndDither` changes `r`, `g` and `b` of the pixel at column `x`
by the same amount `(bayer8x8[y mod 8][x mod 8]/64 - 1/2) * d * 0.2`, leaves
alpha and the source coordinates alone and does not quantize; the magnitude of
the change is at most `d * 0.1`, hence at most `d * 0.2`. -/
theorem dither_only_offsets_channels_equally (m : GIFGlitcher) (row : List PixelInfo)
    (y : Int) (x : Nat) (hy : 0 ≤ y) (hxW : (x : Int) < m.imageWidth) (hxrow : x < row.length)
    (hp : m.currentParams.posterize = 0) (hd : m.currentParams.ditherEffect = true)
    (hd0 : 0 ≤ m.currentParams.ditherIntensity) :
    (readAt (m.applyPosterizeAndDither row y) x).r
        = (readAt row x).r
          + (((readAt (readAt bayer8x8 (y % 8)) ((x : Int) % 8) : Int) : ℚ) / 64 - 1 / 2)
            * m.currentParams.ditherIntensity * (1 / 5)
      ∧ (readAt (m.applyPosterizeAndDither row y) x).g
        = (readAt row x).g
          + (((readAt (readAt bayer8x8 (y % 8)) ((x : Int) % 8) : Int) : ℚ) / 64 - 1 / 2)
            * m.currentParams.ditherIntensity * (1 / 5)
      ∧ (readAt (m.applyPosterizeAndDither row y) x).b
        = (readAt row x).b
          + (((readAt (readAt bayer8x8 (y % 8)) ((x : Int) % 8) : Int) : ℚ) / 64 - 1 / 2)
            * m.currentParams.ditherIntensity * (1 / 5)
      ∧ (readAt (m.applyPosterizeAndDither row y) x).a = (readAt row x).a
      ∧ (readAt (m.applyPosterizeAndDither row y) x).sourceX = (readAt row x).sourceX
      ∧ (readAt (m.applyPosterizeAndDither row y) x).sourceY = (readAt row x).sourceY
      ∧ |(((readAt (readAt bayer8x8 (y % 8)) ((x : Int) % 8) : Int) : ℚ) / 64 - 1 / 2)
            * m.currentParams.ditherIntensity * (1 / 5)|
          ≤ m.currentParams.ditherIntensity * (1 / 10)
      ∧ m.currentParams.ditherIntensity * (1 / 10) ≤ m.currentParams.ditherIntensity * (1 / 5) := by
  have hy8 : y.tmod 8 = y % 8 := Int.tmod_eq_emod hy (by decide)
  have hx8 : (x : Int).tmod 8 = (x : Int) % 8 := Int.tmod_eq_emod (by omega) (by decide)
  have hread : readAt (m.applyPosterizeAndDither row y) x
      = { (readAt row x) with
          r := (readAt row x).r
            + (((readAt (readAt bayer8x8 (y % 8)) ((x : Int) % 8) : Int) : ℚ) / 64 - 1 / 2)
              * m.currentParams.ditherIntensity * (1 / 5),
          g := (readAt row x).g
            + (((readAt (readAt bayer8x8 (y % 8)) ((x : Int) % 8) : Int) : ℚ) / 64 - 1 / 2)
              * m.currentParams.ditherIntensity * (1 / 5),
          b := (readAt row x).b
            + (((readAt (readAt bayer8x8 (y % 8)) ((x : Int) % 8) : Int) : ℚ) / 64 - 1 / 2)
              * m.currentParams.ditherIntensity * (1 / 5) } := by
    rw [applyPosterizeAndDither_dither_only m row y (le_of_eq hp) hd]
    have hneg : ¬ ((x : Int) < 0) := by omega
    simp only [readAt, hneg, if_false, Int.toNat_ofNat, List.getD_eq_getElem?_getD,
      List.getElem?_mapIdx, List.getElem?_eq_getElem hxrow, Option.map_some', Option.getD_some,
      hxW, if_true, hy8, hx8]
  obtain ⟨hb0, hb63⟩ := bayer8x8_entry_bounds (y % 8) ((x : Int) % 8)
    ⟨Int.emod_nonneg _ (by decide), Int.emod_lt_of_pos _ (by decide)⟩
    ⟨Int.emod_nonneg _ (by decide), Int.emod_lt_of_pos _ (by decide)⟩
  have hq0 : (0 : ℚ) ≤ ((readAt (readAt bayer8x8 (y % 8)) ((x : Int) % 8) : Int) : ℚ) := by
    exact_mod_cast hb0
  have hq63 : ((readAt (readAt bayer8x8 (y % 8)) ((x : Int) % 8) : Int) : ℚ) ≤ 63 := by
    exact_mod_cast hb63
  refine ⟨by rw [hread], by rw [hread], by rw [hread], by rw [hread], by rw [hread],
    by rw [hread], ?_, ?_⟩
  · rw [abs_le]
    constructor <;> nlinarith
  · linarith

/-- Witness of C7 on a two-pixel row at row 3, column 1, where the Bayer entry
is 28: each colour channel moves by `(28/64 - 1/2) * 0.2 * 0.2`. -/
theorem dither_only_offsets_channels_equally_witness :
    (readAt (ditherModule.applyPosterizeAndDither twoPixelRow 3) 1).r
        = (readAt twoPixelRow 1).r
          + (((readAt (readAt bayer8x8 (3 % 8)) (((1 : Nat) : Int) % 8) : Int) : ℚ) / 64 - 1 / 2)
            * ditherModule.currentParams.ditherIntensity * (1 / 5) :=
  (dither_only_offsets_channels_equally ditherModule twoPixelRow 3 1 (by decide)
    (by decide) (by decide) rfl rfl (by norm_num [ditherModule])).1

/-! ## The animation driver: Forward mode -/

/-- One PingPong advance in the forward direction below the last frame. -/
theorem advanceFrame_pingPong_up (m : GIFGlitcher) (ext : Externals) (rng : Nat)
    (hmode : m.playbackMode = PlaybackMode.PING_PONG) (hrev : m.playbackReverse = false)
    (hn : 2 ≤ m.gifFrames.length) (hn64 : m.gifFrames.length < 2 ^ 64)
    (hcur : m.currentFrame + 1 ≤ m.gifFrames.length - 1) :
    m.advanceFrame ext rng
      = (m.currentFrame + 1, decide (m.currentFrame + 1 = m.gifFrames.length - 1), rng) := by
  have h1 : (m.currentFrame + 1) % 2 ^ 64 = m.currentFrame + 1 :=
    Nat.mod_eq_of_lt (by omega)
  have h2 : (m.gifFrames.length + 2 ^ 64 - 1) % 2 ^ 64 = m.gifFrames.length - 1 := by
    have : m.gifFrames.length + 2 ^ 64 - 1 = (m.gifFrames.length - 1) + 2 ^ 64 := by omega
    rw [this, Nat.add_mod_right]
    exact Nat.mod_eq_of_lt (by omega)
  unfold GIFGlitcher.advanceFrame
  rw [hmode]
  simp only [hrev, if_true, h1, h2]
  by_cases h : m.currentFrame + 1 = m.gifFrames.length - 1
  · have hge : m.currentFrame + 1 ≥ m.gifFrames.length - 1 := by omega
    simp [h, hge]
  · have hge : ¬ (m.currentFrame + 1 ≥ m.gifFrames.length - 1) := by omega
    simp [h, hge]

/-- One PingPong advance in the reverse direction above the first frame. -/
theorem advanceFrame_pingPong_down (m : GIFGlitcher) (ext : Externals) (rng : Nat)
    (hmode : m.playbackMode = PlaybackMode.PING_PONG) (hrev : m.playbackReverse = true)
    (hcur1 : 1 ≤ m.currentFrame) (hcur64 : m.currentFrame < 2 ^ 64) :
    m.advanceFrame ext rng
      = (m.currentFrame - 1, decide (m.currentFrame - 1 ≠ 0), rng) := by
  have h1 : (m.currentFrame + 2 ^ 64 - 1) % 2 ^ 64 = m.currentFrame - 1 := by
    have : m.currentFrame + 2 ^ 64 - 1 = (m.currentFrame - 1) + 2 ^ 64 := by omega
    rw [this, Nat.add_mod_right]
    exact Nat.mod_eq_of_lt (by omega)
  unfold GIFGlitcher.advanceFrame
  rw [hmode]
  simp only [hrev, Bool.true_eq_false, if_false, h1]
  by_cases h : m.currentFrame - 1 = 0
  · simp [h]
  · have : ¬ (m.currentFrame - 1 ≤ 0) := by omega
    simp [h, this]

/-- The successor of a remainder: `(k + 1) mod p` from `k mod p`. -/
theorem succ_mod_cases (k p : Nat) (hp : 0 < p) :
    (k + 1) % p = if k % p + 1 = p then 0 else k % p + 1 := by
  have hlt : k % p < p := Nat.mod_lt k hp
  rw [Nat.add_mod]
  by_cases h : k % p + 1 = p
  · rw [if_pos h]
    rcases Nat.lt_or_ge 1 p with h1 | h1
    · rw [Nat.mod_eq_of_lt h1, h, Nat.mod_self]
    · have hp1 : p = 1 := by omega
      subst hp1
      omega
  · rw [if_neg h]
    rcases Nat.lt_or_ge 1 p with h1 | h1
    · rw [Nat.mod_eq_of_lt h1]
      exact Nat.mod_eq_of_lt (by omega)
    · omega

/-- The state reached by `k` PingPong advances from index 0, direction
forward: the fixed fields are kept, and index and direction are given by
`k mod (2 (n - 1))`. -/
theorem advanceTimes_pingPong (m : GIFGlitcher) (ext : Externals) (rng : Nat)
    (hmode : m.playbackMode = PlaybackMode.PING_PONG)
    (hn : 2 ≤ m.gifFrames.length) (hn64 : m.gifFrames.length < 2 ^ 64)
    (hcur : m.currentFrame = 0) (hrev : m.playbackReverse = false) (k : Nat) :
    (advanceTimes ext k (m, rng)).1.playbackMode = PlaybackMode.PING_PONG
      ∧ (advanceTimes ext k (m, rng)).1.gifFrames = m.gifFrames
      ∧ (advanceTimes ext k (m, rng)).1.currentFrame
          = (if k % (2 * (m.gifFrames.length - 1)) ≤ m.gifFrames.length - 1
              then k % (2 * (m.gifFrames.length - 1))
              else 2 * (m.gifFrames.length - 1) - k % (2 * (m.gifFrames.length - 1)))
      ∧ (advanceTimes ext k (m, rng)).1.playbackReverse
          = decide (m.gifFrames.length - 1 ≤ k % (2 * (m.gifFrames.length - 1))) := by
  induction k with
  | zero =>
    refine ⟨hmode, rfl, ?_, ?_⟩
    · simp [advanceTimes, hcur]
    · have : ¬ (m.gifFrames.length - 1 ≤ 0) := by omega
      simp [advanceTimes, hrev, this]
  | succ k ih =>
    obtain ⟨ihm, ihf, ihc, ihr⟩ := ih
    have hp : 0 < 2 * (m.gifFrames.length - 1) := by omega
    have hlt : k % (2 * (m.gifFrames.length - 1)) < 2 * (m.gifFrames.length - 1) :=
      Nat.mod_lt k hp
    have hsucc := succ_mod_cases k (2 * (m.gifFrames.length - 1)) hp
    generalize hr : k % (2 * (m.gifFrames.length - 1)) = r at *
    generalize hs : advanceTimes ext k (m, rng) = s at *
    by_cases hup : r < m.gifFrames.length - 1
    · have hrev' : s.1.playbackReverse = false := by
        rw [ihr]
        simp
        omega
      have hcur' : s.1.currentFrame = r := by
        rw [ihc, if_pos (by omega)]
      have hadv := advanceFrame_pingPong_up s.1 ext s.2 ihm hrev' (by rw [ihf]; exact hn)
        (by rw [ihf]; exact hn64) (by rw [ihf, hcur']; omega)
      have hnext : (k + 1) % (2 * (m.gifFrames.length - 1)) = r + 1 := by
        rw [hsucc, if_neg (by omega)]
      simp only [advanceTimes, hs, hadv, hnext]
      refine ⟨ihm, ihf, ?_, ?_⟩
      · rw [hcur', if_pos (by omega)]
      · rw [hcur', ihf]
        by_cases he : r + 1 = m.gifFrames.length - 1
        · have : m.gifFrames.length - 1 ≤ r + 1 := by omega
          simp [he]
        · have : ¬ (m.gifFrames.length - 1 ≤ r + 1) := by omega
          simp [he, this]
    · have hrev' : s.1.playbackReverse = true := by
        rw [ihr]
        simp
        omega
      have hcur' : s.1.currentFrame = 2 * (m.gifFrames.length - 1) - r := by
        rw [ihc]
        by_cases he : r ≤ m.gifFrames.length - 1
        · rw [if_pos he]
          omega
        · rw [if_neg he]
      have hadv := advanceFrame_pingPong_down s.1 ext s.2 ihm hrev' (by rw [hcur']; omega)
        (by rw [hcur']; omega)
      simp only [advanceTimes, hs, hadv]
      refine ⟨ihm, ihf, ?_, ?_⟩
      · rw [hcur', hsucc]
        by_cases he : r + 1 = 2 * (m.gifFrames.length - 1)
        · rw [if_pos he, if_pos (by omega)]
          omega
        · rw [if_neg he]
          by_cases he2 : r + 1 ≤ m.gifFrames.length - 1
          · omega
          · rw [if_neg he2]
            omega
      · rw [hcur', hsucc]
        by_cases he : r + 1 = 2 * (m.gifFrames.length - 1)
        · rw [if_pos he]
          have h1 : 2 * (m.gifFrames.length - 1) - r - 1 = 0 := by omega
          have h2 : ¬ (m.gifFrames.length - 1 ≤ 0) := by omega
          simp [h1, h2]
        · rw [if_neg he]
          have h1 : 2 * (m.gifFrames.length - 1) - r - 1 ≠ 0 := by omega
          have h2 : m.gifFrames.length - 1 ≤ r + 1 := by omega
          simp [h1, h2]

/-- C9: an animation with `n ≥ 2` frames in PingPong mode, started at index 0
with direction forward, visits `0, 1, ..., n-1, n-2, ..., 1, 0, 1, ...`: after
`k` advances the index is `k mod 2(n-1)` on the way up and
`2(n-1) - k mod 2(n-1)` on the way down, every advance changes the index by
exactly 1 and keeps it below `n`, and the direction flag flips exactly when the
new index is `n-1` or `0`; so no terminal frame is skipped or shown twice in a
row. -/
theorem pingPong_bounces_at_both_ends (m : GIFGlitcher) (ext : Externals) (rng : Nat)
    (hmode : m.playbackMode = PlaybackMode.PING_PONG)
    (hn : 2 ≤ m.gifFrames.length) (hn64 : m.gifFrames.length < 2 ^ 64)
    (hcur : m.currentFrame = 0) (hrev : m.playbackReverse = false) (k : Nat) :
    (advanceTimes ext k (m, rng)).1.currentFrame
        = (if k % (2 * (m.gifFrames.length - 1)) ≤ m.gifFrames.length - 1
            then k % (2 * (m.gifFrames.length - 1))
            else 2 * (m.gifFrames.length - 1) - k % (2 * (m.gifFrames.length - 1)))
      ∧ (advanceTimes ext k (m, rng)).1.playbackReverse
          = decide (m.gifFrames.length - 1 ≤ k % (2 * (m.gifFrames.length - 1)))
      ∧ ((advanceTimes ext (k + 1) (m, rng)).1.currentFrame
            = (advanceTimes ext k (m, rng)).1.currentFrame + 1
          ∨ (advanceTimes ext (k + 1) (m, rng)).1.currentFrame + 1
            = (advanceTimes ext k (m, rng)).1.currentFrame)
      ∧ (advanceTimes ext (k + 1) (m, rng)).1.currentFrame < m.gifFrames.length
      ∧ ((advanceTimes ext (k + 1) (m, rng)).1.playbackReverse
            ≠ (advanceTimes ext k (m, rng)).1.playbackReverse
          ↔ ((advanceTimes ext (k + 1) (m, rng)).1.currentFrame = m.gifFrames.length - 1
            ∨ (advanceTimes ext (k + 1) (m, rng)).1.currentFrame = 0)) := by
  obtain ⟨_, _, hc, hr⟩ := advanceTimes_pingPong m ext rng hmode hn hn64 hcur hrev k
  obtain ⟨_, _, hc', hr'⟩ := advanceTimes_pingPong m ext rng hmode hn hn64 hcur hrev (k + 1)
  have hp : 0 < 2 * (m.gifFrames.length - 1) := by omega
  have hlt : k % (2 * (m.gifFrames.length - 1)) < 2 * (m.gifFrames.length - 1) :=
    Nat.mod_lt k hp
  have hsucc := succ_mod_cases k (2 * (m.gifFrames.length - 1)) hp
  refine ⟨hc, hr, ?_, ?_, ?_⟩
  · rw [hc', hc, hsucc]
    generalize k % (2 * (m.gifFrames.length - 1)) = r at *
    split_ifs <;> omega
  · rw [hc', hsucc]
    generalize k % (2 * (m.gifFrames.length - 1)) = r at *
    split_ifs <;> omega
  · rw [hc', hr', hr, hsucc]
    generalize k % (2 * (m.gifFrames.length - 1)) = r at *
    by_cases h1 : r + 1 = 2 * (m.gifFrames.length - 1)
    · simp only [h1, if_true, ne_eq, decide_eq_decide]
      constructor
      · intro _
        right
        rw [if_pos (by omega)]
      · intro _
        omega
    · simp only [h1, if_false, ne_eq, decide_eq_decide]
      constructor
      · intro hne
        by_cases h2 : r + 1 ≤ m.gifFrames.length - 1
        · rw [if_pos h2]
          left
          by_contra h3
          apply hne
          constructor <;> intro <;> omega
        · exfalso
          apply hne
          constructor <;> intro <;> omega
      · intro h
        by_cases h2 : r + 1 ≤ m.gifFrames.length - 1
        · rw [if_pos h2] at h
          omega
        · rw [if_neg h2] at h
          omega

/-- Witness of C9 on a four-frame animation: five advances from index 0 lead
to index 1 on the way down. -/
theorem pingPong_bounces_at_both_ends_witness :
    (advanceTimes quietExternals 5 (pingPongModule, 0)).1.currentFrame
        = (if 5 % (2 * (pingPongModule.gifFrames.length - 1)) ≤ pingPongModule.gifFrames.length - 1
            then 5 % (2 * (pingPongModule.gifFrames.length - 1))
            else 2 * (pingPongModule.gifFrames.length - 1)
              - 5 % (2 * (pingPongModule.gifFrames.length - 1))) :=
  (pingPong_bounces_at_both_ends pingPongModule quietExternals 0 rfl (by decide)
    (by simp [pingPongModule]) rfl rfl 5).1

/-! ## Deferred load -/

/-- The method `stopWorkerThread` keeps the deferred-load fields. -/
theorem stopWorkerThread_deferred (m : GIFGlitcher) :
    deferredFields m.stopWorkerThread = deferredFields m := by
  unfold GIFGlitcher.stopWorkerThread deferredFields
  split <;> rfl

/-- The method `startWorkerThread` keeps the deferred-load fields. -/
theorem startWorkerThread_deferred (m : GIFGlitcher) :
    deferredFields m.startWorkerThread = deferredFields m := by
  unfold GIFGlitcher.startWorkerThread deferredFields
  split <;> rfl

/-- Clearing the frame store keeps the deferred-load fields. -/
theorem resetFrameStore_deferred (m : GIFGlitcher) (gif : GifFileType) :
    deferredFields (m.resetFrameStore gif) = deferredFields m := by
  rw [← stopWorkerThread_deferred m]
  unfold GIFGlitcher.resetFrameStore deferredFields
  dsimp only
  split <;> rfl

/-- Installing the decoded frames keeps the deferred-load fields. -/
theorem installFrames_deferred (m : GIFGlitcher) (ext : Externals) (path : String)
    (frames : List GifFrame) :
    deferredFields (m.installFrames ext path frames).1 = deferredFields m := by
  unfold GIFGlitcher.installFrames
  dsimp only
  split
  · split
    · exact (startWorkerThread_deferred _).trans rfl
    · exact (startWorkerThread_deferred _).trans rfl
  · rfl

/-- The part of `loadGif` after the decode keeps the deferred-load fields. -/
theorem loadDecoded_deferred (m : GIFGlitcher) (ext : Externals) (path : String)
    (gif : GifFileType) :
    deferredFields (m.loadDecoded ext path gif).1 = deferredFields m := by
  unfold GIFGlitcher.loadDecoded
  split
  · rfl
  · dsimp only
    split
    · exact resetFrameStore_deferred m gif
    · exact (installFrames_deferred _ ext path _).trans (resetFrameStore_deferred m gif)

/-- With a render context and a non-empty path, `loadGif` hands the path to
the decoder exactly once, whatever the decoder answers, and leaves the
pending-load fields and the context alone. -/
theorem loadGif_with_context (m : GIFGlitcher) (ext : Externals) (path : String)
    (hpath : path.isEmpty = false) (hvg : m.vg.isSome = true) :
    deferredFields (m.loadGif ext path).1
      = (m.decodeLog ++ [path], m.hasPendingGif, m.pendingGifPath, m.vg) := by
  have hnone : m.vg.isNone = false := by
    cases h : m.vg with
    | none => rw [h] at hvg; exact Bool.noConfusion hvg
    | some c => rfl
  unfold GIFGlitcher.loadGif
  rw [hpath]
  dsimp only
  rw [hnone]
  simp only [Bool.false_eq_true, if_false]
  split
  · rfl
  · split
    · rfl
    · exact (loadDecoded_deferred _ ext path _).trans rfl

/-- Without a pending load, or without a context, `setVG` hands nothing to the
decoder and leaves the pending flag as it is. -/
theorem setVG_without_pending (m : GIFGlitcher) (ext : Externals) (v : Option NVGcontext)
    (h : m.hasPendingGif = false) :
    (m.setVG ext v).decodeLog = m.decodeLog ∧ (m.setVG ext v).hasPendingGif = false := by
  unfold GIFGlitcher.setVG
  simp [h]

/-- Without a pending load, no sequence of `setVG` calls reaches the
decoder. -/
theorem setVG_sequence_without_pending (ext : Externals) (vs : List (Option NVGcontext)) :
    ∀ m : GIFGlitcher, m.hasPendingGif = false →
      (vs.foldl (fun s v => s.setVG ext v) m).decodeLog = m.decodeLog := by
  induction vs with
  | nil => intro m _; rfl
  | cons v rest ih =>
    intro m h
    obtain ⟨h1, h2⟩ := setVG_without_pending m ext v h
    rw [List.foldl_cons, ih _ h2, h1]

/-- C10: deferred load.  `loadGif(path)` with a non-empty path and no render
context returns false, hands nothing to the decoder and records the path as
pending; the next `setVG` with a non-null context hands exactly that path to
the decoder, once, and clears the pending flag, and after that no sequence of
further `setVG` calls reaches the decoder. -/
theorem deferred_load_is_replayed_once (m : GIFGlitcher) (ext : Externals) (path : String)
    (ctx : NVGcontext) (further : List (Option NVGcontext))
    (hpath : path.isEmpty = false) (hvg : m.vg = none) :
    (m.loadGif ext path).2 = false
      ∧ (m.loadGif ext path).1.decodeLog = m.decodeLog
      ∧ (m.loadGif ext path).1.gifFrames = m.gifFrames
      ∧ (m.loadGif ext path).1.imageData = m.imageData
      ∧ (m.loadGif ext path).1.pendingGifPath = path
      ∧ (m.loadGif ext path).1.hasPendingGif = true
      ∧ ((m.loadGif ext path).1.setVG ext (some ctx)).decodeLog = m.decodeLog ++ [path]
      ∧ ((m.loadGif ext path).1.setVG ext (some ctx)).hasPendingGif = false
      ∧ (further.foldl (fun s v => s.setVG ext v)
            ((m.loadGif ext path).1.setVG ext (some ctx))).decodeLog
          = m.decodeLog ++ [path] := by
  have hload : m.loadGif ext path
      = ({ m with imagePath := path, pendingGifPath := path, hasPendingGif := true }, false) := by
    unfold GIFGlitcher.loadGif
    rw [hpath]
    dsimp only
    rw [hvg]
    rfl
  have hset : ({ m with imagePath := path, pendingGifPath := path,
                        hasPendingGif := true } : GIFGlitcher).setVG ext (some ctx)
      = { (({ m with imagePath := path, pendingGifPath := path, hasPendingGif := true,
                      vg := some ctx } : GIFGlitcher).loadGif ext path).1
          with hasPendingGif := false } := by
    unfold GIFGlitcher.setVG
    simp
  have hctx := loadGif_with_context
    ({ m with imagePath := path, pendingGifPath := path, hasPendingGif := true,
              vg := some ctx } : GIFGlitcher) ext path hpath rfl
  have hlog :
      (({ m with imagePath := path, pendingGifPath := path, hasPendingGif := true,
                 vg := some ctx } : GIFGlitcher).loadGif ext path).1.decodeLog
        = m.decodeLog ++ [path] := congrArg (fun t => t.1) hctx
  rw [hload]
  refine ⟨rfl, rfl, rfl, rfl, rfl, rfl, ?_, ?_, ?_⟩
  · rw [hset]
    exact hlog
  · rw [hset]
  · rw [setVG_sequence_without_pending ext further _ (by rw [hset]), hset]
    exact hlog

/-- Witness of C10 with a decoder that delivers a one-frame animation: after
the deferred load is replayed, the decode log holds the path once, also after
two more `setVG` calls. -/
theorem deferred_load_is_replayed_once_witness :
    (([none, some { id := 2 }] : List (Option NVGcontext)).foldl
        (fun s v => s.setVG onePixelExternals v)
        ((({} : GIFGlitcher).loadGif onePixelExternals "a.gif").1.setVG onePixelExternals
          (some { id := 1 }))).decodeLog
      = ({} : GIFGlitcher).decodeLog ++ ["a.gif"] :=
  (deferred_load_is_replayed_once {} onePixelExternals "a.gif" { id := 1 }
    [none, some { id := 2 }] (by decide) rfl).2.2.2.2.2.2.2.2

/-! ## Pixel sort -/

/-- Reading the element that follows a prefix. -/
theorem readAt_append_cons {α : Type} [Inhabited α] (A : List α) (p : α) (ps : List α) :
    readAt (A ++ p :: ps) (Int.ofNat A.length) = p := by
  have hneg : ¬ (Int.ofNat A.length < 0) := not_lt.mpr (Int.ofNat_nonneg _)
  unfold readAt
  rw [if_neg hneg]
  have h : (A ++ p :: ps)[A.length]? = some p := by
    rw [List.getElem?_append_right (le_refl _)]
    simp
  simp [List.getD_eq_getElem?_getD, h]

/-- A column index is not the sentinel `-1`. -/
theorem ofNat_ne_neg_one (n : Nat) : Int.ofNat n ≠ -1 := by
  have h : (0 : Int) ≤ Int.ofNat n := Int.ofNat_nonneg _
  omega

/-- The call of `std::sort` on the open run replaces the run by its sorted
version. -/
theorem sortRange_run (ext : Externals) (A run rest : List PixelInfo) :
    GIFGlitcher.sortRange ext (A ++ run ++ rest) (Int.ofNat A.length)
        (Int.ofNat (A.length + run.length))
      = A ++ ext.stdSort GIFGlitcher.sumLess run ++ rest := by
  unfold GIFGlitcher.sortRange
  have h1 : (Int.ofNat A.length).toNat = A.length := rfl
  have h2 : (Int.ofNat (A.length + run.length)).toNat = A.length + run.length := rfl
  have h3 : max A.length (A.length + run.length) = (A ++ run).length := by
    simp
  have h4 : A.length + run.length - A.length = run.length := by omega
  have e1 : List.take A.length (A ++ run ++ rest) = A := by
    rw [List.append_assoc, List.take_left]
  have e2 : List.drop A.length (A ++ run ++ rest) = run ++ rest := by
    rw [List.append_assoc, List.drop_left]
  have e3 : List.take run.length (run ++ rest) = run := List.take_left run rest
  have e4 : List.drop (A ++ run).length (A ++ run ++ rest) = rest := List.drop_left _ rest
  rw [h1, h2, h3, h4, e1, e2, e3, e4]

/-- The pixel-sort loop from column `|A|` on with no open run (first part) and
from column `|A| + |run|` on with the open run `run` that starts at column
`|A|` (second part) computes the list view `sortRuns` of the remaining
pixels. -/
theorem pixelSort_loop_eq_sortRuns (m : GIFGlitcher) (ext : Externals)
    (hlen : ∀ l, (ext.stdSort GIFGlitcher.sumLess l).length = l.length)
    (rest : List PixelInfo) :
    (∀ A : List PixelInfo, m.imageWidth = Int.ofNat (A.length + rest.length) →
      ((List.range' A.length rest.length).foldl
          (fun st i => GIFGlitcher.pixelSortStep m ext st (Int.ofNat i)) (A ++ rest, -1)).1
        = A ++ sortRuns (ext.stdSort GIFGlitcher.sumLess) m.currentParams.pixelSort none rest)
    ∧ (∀ A run : List PixelInfo,
      m.imageWidth = Int.ofNat (A.length + run.length + rest.length) →
      ((List.range' (A.length + run.length) rest.length).foldl
          (fun st i => GIFGlitcher.pixelSortStep m ext st (Int.ofNat i))
          (A ++ run ++ rest, Int.ofNat A.length)).1
        = A ++ sortRuns (ext.stdSort GIFGlitcher.sumLess) m.currentParams.pixelSort
            (some run) rest) := by
  induction rest with
  | nil =>
    constructor
    · intro A _
      simp [sortRuns]
    · intro A run _
      simp [sortRuns]
  | cons p ps ih =>
    obtain ⟨ihNone, ihSome⟩ := ih
    constructor
    · intro A hW
      rw [List.length_cons, List.range'_succ, List.foldl_cons]
      have hread : readAt (A ++ p :: ps) (Int.ofNat A.length) = p := readAt_append_cons A p ps
      by_cases hb : GIFGlitcher.sortBrightness p > m.currentParams.pixelSort
      · by_cases hps : ps = []
        · -- the run would start at the last column: an empty range is sorted
          subst hps
          have hstep : GIFGlitcher.pixelSortStep m ext (A ++ [p], -1) (Int.ofNat A.length)
              = (GIFGlitcher.sortRange ext (A ++ [p]) (Int.ofNat A.length)
                  (Int.ofNat A.length), -1) := by
            unfold GIFGlitcher.pixelSortStep
            simp only [hread]
            have hb' : GIFGlitcher.sortBrightness p > m.currentParams.pixelSort := hb
            have hlast : Int.ofNat A.length = m.imageWidth - 1 := by
              rw [hW]
              simp
            have hne : Int.ofNat A.length ≠ -1 := ofNat_ne_neg_one _
            simp only [hb', and_true, if_true, hlast, or_true, ne_eq]
            rw [← hlast]
            simp [hne]
          rw [hstep]
          have hsr := sortRange_run ext A [] [p]
          simp only [List.append_nil, List.length_nil, Nat.add_zero] at hsr
          have hnil : ext.stdSort GIFGlitcher.sumLess [] = [] :=
            List.eq_nil_of_length_eq_zero (by rw [hlen]; rfl)
          rw [hsr, hnil]
          simp [sortRuns, hb]
        · have hstep : GIFGlitcher.pixelSortStep m ext (A ++ p :: ps, -1) (Int.ofNat A.length)
              = (A ++ p :: ps, Int.ofNat A.length) := by
            unfold GIFGlitcher.pixelSortStep
            simp only [hread]
            have hb' : GIFGlitcher.sortBrightness p > m.currentParams.pixelSort := hb
            have hb2 : ¬ (GIFGlitcher.sortBrightness p < m.currentParams.pixelSort) :=
              not_lt.mpr (le_of_lt hb')
            have hlast : ¬ (Int.ofNat A.length = m.imageWidth - 1) := by
              rw [hW]
              have : 0 < ps.length := List.length_pos.mpr hps
              simp
              omega
            simp only [hb', and_true, if_true, hb2, hlast, or_self, and_false, if_false]
          rw [hstep]
          have h : ((List.range' (A.length + 1) ps.length).foldl
              (fun st i => GIFGlitcher.pixelSortStep m ext st (Int.ofNat i))
              (A ++ p :: ps, Int.ofNat A.length)).1
              = A ++ sortRuns (ext.stdSort GIFGlitcher.sumLess) m.currentParams.pixelSort
                  (some [p]) ps := by
            have h0 := ihSome A [p] (by rw [hW]; simp; omega)
            simpa using h0
          rw [h]
          simp [sortRuns, hb, hps]
      · have hstep : GIFGlitcher.pixelSortStep m ext (A ++ p :: ps, -1) (Int.ofNat A.length)
            = (A ++ p :: ps, -1) := by
          unfold GIFGlitcher.pixelSortStep
          simp only [hread]
          have hb' : ¬ (GIFGlitcher.sortBrightness p > m.currentParams.pixelSort) := hb
          simp only [hb', and_false, if_false, ne_eq, not_true_eq_false, false_and]
        rw [hstep]
        have h : ((List.range' (A.length + 1) ps.length).foldl
            (fun st i => GIFGlitcher.pixelSortStep m ext st (Int.ofNat i))
            (A ++ p :: ps, -1)).1
            = A ++ p :: sortRuns (ext.stdSort GIFGlitcher.sumLess) m.currentParams.pixelSort
                none ps := by
          have h0 := ihNone (A ++ [p]) (by rw [hW]; simp; omega)
          simpa using h0
        rw [h]
        simp [sortRuns, hb]
    · intro A run hW
      rw [List.length_cons, List.range'_succ, List.foldl_cons]
      have hread : readAt (A ++ run ++ p :: ps) (Int.ofNat (A.length + run.length)) = p := by
        have := readAt_append_cons (A ++ run) p ps
        simpa using this
      have hne : Int.ofNat A.length ≠ -1 := ofNat_ne_neg_one _
      have hlast : (Int.ofNat (A.length + run.length) = m.imageWidth - 1) ↔ ps = [] := by
        rw [hW]
        constructor
        · intro h
          simp at h
          apply List.eq_nil_of_length_eq_zero
          omega
        · intro h
          subst h
          simp
      by_cases hend : GIFGlitcher.sortBrightness p < m.currentParams.pixelSort ∨ ps = []
      · have hstep : GIFGlitcher.pixelSortStep m ext (A ++ run ++ p :: ps, Int.ofNat A.length)
              (Int.ofNat (A.length + run.length))
            = (GIFGlitcher.sortRange ext (A ++ run ++ p :: ps) (Int.ofNat A.length)
                (Int.ofNat (A.length + run.length)), -1) := by
          unfold GIFGlitcher.pixelSortStep
          simp only [hread]
          have hend' : GIFGlitcher.sortBrightness p < m.currentParams.pixelSort
              ∨ Int.ofNat (A.length + run.length) = m.imageWidth - 1 := by
            rcases hend with h | h
            · exact Or.inl h
            · exact Or.inr (hlast.mpr h)
          simp only [hne, false_and, if_false, ne_eq, not_false_eq_true, hend', and_self,
            if_true]
        rw [hstep, sortRange_run]
        have h : ((List.range' (A.length + run.length + 1) ps.length).foldl
            (fun st i => GIFGlitcher.pixelSortStep m ext st (Int.ofNat i))
            (A ++ ext.stdSort GIFGlitcher.sumLess run ++ p :: ps, -1)).1
            = A ++ ext.stdSort GIFGlitcher.sumLess run
                ++ p :: sortRuns (ext.stdSort GIFGlitcher.sumLess) m.currentParams.pixelSort
                  none ps := by
          have h0 := ihNone (A ++ ext.stdSort GIFGlitcher.sumLess run ++ [p])
            (by rw [hW]; simp [hlen]; omega)
          simpa [hlen, Nat.add_assoc] using h0
        rw [h]
        simp [sortRuns, hend]
      · have hstep : GIFGlitcher.pixelSortStep m ext (A ++ run ++ p :: ps, Int.ofNat A.length)
              (Int.ofNat (A.length + run.length))
            = (A ++ run ++ p :: ps, Int.ofNat A.length) := by
          unfold GIFGlitcher.pixelSortStep
          simp only [hread]
          have hend' : ¬ (GIFGlitcher.sortBrightness p < m.currentParams.pixelSort
              ∨ Int.ofNat (A.length + run.length) = m.imageWidth - 1) := by
            intro h
            apply hend
            rcases h with h | h
            · exact Or.inl h
            · exact Or.inr (hlast.mp h)
          simp only [hne, false_and, if_false, ne_eq, not_false_eq_true, hend', and_false]
        rw [hstep]
        have h : ((List.range' (A.length + run.length + 1) ps.length).foldl
            (fun st i => GIFGlitcher.pixelSortStep m ext st (Int.ofNat i))
            (A ++ run ++ p :: ps, Int.ofNat A.length)).1
            = A ++ sortRuns (ext.stdSort GIFGlitcher.sumLess) m.currentParams.pixelSort
                (some (run ++ [p])) ps := by
          have h0 := ihSome A (run ++ [p]) (by rw [hW]; simp; omega)
          simpa [Nat.add_assoc] using h0
        rw [h]
        simp [sortRuns, hend]

/-- For a row of `imageWidth` pixels the pixel-sort step is the list view
`sortRuns` of the row. -/
theorem applyPixelSort_eq_sortRuns (m : GIFGlitcher) (ext : Externals) (row : List PixelInfo)
    (hps : 0 < m.currentParams.pixelSort) (hW : m.imageWidth = Int.ofNat row.length)
    (hlen : ∀ l, (ext.stdSort GIFGlitcher.sumLess l).length = l.length) :
    m.applyPixelSort ext row
      = sortRuns (ext.stdSort GIFGlitcher.sumLess) m.currentParams.pixelSort none row := by
  unfold GIFGlitcher.applyPixelSort
  have hps' : m.currentParams.pixelSort > 0 := hps
  rw [if_pos hps']
  unfold intRange
  rw [List.foldl_map, hW]
  have htoNat : (Int.ofNat row.length).toNat = row.length := rfl
  rw [htoNat, List.range_eq_range']
  have h := (pixelSort_loop_eq_sortRuns m ext hlen row).1 [] (by rw [hW]; simp)
  simpa using h

/-- An open run swallows every pixel that does not end it; the pixel that ends
it is kept in place behind the sorted run. -/
theorem sortRuns_some_append (sort : List PixelInfo → List PixelInfo) (t : ℚ)
    (mid : List PixelInfo) :
    ∀ (run : List PixelInfo) (q : PixelInfo) (rest : List PixelInfo),
      (∀ x ∈ mid, ¬ GIFGlitcher.sortBrightness x < t) → (GIFGlitcher.sortBrightness q < t ∨ rest = []) →
      sortRuns sort t (some run) (mid ++ q :: rest)
        = sort (run ++ mid) ++ q :: sortRuns sort t none rest := by
  induction mid with
  | nil =>
    intro run q rest _ hq
    simp [sortRuns, hq]
  | cons x mid ih =>
    intro run q rest hmid hq
    have hx : ¬ GIFGlitcher.sortBrightness x < t := hmid x (List.mem_cons_self _ _)
    have hne : mid ++ q :: rest ≠ [] := by simp
    have hcond : ¬ (GIFGlitcher.sortBrightness x < t ∨ mid ++ q :: rest = []) := by
      intro h
      rcases h with h | h
      · exact hx h
      · exact hne h
    rw [List.cons_append]
    simp only [sortRuns, hcond, if_false]
    rw [ih (run ++ [x]) q rest (fun y hy => hmid y (List.mem_cons_of_mem _ hy)) hq]
    simp

/-- Every non-empty row splits at the first pixel that ends a run: a pixel
darker than the threshold, or the last pixel. -/
theorem exists_run_end (t : ℚ) (ps : List PixelInfo) (hne : ps ≠ []) :
    ∃ mid q rest, ps = mid ++ q :: rest ∧ (∀ x ∈ mid, ¬ GIFGlitcher.sortBrightness x < t)
      ∧ (GIFGlitcher.sortBrightness q < t ∨ rest = []) := by
  induction ps with
  | nil => exact absurd rfl hne
  | cons a tl ih =>
    by_cases ha : GIFGlitcher.sortBrightness a < t
    · exact ⟨[], a, tl, rfl, by simp, Or.inl ha⟩
    · by_cases htl : tl = []
      · exact ⟨[], a, tl, rfl, by simp, Or.inr htl⟩
      · obtain ⟨mid, q, rest, hsplit, hmid, hq⟩ := ih htl
        refine ⟨a :: mid, q, rest, by rw [hsplit]; rfl, ?_, hq⟩
        intro x hx
        rcases List.mem_cons.mp hx with h | h
        · rw [h]
          exact ha
        · exact hmid x h

/-- The comparator answers false for `(b, a)` exactly when the sum of `a` is
at most the sum of `b`. -/
theorem sumLess_eq_false_iff (a b : PixelInfo) :
    GIFGlitcher.sumLess b a = false ↔ GIFGlitcher.channelSum a ≤ GIFGlitcher.channelSum b := by
  unfold GIFGlitcher.sumLess
  simp

/-- Insertion sort by the sum `r + g + b` returns a sorted permutation, also
when it is run on the reversed range. -/
theorem insertionSort_sumLess_sorted_perm (l : List PixelInfo) :
    (l.insertionSort (fun a b => GIFGlitcher.sumLess b a = false)).Perm l
      ∧ (l.insertionSort (fun a b => GIFGlitcher.sumLess b a = false)).Pairwise
          (fun a b => GIFGlitcher.sumLess b a = false) := by
  haveI : IsTotal PixelInfo (fun a b => GIFGlitcher.sumLess b a = false) :=
    ⟨fun a b => by
      rw [sumLess_eq_false_iff, sumLess_eq_false_iff]
      exact le_total _ _⟩
  haveI : IsTrans PixelInfo (fun a b => GIFGlitcher.sumLess b a = false) :=
    ⟨fun a b c hab hbc => by
      rw [sumLess_eq_false_iff] at *
      exact le_trans hab hbc⟩
  exact ⟨List.perm_insertionSort _ l, List.sorted_insertionSort _ l⟩

/-- Insertion sort meets the contract of `std::sort` and keeps sorted
ranges. -/
theorem quietExternals_sort_contract :
    StdSortContract quietExternals.stdSort ∧ KeepsSortedRanges quietExternals.stdSort := by
  constructor
  · intro l
    exact insertionSort_sumLess_sorted_perm l
  · intro l hl
    exact List.Sorted.insertionSort_eq hl

/-- An invariant indexed by the iteration count holds after a counted loop. -/
theorem foldl_range_invariant {β : Type} (P : Nat → β → Prop) (f : β → Nat → β) (n : Nat)
    (hstep : ∀ i b, i < n → P i b → P (i + 1) (f b i)) (b0 : β) (h0 : P 0 b0) :
    P n ((List.range n).foldl f b0) := by
  induction n with
  | zero => exact h0
  | succ n ih =>
    rw [List.range_succ, List.foldl_append]
    exact hstep n _ (Nat.lt_succ_self n)
      (ih (fun i b hi hP => hstep i b (Nat.lt_succ_of_lt hi) hP))

/-- The frame loop produces exactly one frame per decoded image. -/
theorem loadFrames_length (m : GIFGlitcher) (ext : Externals) (gif : GifFileType) :
    (m.loadFrames ext gif).2.2.length = gif.ImageCount.toNat := by
  unfold GIFGlitcher.loadFrames intRange
  simp only
  rw [List.foldl_map]
  have h := foldl_range_invariant
    (fun k (st : List Nat × List Nat × List GifFrame) => st.2.2.length = k)
    (fun st i => m.loadFrame ext gif st (Int.ofNat i)) gif.ImageCount.toNat
    (by
      intro i st _ hP
      show (m.loadFrame ext gif st (Int.ofNat i)).2.2.length = i + 1
      unfold GIFGlitcher.loadFrame
      simp [hP])
    (List.replicate (m.imageWidth * m.imageHeight * 4).toNat 0,
      List.replicate (m.imageWidth * m.imageHeight * 4).toNat 0, [])
    rfl
  exact h

/-- The method `startWorkerThread` only sets `threadRunning` and, when the
worker was not running, clears `processRequested`. -/
theorem startWorkerThread_eq (m : GIFGlitcher) :
    m.startWorkerThread
      = { m with threadRunning := true,
                 processRequested := if m.threadRunning then m.processRequested else false } := by
  unfold GIFGlitcher.startWorkerThread
  cases h : m.threadRunning <;> simp [h]
  cases m
  simp_all

/-- Installing a non-empty list of frames succeeds: the frames are stored
under the dimensions already set, and the first frame becomes the source and
the output buffer. -/
theorem installFrames_of_ne_nil (m : GIFGlitcher) (ext : Externals) (path : String)
    (frames : List GifFrame) (hne : frames ≠ []) :
    (m.installFrames ext path frames).2 = true
      ∧ (m.installFrames ext path frames).1.gifFrames = frames
      ∧ (m.installFrames ext path frames).1.imageWidth = m.imageWidth
      ∧ (m.installFrames ext path frames).1.imageHeight = m.imageHeight
      ∧ (m.installFrames ext path frames).1.imageData = (frames.getD 0 default).data
      ∧ (m.installFrames ext path frames).1.processedData = (frames.getD 0 default).data
      ∧ (m.installFrames ext path frames).1.imagePath = path
      ∧ (m.installFrames ext path frames).1.currentFrame = m.currentFrame := by
  have hempty : ¬ (frames.isEmpty = true) := by
    simpa [List.isEmpty_iff] using hne
  unfold GIFGlitcher.installFrames
  dsimp only
  rw [if_pos hempty]
  split <;> rw [startWorkerThread_eq] <;> exact ⟨rfl, rfl, rfl, rfl, rfl, rfl, rfl, rfl⟩

/-- The reset at the start of the locked block sets the dimensions of the
decoded file and clears the frame store. -/
theorem resetFrameStore_fields (m : GIFGlitcher) (gif : GifFileType) :
    (m.resetFrameStore gif).imageWidth = gif.SWidth
      ∧ (m.resetFrameStore gif).imageHeight = gif.SHeight
      ∧ (m.resetFrameStore gif).gifFrames = []
      ∧ (m.resetFrameStore gif).currentFrame = 0 := by
  unfold GIFGlitcher.resetFrameStore
  exact ⟨rfl, rfl, rfl, rfl⟩

/-- The part of `loadGif` after the decode returns true exactly when the
canvas dimensions lie in `[1, 4096]` and the file has at least one image; it
then holds one frame per image under the dimensions of the file. -/
theorem loadDecoded_accepts (m : GIFGlitcher) (ext : Externals) (path : String)
    (gif : GifFileType) :
    ((gif.SWidth ≤ 0 ∨ gif.SHeight ≤ 0 ∨ gif.SWidth > 4096 ∨ gif.SHeight > 4096
          ∨ gif.ImageCount ≤ 0) → (m.loadDecoded ext path gif).2 = false)
      ∧ (¬ (gif.SWidth ≤ 0 ∨ gif.SHeight ≤ 0 ∨ gif.SWidth > 4096 ∨ gif.SHeight > 4096
          ∨ gif.ImageCount ≤ 0) →
        (m.loadDecoded ext path gif).2 = true
          ∧ (m.loadDecoded ext path gif).1.gifFrames.length = gif.ImageCount.toNat
          ∧ (m.loadDecoded ext path gif).1.imageWidth = gif.SWidth
          ∧ (m.loadDecoded ext path gif).1.imageHeight = gif.SHeight) := by
  unfold GIFGlitcher.loadDecoded
  by_cases hdim : gif.SWidth ≤ 0 ∨ gif.SHeight ≤ 0 ∨ gif.SWidth > 4096 ∨ gif.SHeight > 4096
  · rw [if_pos hdim]
    constructor
    · intro _
      rfl
    · intro hnot
      exfalso
      apply hnot
      rcases hdim with h | h | h | h
      · exact Or.inl h
      · exact Or.inr (Or.inl h)
      · exact Or.inr (Or.inr (Or.inl h))
      · exact Or.inr (Or.inr (Or.inr (Or.inl h)))
  · rw [if_neg hdim]
    dsimp only
    by_cases hcount : gif.ImageCount ≤ 0
    · rw [if_pos hcount]
      constructor
      · intro _
        rfl
      · intro hnot
        exact absurd (Or.inr (Or.inr (Or.inr (Or.inr hcount)))) hnot
    · rw [if_neg hcount]
      have hlen := loadFrames_length (m.resetFrameStore gif) ext gif
      have hne : ((m.resetFrameStore gif).loadFrames ext gif).2.2 ≠ [] := by
        intro h
        rw [h] at hlen
        simp at hlen
        omega
      obtain ⟨h1, h2, h3, h4, _⟩ :=
        installFrames_of_ne_nil (m.resetFrameStore gif) ext path _ hne
      obtain ⟨r1, r2, _, _⟩ := resetFrameStore_fields m gif
      constructor
      · intro hbad
        rcases hbad with h | h | h | h | h
        · exact absurd (Or.inl h) hdim
        · exact absurd (Or.inr (Or.inl h)) hdim
        · exact absurd (Or.inr (Or.inr (Or.inl h))) hdim
        · exact absurd (Or.inr (Or.inr (Or.inr h))) hdim
        · exact absurd h hcount
      · intro _
        refine ⟨h1, ?_, ?_, ?_⟩
        · rw [h2]
          exact hlen
        · rw [h3]
          exact r1
        · rw [h4]
          exact r2

/-- The four ways in which `loadGif` ends before or at the decode, and the
hand-over to the part after a successful decode. -/
theorem loadGif_cases (m : GIFGlitcher) (ext : Externals) (path : String) :
    (path.isEmpty = true → m.loadGif ext path = (m, false))
      ∧ (path.isEmpty = false → m.vg = none →
          m.loadGif ext path
            = ({ m with imagePath := path, pendingGifPath := path, hasPendingGif := true },
                false))
      ∧ (path.isEmpty = false → m.vg.isSome = true → ext.DGifOpenFileName path = none →
          m.loadGif ext path
            = ({ m with imagePath := path, decodeLog := m.decodeLog ++ [path] }, false))
      ∧ (∀ opened, path.isEmpty = false → m.vg.isSome = true →
          ext.DGifOpenFileName path = some opened → ext.DGifSlurp opened = none →
          m.loadGif ext path
            = ({ m with imagePath := path, decodeLog := m.decodeLog ++ [path] }, false))
      ∧ (∀ opened gif, path.isEmpty = false → m.vg.isSome = true →
          ext.DGifOpenFileName path = some opened → ext.DGifSlurp opened = some gif →
          m.loadGif ext path
            = ({ m with imagePath := path,
                        decodeLog := m.decodeLog ++ [path] } : GIFGlitcher).loadDecoded
                ext path gif) := by
  have hnone : m.vg.isSome = true → m.vg.isNone = false := by
    intro h
    cases hv : m.vg with
    | none => rw [hv] at h; exact Bool.noConfusion h
    | some c => rfl
  refine ⟨?_, ?_, ?_, ?_, ?_⟩
  · intro hp
    unfold GIFGlitcher.loadGif
    rw [if_pos hp]
  · intro hp hv
    unfold GIFGlitcher.loadGif
    rw [hp]
    dsimp only
    rw [hv]
    rfl
  · intro hp hv hopen
    unfold GIFGlitcher.loadGif
    rw [hp]
    dsimp only
    rw [hnone hv, hopen]
    rfl
  · intro opened hp hv hopen hslurp
    unfold GIFGlitcher.loadGif
    rw [hp]
    dsimp only
    rw [hnone hv, hopen]
    dsimp only
    rw [hslurp]
    rfl
  · intro opened gif hp hv hopen hslurp
    unfold GIFGlitcher.loadGif
    rw [hp]
    dsimp only
    rw [hnone hv, hopen]
    dsimp only
    rw [hslurp]
    rfl

/-- C11: `loadGif` returns false whenever the decoded canvas width or height
lies outside `[1, 4096]` or the decoded file has no image; and when it returns
true, the decoder delivered a file with `1 ≤ W, H ≤ 4096` and at least one
image, and the module holds one frame per image (so at least one) under those
dimensions. -/
theorem loadGif_true_only_for_valid_canvas_with_frames (m : GIFGlitcher) (ext : Externals)
    (path : String) :
    (∀ opened gif, ext.DGifOpenFileName path = some opened → ext.DGifSlurp opened = some gif →
        (gif.SWidth < 1 ∨ 4096 < gif.SWidth ∨ gif.SHeight < 1 ∨ 4096 < gif.SHeight
          ∨ gif.ImageCount ≤ 0) →
        (m.loadGif ext path).2 = false)
      ∧ ((m.loadGif ext path).2 = true →
        ∃ opened gif, ext.DGifOpenFileName path = some opened
          ∧ ext.DGifSlurp opened = some gif
          ∧ 1 ≤ gif.SWidth ∧ gif.SWidth ≤ 4096 ∧ 1 ≤ gif.SHeight ∧ gif.SHeight ≤ 4096
          ∧ 1 ≤ gif.ImageCount
          ∧ (m.loadGif ext path).1.gifFrames.length = gif.ImageCount.toNat
          ∧ 1 ≤ (m.loadGif ext path).1.gifFrames.length
          ∧ (m.loadGif ext path).1.imageWidth = gif.SWidth
          ∧ (m.loadGif ext path).1.imageHeight = gif.SHeight) := by
  obtain ⟨hempty, hnoctx, hnoopen, hnoslurp, hdecoded⟩ := loadGif_cases m ext path
  have hfalse : ∀ s : GIFGlitcher, m.loadGif ext path = (s, false) →
      ¬ (m.loadGif ext path).2 = true := by
    intro s hs h
    rw [hs] at h
    exact Bool.noConfusion h
  constructor
  · intro opened gif hopen hslurp hbad
    cases hp : path.isEmpty with
    | true => rw [hempty hp]
    | false =>
      cases hv : m.vg with
      | none => rw [hnoctx hp hv]
      | some c =>
        rw [hdecoded opened gif hp (by rw [hv]; rfl) hopen hslurp]
        apply (loadDecoded_accepts _ ext path gif).1
        rcases hbad with h | h | h | h | h
        · exact Or.inl (by omega)
        · exact Or.inr (Or.inr (Or.inl (by omega)))
        · exact Or.inr (Or.inl (by omega))
        · exact Or.inr (Or.inr (Or.inr (Or.inl (by omega))))
        · exact Or.inr (Or.inr (Or.inr (Or.inr h)))
  · intro htrue
    cases hp : path.isEmpty with
    | true => exact absurd htrue (hfalse _ (hempty hp))
    | false =>
      cases hv : m.vg with
      | none => exact absurd htrue (hfalse _ (hnoctx hp hv))
      | some c =>
        have hsome : m.vg.isSome = true := by rw [hv]; rfl
        cases hopen : ext.DGifOpenFileName path with
        | none => exact absurd htrue (hfalse _ (hnoopen hp hsome hopen))
        | some opened =>
          cases hslurp : ext.DGifSlurp opened with
          | none => exact absurd htrue (hfalse _ (hnoslurp opened hp hsome hopen hslurp))
          | some gif =>
            have heq := hdecoded opened gif hp hsome hopen hslurp
            by_cases hbad : gif.SWidth ≤ 0 ∨ gif.SHeight ≤ 0 ∨ gif.SWidth > 4096
                ∨ gif.SHeight > 4096 ∨ gif.ImageCount ≤ 0
            · have hf := (loadDecoded_accepts
                ({ m with imagePath := path,
                          decodeLog := m.decodeLog ++ [path] } : GIFGlitcher)
                ext path gif).1 hbad
              rw [heq, hf] at htrue
              exact Bool.noConfusion htrue
            · obtain ⟨_, hlen, hw, hh⟩ := (loadDecoded_accepts
                ({ m with imagePath := path,
                          decodeLog := m.decodeLog ++ [path] } : GIFGlitcher)
                ext path gif).2 hbad
              have hW1 : 1 ≤ gif.SWidth := by
                by_contra h
                exact hbad (Or.inl (by omega))
              have hW2 : gif.SWidth ≤ 4096 := by
                by_contra h
                exact hbad (Or.inr (Or.inr (Or.inl (by omega))))
              have hH1 : 1 ≤ gif.SHeight := by
                by_contra h
                exact hbad (Or.inr (Or.inl (by omega)))
              have hH2 : gif.SHeight ≤ 4096 := by
                by_contra h
                exact hbad (Or.inr (Or.inr (Or.inr (Or.inl (by omega)))))
              have hC : 1 ≤ gif.ImageCount := by
                by_contra h
                exact hbad (Or.inr (Or.inr (Or.inr (Or.inr (by omega)))))
              rw [heq]
              exact ⟨opened, gif, rfl, hslurp, hW1, hW2, hH1, hH2, hC, hlen,
                by rw [hlen]; omega, hw, hh⟩

/-- Witness of C11: with a context and a decoder that delivers a 1 x 1
animation with one frame, `loadGif` returns true and holds one frame. -/
theorem loadGif_true_only_for_valid_canvas_with_frames_witness :
    (({ vg := some { id := 1 } } : GIFGlitcher).loadGif onePixelExternals "a.gif").2 = true
      ∧ 1 ≤ (({ vg := some { id := 1 } } : GIFGlitcher).loadGif onePixelExternals
          "a.gif").1.gifFrames.length := by
  have h := (loadGif_true_only_for_valid_canvas_with_frames
    ({ vg := some { id := 1 } } : GIFGlitcher) onePixelExternals "a.gif").2 (by rfl)
  obtain ⟨_, _, _, _, _, _, _, _, _, _, hone, _, _⟩ := h
  exact ⟨by rfl, hone⟩

/-! ## Loading an animation: failure -/

/-- C12 (amended): a load that fails before the frame store is reset keeps the
frame store.  Whenever `loadGif` is called with a render context and the path
is empty, the file cannot be opened, the decode fails or the canvas dimensions
are invalid, it returns false and the frame list, the source and output
buffers, the image dimensions, the current frame index, the accumulator, the
animation flag, the output handle and the worker are as before the call; the
recorded image path is the requested path (it is stored before any check),
unless the path is empty. -/
theorem failed_load_before_reset_keeps_frame_store (m : GIFGlitcher) (ext : Externals)
    (path : String) (hvg : m.vg.isSome = true)
    (hfail : path.isEmpty = true ∨ ext.DGifOpenFileName path = none
      ∨ (∃ opened, ext.DGifOpenFileName path = some opened ∧ ext.DGifSlurp opened = none)
      ∨ (∃ opened gif, ext.DGifOpenFileName path = some opened
          ∧ ext.DGifSlurp opened = some gif
          ∧ (gif.SWidth ≤ 0 ∨ gif.SHeight ≤ 0 ∨ gif.SWidth > 4096 ∨ gif.SHeight > 4096))) :
    (m.loadGif ext path).2 = false
      ∧ (m.loadGif ext path).1.gifFrames = m.gifFrames
      ∧ (m.loadGif ext path).1.imageData = m.imageData
      ∧ (m.loadGif ext path).1.processedData = m.processedData
      ∧ (m.loadGif ext path).1.imageWidth = m.imageWidth
      ∧ (m.loadGif ext path).1.imageHeight = m.imageHeight
      ∧ (m.loadGif ext path).1.currentFrame = m.currentFrame
      ∧ (m.loadGif ext path).1.frameAccumulator = m.frameAccumulator
      ∧ (m.loadGif ext path).1.isAnimated = m.isAnimated
      ∧ (m.loadGif ext path).1.outputImageHandle = m.outputImageHandle
      ∧ (m.loadGif ext path).1.threadRunning = m.threadRunning
      ∧ (m.loadGif ext path).1.imagePath = (if path.isEmpty then m.imagePath else path) := by
  obtain ⟨hempty, _, hnoopen, hnoslurp, hdecoded⟩ := loadGif_cases m ext path
  cases hp : path.isEmpty with
  | true =>
    rw [hempty hp]
    exact ⟨rfl, rfl, rfl, rfl, rfl, rfl, rfl, rfl, rfl, rfl, rfl, rfl⟩
  | false =>
    have hpath : (if False then m.imagePath else path) = path := if_neg not_false
    rcases hfail with h | h | ⟨opened, hopen, hslurp⟩ | ⟨opened, gif, hopen, hslurp, hdim⟩
    · rw [hp] at h
      exact Bool.noConfusion h
    · rw [hnoopen hp hvg h]
      exact ⟨rfl, rfl, rfl, rfl, rfl, rfl, rfl, rfl, rfl, rfl, rfl, by simp⟩
    · rw [hnoslurp opened hp hvg hopen hslurp]
      exact ⟨rfl, rfl, rfl, rfl, rfl, rfl, rfl, rfl, rfl, rfl, rfl, by simp⟩
    · rw [hdecoded opened gif hp hvg hopen hslurp]
      unfold GIFGlitcher.loadDecoded
      rw [if_pos hdim]
      exact ⟨rfl, rfl, rfl, rfl, rfl, rfl, rfl, rfl, rfl, rfl, rfl, by simp⟩

/-- Witness of the amended C12: a file that cannot be opened leaves the loaded
animation in place and records the new path. -/
theorem failed_load_before_reset_keeps_frame_store_witness :
    (loadedModule.loadGif quietExternals "new.gif").2 = false
      ∧ (loadedModule.loadGif quietExternals "new.gif").1.gifFrames = loadedModule.gifFrames
      ∧ (loadedModule.loadGif quietExternals "new.gif").1.imageData = loadedModule.imageData :=
  have h := failed_load_before_reset_keeps_frame_store loadedModule quietExternals "new.gif"
    rfl (Or.inr (Or.inl rfl))
  ⟨h.1, h.2.1, h.2.2.1⟩

/-- C12 as stated fails: with a render context, a load of "new.gif" that
cannot be opened returns false but replaces the recorded image path
"old.gif"; and a load whose decoder delivers a valid canvas without images
returns false after the frame list was cleared, the dimensions were replaced
and the worker was stopped. -/
theorem failed_load_changes_recorded_path_and_frame_store :
    loadedModule.vg.isSome = true
      ∧ (loadedModule.loadGif quietExternals "new.gif").2 = false
      ∧ (loadedModule.loadGif quietExternals "new.gif").1.imagePath ≠ loadedModule.imagePath
      ∧ (loadedModule.loadGif noImageExternals "new.gif").2 = false
      ∧ (loadedModule.loadGif noImageExternals "new.gif").1.gifFrames ≠ loadedModule.gifFrames
      ∧ (loadedModule.loadGif noImageExternals "new.gif").1.imageWidth
          ≠ loadedModule.imageWidth
      ∧ (loadedModule.loadGif noImageExternals "new.gif").1.threadRunning
          ≠ loadedModule.threadRunning := by
  refine ⟨rfl, rfl, ?_, rfl, ?_, ?_, ?_⟩ <;> decide

/-! ## The pass over the image: all rows or nothing -/

/-- A counted loop from `0` to `b` is the loop from `0` to `a` followed by the
loop from `a` to `b`. -/
theorem intRange_split (a b : Int) (ha : 0 ≤ a) (hab : a ≤ b) :
    intRange b = intRange a ++ intRangeFrom a b := by
  obtain ⟨an, rfl⟩ := Int.eq_ofNat_of_zero_le ha
  obtain ⟨bn, rfl⟩ := Int.eq_ofNat_of_zero_le (le_trans ha hab)
  have hle : an ≤ bn := by omega
  obtain ⟨c, rfl⟩ := Nat.exists_eq_add_of_le hle
  unfold intRange intRangeFrom
  have h1 : ((an + c : Nat) : Int).toNat = an + c := rfl
  have h2 : (((an + c : Nat) : Int) - (an : Int)).toNat = c := by omega
  have h3 : ((an : Nat) : Int).toNat = an := rfl
  rw [h1, h2, h3, List.range_add, List.map_append, List.map_map]
  rfl

/-- Step 9 keeps the length of the work buffer. -/
theorem storeRow_length (m : GIFGlitcher) (ext : Externals) (work : List Nat)
    (row : List PixelInfo) (cy : Int) (rng : Nat) :
    (m.storeRow ext work row cy rng).1.length = work.length := by
  unfold GIFGlitcher.storeRow
  apply foldl_preserves (fun (st : List Nat × Nat) => st.1.length = work.length)
  · intro st x hst
    simp only [writeAt]
    repeat' split
    all_goals simp [hst]
  · rfl

/-- The body of the row loop keeps the length of the work buffer. -/
theorem processRow_length (m : GIFGlitcher) (ext : Externals) (data : List Nat)
    (st : List Nat × Nat) (cy : Int) :
    (m.processRow ext data st cy).1.length = st.1.length := by
  unfold GIFGlitcher.processRow
  exact storeRow_length m ext _ _ _ _

/-- The chunk loop of a pass: it ends without an early return exactly when
`threadRunning` was observed true after every chunk, and then its work buffer
is the result of the row loop over all rows `0 .. imageHeight - 1`. -/
theorem processChunks_all_rows (m : GIFGlitcher) (ext : Externals) (data work : List Nat)
    (rng : Nat) :
    ((m.processChunks ext data work rng).2 = false
        → (m.processChunks ext data work rng).1
            = (intRange m.imageHeight).foldl (m.processRow ext data) (work, rng)
          ∧ ∀ j, j < ((m.imageHeight + 64 - 1) / 64).toNat → ext.threadRunningAt j = true)
      ∧ ((m.processChunks ext data work rng).2 = true
        → ∃ j, j < ((m.imageHeight + 64 - 1) / 64).toNat ∧ ext.threadRunningAt j = false) := by
  have hmain : ((m.processChunks ext data work rng).2 = false
        → (m.processChunks ext data work rng).1
            = (intRange (min (64 * (((m.imageHeight + 64 - 1) / 64).toNat : Int))
                m.imageHeight)).foldl (m.processRow ext data) (work, rng)
          ∧ ∀ j, j < ((m.imageHeight + 64 - 1) / 64).toNat → ext.threadRunningAt j = true)
      ∧ ((m.processChunks ext data work rng).2 = true
        → ∃ j, j < ((m.imageHeight + 64 - 1) / 64).toNat ∧ ext.threadRunningAt j = false) := by
    unfold GIFGlitcher.processChunks strideRange
    simp only
    rw [List.foldl_map]
    apply foldl_range_invariant
      (fun k (st : (List Nat × Nat) × Bool) =>
        (st.2 = false
          → st.1 = (intRange (min (64 * (k : Int)) m.imageHeight)).foldl
              (m.processRow ext data) (work, rng)
            ∧ ∀ j, j < k → ext.threadRunningAt j = true)
        ∧ (st.2 = true → ∃ j, j < k ∧ ext.threadRunningAt j = false))
    · intro k st hk hP
      obtain ⟨hrun, hstop⟩ := hP
      cases hflag : st.2 with
      | true =>
        simp only [hflag, if_true]
        refine ⟨fun hc => Bool.noConfusion hc, fun _ => ?_⟩
        obtain ⟨j, hj, hjf⟩ := hstop hflag
        exact ⟨j, Nat.lt_succ_of_lt hj, hjf⟩
      | false =>
        simp only [hflag, Bool.false_eq_true, if_false]
        obtain ⟨hbuf, hall⟩ := hrun hflag
        have hk64 : 64 * (k : Int) < m.imageHeight := by omega
        have hstart : min (64 * (k : Int)) m.imageHeight = 64 * (k : Int) := by omega
        have hy : Int.ofNat k * 64 = 64 * (k : Int) := by
          simp only [Int.ofNat_eq_coe]
          ring
        have hnext : min (64 * ((k + 1 : Nat) : Int)) m.imageHeight
            = min (64 * (k : Int) + 64) m.imageHeight := by
          push_cast
          ring_nf
        have hidx : ((Int.ofNat k * 64) / 64).toNat = k := by
          simp only [Int.ofNat_eq_coe]
          omega
        have hrows : (intRangeFrom (Int.ofNat k * 64)
              (min (Int.ofNat k * 64 + 64) m.imageHeight)).foldl (m.processRow ext data) st.1
            = (intRange (min (64 * ((k + 1 : Nat) : Int)) m.imageHeight)).foldl
                (m.processRow ext data) (work, rng) := by
          rw [hnext, intRange_split (64 * (k : Int)) (min (64 * (k : Int) + 64) m.imageHeight)
            (by omega) (by omega), List.foldl_append, hy, hbuf, hstart]
        rw [hidx]
        cases hr : ext.threadRunningAt k with
        | true =>
          simp only [if_true]
          refine ⟨fun _ => ⟨hrows, ?_⟩, fun hc => Bool.noConfusion hc⟩
          intro j hj
          rcases Nat.lt_succ_iff_lt_or_eq.mp hj with h | h
          · exact hall j h
          · rw [h]
            exact hr
        | false =>
          simp only [Bool.false_eq_true, if_false]
          exact ⟨fun hc => Bool.noConfusion hc, fun _ => ⟨k, Nat.lt_succ_self k, hr⟩⟩
    · refine ⟨fun _ => ⟨?_, fun j hj => absurd hj (Nat.not_lt_zero j)⟩,
        fun hc => Bool.noConfusion hc⟩
      have h0 : intRange (min (64 * ((0 : Nat) : Int)) m.imageHeight) = [] := by
        unfold intRange
        have : (min (64 * ((0 : Nat) : Int)) m.imageHeight).toNat = 0 := by omega
        rw [this]
        rfl
      rw [h0]
      rfl
  have hall : min (64 * (((m.imageHeight + 64 - 1) / 64).toNat : Int)) m.imageHeight
      = m.imageHeight := by omega
  rw [hall] at hmain
  exact hmain

/-- C13: a pass is all-or-nothing.  When the source buffer is empty, or
`threadRunning` is observed false after one of the chunks, `processImage`
leaves the module (output buffer and dirty flag included) exactly as it was.
Otherwise it replaces the output buffer by the work buffer after the row loop
has run over every row `0 .. imageHeight - 1` and sets the dirty flag; that
buffer has the length of the source buffer.  No other outcome exists. -/
theorem pass_publishes_all_rows_or_nothing (m : GIFGlitcher) (ext : Externals) (rng : Nat) :
    (m.imageData.isEmpty = true → (m.processImage ext rng).1 = m)
      ∧ ((∃ k, k < ((m.imageHeight + 64 - 1) / 64).toNat ∧ ext.threadRunningAt k = false)
          → (m.processImage ext rng).1 = m)
      ∧ (m.imageData.isEmpty = false
          → (∀ k, k < ((m.imageHeight + 64 - 1) / 64).toNat → ext.threadRunningAt k = true)
          → (m.processImage ext rng).1
            = { m with
                processedData := ((intRange m.imageHeight).foldl
                  (m.processRow ext m.imageData)
                  (List.replicate m.imageData.length 0, rng)).1,
                textureNeedsUpdate := true })
      ∧ ((intRange m.imageHeight).foldl (m.processRow ext m.imageData)
          (List.replicate m.imageData.length 0, rng)).1.length = m.imageData.length
      ∧ ((m.processImage ext rng).1 = m
          ∨ (m.processImage ext rng).1
            = { m with
                processedData := ((intRange m.imageHeight).foldl
                  (m.processRow ext m.imageData)
                  (List.replicate m.imageData.length 0, rng)).1,
                textureNeedsUpdate := true }) := by
  obtain ⟨hdone, hstop⟩ := processChunks_all_rows m ext m.imageData
    (List.replicate m.imageData.length 0) rng
  have hlen : ((intRange m.imageHeight).foldl (m.processRow ext m.imageData)
      (List.replicate m.imageData.length 0, rng)).1.length = m.imageData.length := by
    apply foldl_preserves (fun (st : List Nat × Nat) => st.1.length = m.imageData.length)
    · intro st cy hst
      show (m.processRow ext m.imageData st cy).1.length = m.imageData.length
      rw [processRow_length, hst]
    · simp
  have hcases : ∀ flag, (m.processChunks ext m.imageData
        (List.replicate m.imageData.length 0) rng).2 = flag
      → m.imageData.isEmpty = false
      → (m.processImage ext rng).1
          = if flag then m else
            { m with
              processedData := ((intRange m.imageHeight).foldl
                (m.processRow ext m.imageData)
                (List.replicate m.imageData.length 0, rng)).1,
              textureNeedsUpdate := true } := by
    intro flag hflag hne
    unfold GIFGlitcher.processImage
    rw [hne]
    simp only [Bool.false_eq_true, if_false]
    rw [hflag]
    cases flag with
    | true => rfl
    | false =>
      simp only [Bool.false_eq_true, if_false]
      rw [(hdone hflag).1]
  have hempty : m.imageData.isEmpty = true → (m.processImage ext rng).1 = m := by
    intro he
    unfold GIFGlitcher.processImage
    rw [he]
    rfl
  refine ⟨hempty, ?_, ?_, hlen, ?_⟩
  · rintro ⟨k, hk, hkf⟩
    cases he : m.imageData.isEmpty with
    | true => exact hempty he
    | false =>
      cases hflag : (m.processChunks ext m.imageData
          (List.replicate m.imageData.length 0) rng).2 with
      | true => exact hcases true hflag he
      | false =>
        have := (hdone hflag).2 k hk
        rw [hkf] at this
        exact Bool.noConfusion this
  · intro he hall
    cases hflag : (m.processChunks ext m.imageData
        (List.replicate m.imageData.length 0) rng).2 with
    | true =>
      obtain ⟨j, hj, hjf⟩ := hstop hflag
      have := hall j hj
      rw [hjf] at this
      exact Bool.noConfusion this
    | false => exact hcases false hflag he
  · cases he : m.imageData.isEmpty with
    | true => exact Or.inl (hempty he)
    | false =>
      cases hflag : (m.processChunks ext m.imageData
          (List.replicate m.imageData.length 0) rng).2 with
      | true => exact Or.inl (hcases true hflag he)
      | false => exact Or.inr (hcases false hflag he)

/-- Witness of C13 on a 2 x 1 image: with a running worker the pass publishes
the buffer of the full row loop, and with a worker stopped after the first
chunk it leaves the module as it was. -/
theorem pass_publishes_all_rows_or_nothing_witness :
    (neutralModule.processImage quietExternals 0).1
        = { neutralModule with
            processedData := ((intRange neutralModule.imageHeight).foldl
              (neutralModule.processRow quietExternals neutralModule.imageData)
              (List.replicate neutralModule.imageData.length 0, 0)).1,
            textureNeedsUpdate := true }
      ∧ (neutralModule.processImage { quietExternals with threadRunningAt := fun _ => false }
          0).1 = neutralModule :=
  ⟨(pass_publishes_all_rows_or_nothing neutralModule quietExternals 0).2.2.1 rfl
      (fun _ _ => rfl),
    (pass_publishes_all_rows_or_nothing neutralModule
      { quietExternals with threadRunningAt := fun _ => false } 0).2.1
      ⟨0, by decide, rfl⟩⟩

/-! ## Hue shift by a full turn -/

/-- The remainder `fmod(x, y)` with `y > 0` is smaller than `y` in absolute
value. -/
theorem fmodQ_abs_lt (x y : ℚ) (hy : 0 < y) : |fmodQ x y| < y := by
  unfold fmodQ truncToInt
  have hdiv : x / y * y = x := div_mul_cancel₀ x (ne_of_gt hy)
  split
  · have h1 := Int.floor_le (x / y)
    have h2 := Int.lt_floor_add_one (x / y)
    rw [abs_lt]
    constructor
    · nlinarith
    · nlinarith
  · have h1 := Int.floor_le (-(x / y))
    have h2 := Int.lt_floor_add_one (-(x / y))
    rw [abs_lt]
    push_cast
    constructor
    · nlinarith
    · nlinarith

/-- A full turn added to a hue that is not negative does not change the
remainder `fmod(h, 360)`. -/
theorem fmodQ_add_full_turn (h : ℚ) (h0 : 0 ≤ h) : fmodQ (h + 360) 360 = fmodQ h 360 := by
  unfold fmodQ truncToInt
  have e : (h + 360) / 360 = h / 360 + 1 := by ring
  have p1 : (0 : ℚ) ≤ h / 360 := by positivity
  have p2 : (0 : ℚ) ≤ h / 360 + 1 := by positivity
  rw [e, if_pos p1, if_pos p2]
  have : Int.floor (h / 360 + 1) = Int.floor (h / 360) + 1 := Int.floor_add_one _
  rw [this]
  push_cast
  ring

/-- The result of `hsvToRgb` depends on the hue through `fmod(h, 360)` only. -/
theorem hsvToRgb_add_full_turn (h s v : ℚ) (h0 : 0 ≤ h) :
    hsvToRgb (h + 360) s v = hsvToRgb h s v := by
  unfold hsvToRgb
  rw [fmodQ_add_full_turn h h0]

/-- The rounded difference of two channels is bounded by the rounded spread
`max - min` of the three. -/
theorem f32_sub_abs_le (x y lo hi : ℚ) (hx : lo ≤ x ∧ x ≤ hi) (hy : lo ≤ y ∧ y ≤ hi) :
    |f32 (x - y)| ≤ f32 (hi - lo) := by
  rw [abs_le]
  constructor
  · have := f32_mono (-(hi - lo)) (x - y) (by linarith [hx.1, hy.2])
    rw [f32_neg] at this
    exact this
  · exact f32_mono _ _ (by linarith [hx.2, hy.1])

/-- A rounded quotient of a number by a positive bound of its absolute value
lies in `[-1, 1]`. -/
theorem f32_ratio_bounds (n d : ℚ) (hd : 0 < d) (hn : |n| ≤ d) :
    -1 ≤ f32 (n / d) ∧ f32 (n / d) ≤ 1 := by
  have hone : pow2 0 = 1 := by rw [pow2_eq]; norm_num
  obtain ⟨h1, h2⟩ := abs_le.mp hn
  have hle : n / d ≤ 1 := by
    rw [div_le_one hd]
    exact h2
  have hge : -1 ≤ n / d := by
    rw [le_div_iff₀ hd]
    linarith
  constructor
  · have := f32_le_pow2 (-(n / d)) 0 (by decide) (by rw [hone]; linarith)
    rw [f32_neg, hone] at this
    linarith
  · have := f32_le_pow2 (n / d) 0 (by decide) (by rw [hone]; exact hle)
    rw [hone] at this
    exact this

/-- The hue that `rgbToHsv` returns is not negative. -/
theorem rgbToHsv_hue_nonneg (r g b : ℚ) : 0 ≤ (rgbToHsv r g b).1 := by
  have h360 : f32 (-360) = -360 := by decide!
  have htol : (0 : ℚ) < f32 (1 / 1000000) := by decide!
  unfold rgbToHsv
  dsimp only
  split
  · exact le_refl _
  · split
    · exact le_refl _
    · rename_i hmax hdelta
      have hd : 0 < f32 (max r (max g b) - min r (min g b)) :=
        lt_of_lt_of_le htol (not_lt.mp hdelta)
      have hr : min r (min g b) ≤ r ∧ r ≤ max r (max g b) :=
        ⟨min_le_left _ _, le_max_left _ _⟩
      have hg : min r (min g b) ≤ g ∧ g ≤ max r (max g b) :=
        ⟨le_trans (min_le_right _ _) (min_le_left _ _),
          le_trans (le_max_left _ _) (le_max_right _ _)⟩
      have hb : min r (min g b) ≤ b ∧ b ≤ max r (max g b) :=
        ⟨le_trans (min_le_right _ _) (min_le_right _ _),
          le_trans (le_max_right _ _) (le_max_right _ _)⟩
      -- every candidate hue is at least -360
      have key : ∀ h0 : ℚ, -360 ≤ h0 → 0 ≤ (if h0 < 0 then f32 (h0 + 360) else h0) := by
        intro h0 hlow
        split
        · exact f32_nonneg _ (by linarith)
        · rename_i hneg
          exact not_lt.mp hneg
      apply key
      split
      · have hb6 := abs_lt.mp (fmodQ_abs_lt
          (f32 (f32 (g - b) / f32 (max r (max g b) - min r (min g b)))) 6 (by norm_num))
        have := f32_mono (-360)
          (60 * fmodQ (f32 (f32 (g - b) / f32 (max r (max g b) - min r (min g b)))) 6)
          (by linarith [hb6.1])
        rw [h360] at this
        exact this
      · split
        · obtain ⟨q1, _⟩ := f32_ratio_bounds (f32 (b - r)) _ hd (f32_sub_abs_le b r _ _ hb hr)
          have i1 : 0 ≤ f32 (f32 (f32 (b - r) / f32 (max r (max g b) - min r (min g b))) + 2) :=
            f32_nonneg _ (by linarith)
          have i2 := f32_nonneg
            (60 * f32 (f32 (f32 (b - r) / f32 (max r (max g b) - min r (min g b))) + 2))
            (by linarith)
          linarith
        · obtain ⟨q1, _⟩ := f32_ratio_bounds (f32 (r - g)) _ hd (f32_sub_abs_le r g _ _ hr hg)
          have i1 : 0 ≤ f32 (f32 (f32 (r - g) / f32 (max r (max g b) - min r (min g b))) + 4) :=
            f32_nonneg _ (by linarith)
          have i2 := f32_nonneg
            (60 * f32 (f32 (f32 (r - g) / f32 (max r (max g b) - min r (min g b))) + 4))
            (by linarith)
          linarith

/-- The hue that `rgbToHsv` returns is a binary32 value. -/
theorem rgbToHsv_hue_f32 (r g b : ℚ) : f32 (rgbToHsv r g b).1 = (rgbToHsv r g b).1 := by
  unfold rgbToHsv
  dsimp only
  split
  · exact f32_zero
  · split
    · exact f32_zero
    · have key : ∀ h0 : ℚ, f32 h0 = h0 →
          f32 (if h0 < 0 then f32 (h0 + 360) else h0) = (if h0 < 0 then f32 (h0 + 360) else h0) := by
        intro h0 hrep
        split
        · exact f32_idem _
        · exact hrep
      apply key
      split
      · exact f32_idem _
      · split
        · exact f32_idem _
        · exact f32_idem _

/-- C19 (amended): a hue shift of 1 adds a full turn of 360 degrees, which
`hsvToRgb` removes again with `fmod(h, 360)`; what remains of the shift is the
rounding of the binary32 sum `h + 360.f`.  For every module state and every
pixel, with `(h, s, v)` the hue, saturation and value of the pixel after
brightness and contrast, the colour adjustment with `hueShift = 1` returns the
colour `hsvToRgb` gives to the hue `fl(h + 360) - 360`.  For every row in
whose pixels the sum `h + 360` is a binary32 value, `applyColorAdjustments`
with `hueShift = 1` gives exactly the row it gives with `hueShift = 0`. -/
theorem hue_shift_full_turn_wraps_the_rounded_hue (m : GIFGlitcher) (row : List PixelInfo) :
    (∀ p : PixelInfo,
        GIFGlitcher.adjustPixel
            { m with currentParams := { m.currentParams with hueShift := 1 } } p
          = { p with
              r := (hsvToRgb (f32 ((m.adjustedHsv p).1 + 360) - 360)
                (f32 ((m.adjustedHsv p).2.1 * m.currentParams.saturation))
                (m.adjustedHsv p).2.2).1,
              g := (hsvToRgb (f32 ((m.adjustedHsv p).1 + 360) - 360)
                (f32 ((m.adjustedHsv p).2.1 * m.currentParams.saturation))
                (m.adjustedHsv p).2.2).2.1,
              b := (hsvToRgb (f32 ((m.adjustedHsv p).1 + 360) - 360)
                (f32 ((m.adjustedHsv p).2.1 * m.currentParams.saturation))
                (m.adjustedHsv p).2.2).2.2 })
      ∧ ((∀ p ∈ row, f32 ((m.adjustedHsv p).1 + 360) = (m.adjustedHsv p).1 + 360) →
          GIFGlitcher.applyColorAdjustments
              { m with currentParams := { m.currentParams with hueShift := 1 } } row
            = GIFGlitcher.applyColorAdjustments
              { m with currentParams := { m.currentParams with hueShift := 0 } } row) := by
  have h360 : f32 ((1 : ℚ) * 360) = 360 := by decide!
  have h0 : f32 ((0 : ℚ) * 360) = 0 := by decide!
  have hrep360 : f32 360 = 360 := by decide!
  have hnn : ∀ p : PixelInfo, 0 ≤ (m.adjustedHsv p).1 := fun p => rgbToHsv_hue_nonneg _ _ _
  have hrep : ∀ p : PixelInfo, f32 (m.adjustedHsv p).1 = (m.adjustedHsv p).1 :=
    fun p => rgbToHsv_hue_f32 _ _ _
  constructor
  · intro p
    have hge : (360 : ℚ) ≤ f32 ((m.adjustedHsv p).1 + 360) := by
      have := f32_mono 360 ((m.adjustedHsv p).1 + 360) (by linarith [hnn p])
      rwa [hrep360] at this
    have hturn := hsvToRgb_add_full_turn (f32 ((m.adjustedHsv p).1 + 360) - 360)
      (f32 ((m.adjustedHsv p).2.1 * m.currentParams.saturation)) (m.adjustedHsv p).2.2
      (by linarith)
    rw [sub_add_cancel] at hturn
    rw [← hturn]
    simp only [GIFGlitcher.adjustPixel, GIFGlitcher.adjustedHsv, GIFGlitcher.adjustChannel, h360]
  · intro hexact
    unfold GIFGlitcher.applyColorAdjustments
    apply List.map_congr_left
    intro p hp
    have e := hexact p hp
    have hz : f32 ((m.adjustedHsv p).1 + 0) = (m.adjustedHsv p).1 := by
      rw [add_zero]
      exact hrep p
    have hturn := hsvToRgb_add_full_turn (m.adjustedHsv p).1
      (f32 ((m.adjustedHsv p).2.1 * m.currentParams.saturation)) (m.adjustedHsv p).2.2 (hnn p)
    simp only [GIFGlitcher.adjustPixel, GIFGlitcher.adjustedHsv, GIFGlitcher.adjustChannel, h360,
      h0] at e hz hturn ⊢
    rw [e, hz, hturn]

/-- Witness of the amended C19 on a row of a red, a green, a blue and a grey
pixel, whose hues 0, 120, 240 and 0 plus 360 are binary32 values. -/
theorem hue_shift_full_turn_wraps_the_rounded_hue_witness :
    (∀ p ∈ primaryRow, f32 (((hueShiftModule 0).adjustedHsv p).1 + 360)
        = ((hueShiftModule 0).adjustedHsv p).1 + 360)
      ∧ GIFGlitcher.applyColorAdjustments
          { hueShiftModule 0 with
            currentParams := { (hueShiftModule 0).currentParams with hueShift := 1 } } primaryRow
        = GIFGlitcher.applyColorAdjustments
          { hueShiftModule 0 with
            currentParams := { (hueShiftModule 0).currentParams with hueShift := 0 } }
          primaryRow :=
  ⟨by decide!,
    (hue_shift_full_turn_wraps_the_rounded_hue (hueShiftModule 0) primaryRow).2 (by decide!)⟩

/-- C19 as stated fails on the pixel sampled from the bytes `(0, 15, 195)` with
brightness, contrast and saturation 1: the sum of its hue and `360.f` is not a
binary32 value, the rows for `hueShift = 1` and `hueShift = 0` differ, and the
green byte that a pass stores is 14 for `hueShift = 1` and 15 for
`hueShift = 0`. -/
theorem hue_shift_full_turn_changes_a_pixel :
    (hueShiftModule 1).applyColorAdjustments [bluishPixel]
        ≠ (hueShiftModule 0).applyColorAdjustments [bluishPixel]
      ∧ f32 (((hueShiftModule 0).adjustedHsv bluishPixel).1 + 360)
        ≠ ((hueShiftModule 0).adjustedHsv bluishPixel).1 + 360
      ∧ toByte (clampQ (f32 ((readAt ((hueShiftModule 0).applyColorAdjustments [bluishPixel])
          0).g * 255)) 0 255) = 15
      ∧ toByte (clampQ (f32 ((readAt ((hueShiftModule 1).applyColorAdjustments [bluishPixel])
          0).g * 255)) 0 255) = 14 := by
  decide!

/-! ## Channel aberration -/

/-- An iteration that reads element `x`, tests it and updates it in place is a
guarded in-place update of element `x`. -/
theorem guarded_modifyAt_eq {α : Type} [Inhabited α] (buf : List α) (x : Int)
    (cond : α → Prop) [DecidablePred cond] (body : α → α → α) :
    (if cond (readAt buf x) then modifyAt buf x (body (readAt buf x)) else buf)
      = modifyAt buf x (fun p => if cond p then body p p else p) := by
  unfold modifyAt readAt
  by_cases hx : x < 0
  · simp only [if_pos hx]
    split <;> rfl
  · simp only [if_neg hx]
    apply List.ext_getElem?
    intro n
    by_cases hn : x.toNat = n
    · subst hn
      cases hb : buf[x.toNat]? with
      | none =>
        split <;> simp [List.getElem?_modify, hb]
      | some p =>
        have hget : buf.getD x.toNat default = p := by
          rw [List.getD_eq_getElem?_getD, hb]
          rfl
        rw [hget]
        split
        · rename_i hc
          simp [List.getElem?_modify, hb, hc]
        · rename_i hc
          simp [List.getElem?_modify, hb, hc]
    · split
      · simp [List.getElem?_modify, hn]
      · simp [List.getElem?_modify, hn]

/-- C18 (amended): for every row and `rgbAberration = a > 0` with shift
`s = floor(fl(20 * a))`, where `fl(20 * a)` is the binary32 product
`rgbAberration * 20.0f` that the code truncates, `applyRgbAberration` updates
each column `x` below the image width as follows.  Let `t = sourceX + s` (`sourceX - s` when
`mirrorEffect` is set).  If `0 ≤ t < W` the red channel becomes
`r * (1 - a) + (red byte of the source image at (sourceY, t)) / 255 * a`; if `t`
is out of bounds the pixel is left unchanged.  Nothing else is written, so
green, blue, alpha and the source coordinates of every pixel are as before. -/
theorem aberration_blends_shifted_red_or_skips (m : GIFGlitcher) (row : List PixelInfo)
    (y : Int) (ha : 0 < m.currentParams.rgbAberration) :
    m.applyRgbAberration row y
        = row.mapIdx (fun x p =>
            if (x : Int) < m.imageWidth then
              if (if m.currentParams.mirrorEffect
                    then p.sourceX - Int.floor (f32 (m.currentParams.rgbAberration * 20))
                    else p.sourceX + Int.floor (f32 (m.currentParams.rgbAberration * 20))) ≥ 0
                  ∧ (if m.currentParams.mirrorEffect
                    then p.sourceX - Int.floor (f32 (m.currentParams.rgbAberration * 20))
                    else p.sourceX + Int.floor (f32 (m.currentParams.rgbAberration * 20)))
                      < m.imageWidth
              then
                { p with
                  r := p.r * (1 - m.currentParams.rgbAberration)
                    + (readByte m.imageData
                        ((p.sourceY * m.imageWidth
                          + (if m.currentParams.mirrorEffect
                              then p.sourceX - Int.floor (f32 (m.currentParams.rgbAberration * 20))
                              else p.sourceX + Int.floor (f32 (m.currentParams.rgbAberration * 20))))
                          * 4) : ℚ) / 255 * m.currentParams.rgbAberration }
              else p
            else p)
      ∧ (m.applyRgbAberration row y).map (fun p => (p.g, p.b, p.a, p.sourceX, p.sourceY))
          = row.map (fun p => (p.g, p.b, p.a, p.sourceX, p.sourceY)) := by
  have htrunc : truncToInt (f32 (m.currentParams.rgbAberration * 20))
      = Int.floor (f32 (m.currentParams.rgbAberration * 20)) := by
    unfold truncToInt
    rw [if_pos (f32_nonneg _ (by linarith))]
  have hmain : m.applyRgbAberration row y
        = row.mapIdx (fun x p =>
            if (x : Int) < m.imageWidth then
              if (if m.currentParams.mirrorEffect
                    then p.sourceX - Int.floor (f32 (m.currentParams.rgbAberration * 20))
                    else p.sourceX + Int.floor (f32 (m.currentParams.rgbAberration * 20))) ≥ 0
                  ∧ (if m.currentParams.mirrorEffect
                    then p.sourceX - Int.floor (f32 (m.currentParams.rgbAberration * 20))
                    else p.sourceX + Int.floor (f32 (m.currentParams.rgbAberration * 20)))
                      < m.imageWidth
              then
                { p with
                  r := p.r * (1 - m.currentParams.rgbAberration)
                    + (readByte m.imageData
                        ((p.sourceY * m.imageWidth
                          + (if m.currentParams.mirrorEffect
                              then p.sourceX - Int.floor (f32 (m.currentParams.rgbAberration * 20))
                              else p.sourceX + Int.floor (f32 (m.currentParams.rgbAberration * 20))))
                          * 4) : ℚ) / 255 * m.currentParams.rgbAberration }
              else p
            else p) := by
    unfold GIFGlitcher.applyRgbAberration
    rw [if_neg (not_le.mpr ha), htrunc]
    simp only
    have hbody : (fun (buf : List PixelInfo) (x : Int) =>
          if (if m.currentParams.mirrorEffect
                then (readAt buf x).sourceX - Int.floor (f32 (m.currentParams.rgbAberration * 20))
                else (readAt buf x).sourceX + Int.floor (f32 (m.currentParams.rgbAberration * 20))) ≥ 0
              ∧ (if m.currentParams.mirrorEffect
                then (readAt buf x).sourceX - Int.floor (f32 (m.currentParams.rgbAberration * 20))
                else (readAt buf x).sourceX + Int.floor (f32 (m.currentParams.rgbAberration * 20)))
                  < m.imageWidth
          then
            modifyAt buf x (fun p =>
              { p with
                r := p.r * (1 - m.currentParams.rgbAberration)
                  + (readByte m.imageData
                      (((readAt buf x).sourceY * m.imageWidth
                        + (if m.currentParams.mirrorEffect
                            then (readAt buf x).sourceX
                              - Int.floor (f32 (m.currentParams.rgbAberration * 20))
                            else (readAt buf x).sourceX
                              + Int.floor (f32 (m.currentParams.rgbAberration * 20))))
                        * 4) : ℚ) / 255 * m.currentParams.rgbAberration })
          else buf)
        = (fun buf x => modifyAt buf x (fun p =>
            if (if m.currentParams.mirrorEffect
                  then p.sourceX - Int.floor (f32 (m.currentParams.rgbAberration * 20))
                  else p.sourceX + Int.floor (f32 (m.currentParams.rgbAberration * 20))) ≥ 0
                ∧ (if m.currentParams.mirrorEffect
                  then p.sourceX - Int.floor (f32 (m.currentParams.rgbAberration * 20))
                  else p.sourceX + Int.floor (f32 (m.currentParams.rgbAberration * 20)))
                    < m.imageWidth
            then
              { p with
                r := p.r * (1 - m.currentParams.rgbAberration)
                  + (readByte m.imageData
                      ((p.sourceY * m.imageWidth
                        + (if m.currentParams.mirrorEffect
                            then p.sourceX - Int.floor (f32 (m.currentParams.rgbAberration * 20))
                            else p.sourceX + Int.floor (f32 (m.currentParams.rgbAberration * 20))))
                        * 4) : ℚ) / 255 * m.currentParams.rgbAberration }
            else p)) := by
      funext buf x
      exact guarded_modifyAt_eq buf x
        (fun q => (if m.currentParams.mirrorEffect
                then q.sourceX - Int.floor (f32 (m.currentParams.rgbAberration * 20))
                else q.sourceX + Int.floor (f32 (m.currentParams.rgbAberration * 20))) ≥ 0
              ∧ (if m.currentParams.mirrorEffect
                then q.sourceX - Int.floor (f32 (m.currentParams.rgbAberration * 20))
                else q.sourceX + Int.floor (f32 (m.currentParams.rgbAberration * 20)))
                  < m.imageWidth)
        (fun q p =>
          { p with
            r := p.r * (1 - m.currentParams.rgbAberration)
              + (readByte m.imageData
                  ((q.sourceY * m.imageWidth
                    + (if m.currentParams.mirrorEffect
                        then q.sourceX - Int.floor (f32 (m.currentParams.rgbAberration * 20))
                        else q.sourceX + Int.floor (f32 (m.currentParams.rgbAberration * 20))))
                    * 4) : ℚ) / 255 * m.currentParams.rgbAberration })
    rw [hbody]
    exact foldl_modifyAt_intRange _ _ _
  refine ⟨hmain, ?_⟩
  rw [hmain]
  apply List.ext_getElem?
  intro n
  simp only [List.getElem?_map, List.getElem?_mapIdx]
  cases row[n]? with
  | none => rfl
  | some p =>
    simp only [Option.map_some']
    split_ifs <;> rfl

/-- Witness of the amended C18 on a 2 x 1 image with `rgbAberration = 0.05f`, a
shift of one column: column 0 blends the red byte of column 1, column 1 has
its shifted sample out of bounds and is unchanged. -/
theorem aberration_blends_shifted_red_or_skips_witness :
    aberrationModule.applyRgbAberration redBlackRow 0
      = [{ sourceX := 0, sourceY := 0, r := 1 - f32 (1 / 20), g := 0, b := 0, a := 1 },
         { sourceX := 1, sourceY := 0, r := 0, g := 0, b := 0, a := 1 }] := by
  have h := (aberration_blends_shifted_red_or_skips aberrationModule redBlackRow 0
    (by decide!)).1
  rw [h]
  decide!

/-- C18 as stated fails at `rgbAberration = 0.35f`.  The exact product
`20 * 0.35f` is below 7, so the shift of the claim is `floor(20 * a) = 6`, and
for column 1 of an image of width 8 the shifted column `1 + 6 = 7` is in
bounds: the claim blends the red byte 200 of column 7 into the black pixel.
The code truncates the binary32 product `0.35f * 20.0f = 7.0f`: its shift is
7, the shifted column 8 is out of bounds, and the pixel is left unchanged. -/
theorem aberration_shift_follows_the_binary32_product :
    0 < wideAberrationModule.currentParams.rgbAberration
      ∧ Int.floor (wideAberrationModule.currentParams.rgbAberration * 20) = 6
      ∧ 0 ≤ (readAt wideAberrationRow 1).sourceX + 6
      ∧ (readAt wideAberrationRow 1).sourceX + 6 < wideAberrationModule.imageWidth
      ∧ readAt (wideAberrationModule.applyRgbAberration wideAberrationRow 0) 1
          = readAt wideAberrationRow 1
      ∧ (readAt wideAberrationRow 1).r * (1 - wideAberrationModule.currentParams.rgbAberration)
          + (readByte wideAberrationModule.imageData
              (((readAt wideAberrationRow 1).sourceY * wideAberrationModule.imageWidth
                + ((readAt wideAberrationRow 1).sourceX + 6)) * 4) : ℚ) / 255
            * wideAberrationModule.currentParams.rgbAberration
          ≠ (readAt wideAberrationRow 1).r := by
  decide!

/-! ## Loops that touch one element per iteration, pointwise -/

/-- An in-place update at another index leaves element `n` as it was. -/
theorem getElem?_modifyAt_ne {α : Type} (buf : List α) (x : Int) (f : α → α) (n : Nat)
    (h : x ≠ (n : Int)) : (modifyAt buf x f)[n]? = buf[n]? := by
  unfold modifyAt
  split
  · rfl
  · rename_i hx
    have hne : x.toNat ≠ n := by omega
    simp [List.getElem?_modify, hne]

/-- An in-place update at index `n` maps element `n`. -/
theorem getElem?_modifyAt_self {α : Type} (buf : List α) (f : α → α) (n : Nat) :
    (modifyAt buf (n : Int) f)[n]? = buf[n]?.map f := by
  unfold modifyAt
  have hx : ¬ ((n : Int) < 0) := by omega
  rw [if_neg hx]
  simp [List.getElem?_modify]

/-- Membership in the loop range `a .. b-1`. -/
theorem mem_intRangeFrom (a b x : Int) : x ∈ intRangeFrom a b ↔ a ≤ x ∧ x < b := by
  unfold intRangeFrom
  simp only [List.mem_map, List.mem_range, Int.ofNat_eq_coe]
  constructor
  · rintro ⟨k, hk, rfl⟩
    omega
  · rintro ⟨h1, h2⟩
    refine ⟨(x - a).toNat, ?_, ?_⟩ <;> omega

/-- The loop range `a .. b-1` visits every value once. -/
theorem nodup_intRangeFrom (a b : Int) : (intRangeFrom a b).Nodup := by
  unfold intRangeFrom
  apply List.Nodup.map
  · intro i j hij
    simp only [Int.ofNat_eq_coe] at hij
    omega
  · exact List.nodup_range _

/-- A loop in which iteration `x` changes at most element `x`: element `n` of
the result is element `n` of the start, updated by the iteration `n` if the
loop visits `n`. -/
theorem foldl_pointwise {α : Type} (body : List α → Int → List α) (G : α → α) (n : Nat)
    (xs : List Int) (hnodup : xs.Nodup)
    (hother : ∀ buf x, x ∈ xs → x ≠ (n : Int) → (body buf x)[n]? = buf[n]?)
    (hat : ∀ buf, (n : Int) ∈ xs → (body buf (n : Int))[n]? = buf[n]?.map G)
    (buf : List α) :
    (xs.foldl body buf)[n]? = if (n : Int) ∈ xs then buf[n]?.map G else buf[n]? := by
  induction xs generalizing buf with
  | nil => simp
  | cons y ys ih =>
    rw [List.foldl_cons]
    have hnd := List.nodup_cons.mp hnodup
    rw [ih hnd.2 (fun b x hx hne => hother b x (List.mem_cons_of_mem _ hx) hne)
      (fun b hx => hat b (List.mem_cons_of_mem _ hx))]
    by_cases hy : y = (n : Int)
    · subst hy
      rw [if_neg hnd.1, if_pos (List.mem_cons_self _ _)]
      exact hat buf (List.mem_cons_self _ _)
    · rw [hother buf y (List.mem_cons_self _ _) hy]
      have hiff : (n : Int) ∈ y :: ys ↔ (n : Int) ∈ ys := by
        simp only [List.mem_cons]
        constructor
        · rintro (h | h)
          · exact absurd h.symm hy
          · exact h
        · exact Or.inr
      by_cases hn : (n : Int) ∈ ys
      · rw [if_pos hn, if_pos (hiff.mpr hn)]
      · rw [if_neg hn, if_neg (fun h => hn (hiff.mp h))]

/-! ## Sharpening -/

/-- With sharpening alone, `applyKernelEffects` replaces `r`, `g`, `b` of an
interior column `n` by the unsharp mask of the input row against the mean of
the three columns `n-1`, `n`, `n+1`. -/
theorem applyKernelEffects_sharpen_interior (m : GIFGlitcher) (ext : Externals)
    (row : List PixelInfo) (y : Int) (hs : 0 < m.currentParams.sharpness)
    (he : m.currentParams.edgeDetect ≤ 0) (n : Nat) (h1 : 1 ≤ n)
    (h2 : (n : Int) < m.imageWidth - 1) :
    (m.applyKernelEffects ext row y)[n]?
      = row[n]?.map (fun p =>
          { p with
            r := clampQ ((readAt row n).r
              + ((readAt row n).r
                  - ((readAt row ((n : Int) - 1)).r + (readAt row n).r
                      + (readAt row ((n : Int) + 1)).r) / 3)
                * m.currentParams.sharpness) 0 1,
            g := clampQ ((readAt row n).g
              + ((readAt row n).g
                  - ((readAt row ((n : Int) - 1)).g + (readAt row n).g
                      + (readAt row ((n : Int) + 1)).g) / 3)
                * m.currentParams.sharpness) 0 1,
            b := clampQ ((readAt row n).b
              + ((readAt row n).b
                  - ((readAt row ((n : Int) - 1)).b + (readAt row n).b
                      + (readAt row ((n : Int) + 1)).b) / 3)
                * m.currentParams.sharpness) 0 1 }) := by
  have hed : ¬ (m.currentParams.edgeDetect > 0) := not_lt.mpr he
  have hsh : m.currentParams.sharpness > 0 := hs
  unfold GIFGlitcher.applyKernelEffects
  rw [if_neg (fun h => absurd h.2 (not_le.mpr hs))]
  rw [foldl_pointwise _ _ n _ (nodup_intRangeFrom _ _) ?_ ?_ row,
    if_pos ((mem_intRangeFrom _ _ _).mpr ⟨by omega, h2⟩)]
  · intro buf x _ hne
    simp only [if_neg hed, if_pos hsh]
    split
    · exact getElem?_modifyAt_ne _ _ _ _ hne
    · rfl
  · intro buf _
    have hc1 : (n : Int) + -1 ≥ 0 ∧ (n : Int) + -1 < m.imageWidth := ⟨by omega, by omega⟩
    have hc2 : (n : Int) + 0 ≥ 0 ∧ (n : Int) + 0 < m.imageWidth := ⟨by omega, by omega⟩
    have hc3 : (n : Int) + 1 ≥ 0 ∧ (n : Int) + 1 < m.imageWidth := ⟨by omega, by omega⟩
    simp only [if_neg hed, if_pos hsh, List.foldl_cons, List.foldl_nil, if_pos hc1, if_pos hc2,
      if_pos hc3]
    norm_num
    rw [getElem?_modifyAt_self]
    congr 1

/-- C20 (amended): with sharpness `s > 0` and `edgeDetect = 0`, for every
interior column `0 < n < W - 1` of a row of width `W`, `applyKernelEffects`
sets each of `r`, `g`, `b` to `clamp(c + (c - blur) * s, 0, 1)`, where `c` is
the pre-stage value at `n` and `blur` is the mean of the pre-stage values of
the three columns `n-1`, `n` and `n+1` (the centre column is part of the
mean); alpha and the source coordinates are kept. -/
theorem sharpen_masks_against_three_column_mean (m : GIFGlitcher) (ext : Externals)
    (row : List PixelInfo) (y : Int) (hs : 0 < m.currentParams.sharpness)
    (he : m.currentParams.edgeDetect = 0) (n : Nat) (h1 : 1 ≤ n)
    (h2 : (n : Int) < m.imageWidth - 1) (hlen : (row.length : Int) = m.imageWidth) :
    readAt (m.applyKernelEffects ext row y) n
      = { readAt row n with
          r := clampQ ((readAt row n).r
            + ((readAt row n).r
                - ((readAt row ((n : Int) - 1)).r + (readAt row n).r
                    + (readAt row ((n : Int) + 1)).r) / 3)
              * m.currentParams.sharpness) 0 1,
          g := clampQ ((readAt row n).g
            + ((readAt row n).g
                - ((readAt row ((n : Int) - 1)).g + (readAt row n).g
                    + (readAt row ((n : Int) + 1)).g) / 3)
              * m.currentParams.sharpness) 0 1,
          b := clampQ ((readAt row n).b
            + ((readAt row n).b
                - ((readAt row ((n : Int) - 1)).b + (readAt row n).b
                    + (readAt row ((n : Int) + 1)).b) / 3)
              * m.currentParams.sharpness) 0 1 } := by
  have h := applyKernelEffects_sharpen_interior m ext row y hs (le_of_eq he) n h1 h2
  have hn : n < row.length := by omega
  have hneg : ¬ ((n : Int) < 0) := by omega
  have hrow : readAt row (n : Int) = row[n] := by
    unfold readAt
    rw [if_neg hneg]
    simp [List.getD_eq_getElem?_getD, List.getElem?_eq_getElem hn]
  rw [List.getElem?_eq_getElem hn, Option.map_some'] at h
  have hres : readAt (m.applyKernelEffects ext row y) (n : Int)
      = ((m.applyKernelEffects ext row y)[n]?).getD default := by
    unfold readAt
    rw [if_neg hneg]
    simp [List.getD_eq_getElem?_getD]
  rw [hres, h, Option.getD_some, ← hrow]

/-- Witness of the amended C20 on the grey row `3/10, 6/10, 3/10` with
`s = 1`: the centre becomes `6/10 + (6/10 - 4/10) = 8/10`. -/
theorem sharpen_masks_against_three_column_mean_witness :
    (readAt (sharpenModule.applyKernelEffects quietExternals greyPeakRow 0) (1 : Nat)).r
      = 4 / 5 := by
  rw [sharpen_masks_against_three_column_mean sharpenModule quietExternals greyPeakRow 0
    (by norm_num [sharpenModule]) rfl 1 (le_refl 1) (by decide) (by decide)]
  have e2 : Int.toNat 2 = 2 := rfl
  norm_num [readAt, greyPeakRow, sharpenModule, clampQ, e2]

/-- C20 as stated fails: on the grey row `3/10, 6/10, 3/10` with `s = 1` and
`edgeDetect = 0`, the interior column 1 does not get
`clamp(c + (c - blur) * s, 0, 1)` with `blur` the mean of columns 0 and 2
(that would be `9/10`); the stage stores `8/10`. -/
theorem sharpen_blur_is_not_mean_of_left_and_right :
    0 < sharpenModule.currentParams.sharpness
      ∧ sharpenModule.currentParams.edgeDetect = 0
      ∧ (0 : Int) < 1 ∧ (1 : Int) < sharpenModule.imageWidth - 1
      ∧ (greyPeakRow.length : Int) = sharpenModule.imageWidth
      ∧ (readAt (sharpenModule.applyKernelEffects quietExternals greyPeakRow 0) 1).r = 4 / 5
      ∧ (readAt (sharpenModule.applyKernelEffects quietExternals greyPeakRow 0) 1).r
          ≠ clampQ ((readAt greyPeakRow 1).r
              + ((readAt greyPeakRow 1).r
                  - ((readAt greyPeakRow 0).r + (readAt greyPeakRow 2).r) / 2)
                * sharpenModule.currentParams.sharpness) 0 1 := by
  have h := applyKernelEffects_sharpen_interior sharpenModule quietExternals greyPeakRow 0
    (by norm_num [sharpenModule]) (by norm_num [sharpenModule]) 1 (le_refl 1) (by decide)
  have hval : (readAt (sharpenModule.applyKernelEffects quietExternals greyPeakRow 0) 1).r
      = 4 / 5 := by
    have hres : readAt (sharpenModule.applyKernelEffects quietExternals greyPeakRow 0) 1
        = ((sharpenModule.applyKernelEffects quietExternals greyPeakRow 0)[1]?).getD default := by
      unfold readAt
      rw [if_neg (by decide)]
      exact List.getD_eq_getElem?_getD _ _ _
    have e2 : Int.toNat 2 = 2 := rfl
    rw [hres, h]
    norm_num [readAt, greyPeakRow, sharpenModule, clampQ, e2]
  refine ⟨by norm_num [sharpenModule], rfl, by decide, by decide, by decide, hval, ?_⟩
  have e2 : Int.toNat 2 = 2 := rfl
  rw [hval]
  norm_num [readAt, greyPeakRow, sharpenModule, clampQ, e2]

/-! ## Pixelation: block means -/

/-- The accumulation loop of a block: three running sums and a count. -/
theorem foldl_sum4 {ι : Type} (l : List ι) (f g h : ι → ℚ) (a b c : ℚ) (d : Int) :
    l.foldl (fun (s : ℚ × ℚ × ℚ × Int) px =>
        (s.1 + f px, s.2.1 + g px, s.2.2.1 + h px, s.2.2.2 + 1)) (a, b, c, d)
      = (a + (l.map f).sum, b + (l.map g).sum, c + (l.map h).sum, d + (l.length : Int)) := by
  induction l generalizing a b c d with
  | nil => simp
  | cons x xs ih =>
    rw [List.foldl_cons, ih]
    simp only [List.map_cons, List.sum_cons, List.length_cons]
    refine Prod.ext ?_ (Prod.ext ?_ (Prod.ext ?_ ?_))
    · simp only
      ring
    · simp only
      ring
    · simp only
      ring
    · simp only
      push_cast
      ring

/-- The write loop of a block starting at column `x` with `cn` columns. -/
theorem foldl_modifyAt_block {α : Type} (F : α → α) (x cn : Nat) (buf : List α) (n : Nat) :
    ((intRange (cn : Int)).foldl (fun b px => modifyAt b ((x : Int) + px) F) buf)[n]?
      = if x ≤ n ∧ n < x + cn then buf[n]?.map F else buf[n]? := by
  unfold intRange
  rw [List.foldl_map, Int.toNat_natCast]
  induction cn with
  | zero =>
    have h0 : ¬ (x ≤ n ∧ n < x + 0) := by omega
    rw [if_neg h0]
    rfl
  | succ c ih =>
    rw [List.range_succ, List.foldl_append, List.foldl_cons, List.foldl_nil]
    by_cases hn : n = x + c
    · subst hn
      have hidx : (x : Int) + Int.ofNat c = ((x + c : Nat) : Int) := by
        simp only [Int.ofNat_eq_coe]
        push_cast
        rfl
      rw [hidx, getElem?_modifyAt_self, ih]
      have h1 : ¬ (x ≤ x + c ∧ x + c < x + c) := by omega
      have h2 : x ≤ x + c ∧ x + c < x + (c + 1) := by omega
      rw [if_neg h1, if_pos h2]
    · have hne : (x : Int) + Int.ofNat c ≠ (n : Int) := by
        simp only [Int.ofNat_eq_coe]
        omega
      rw [getElem?_modifyAt_ne _ _ _ _ hne, ih]
      by_cases h1 : x ≤ n ∧ n < x + c
      · have h2 : x ≤ n ∧ n < x + (c + 1) := by omega
        rw [if_pos h1, if_pos h2]
      · have h2 : ¬ (x ≤ n ∧ n < x + (c + 1)) := by omega
        rw [if_neg h1, if_neg h2]

/-- The number of blocks covers the row: `k` is a block index exactly when
block `k` starts inside the row. -/
theorem block_index_lt_iff (L s k : Nat) (hs : 1 ≤ s) :
    k < (((L : Int) + (s : Int) - 1) / (s : Int)).toNat ↔ k * s < L := by
  have hcast : ((L : Int) + (s : Int) - 1) / (s : Int) = (((L + s - 1) / s : Nat) : Int) := by
    have : (L : Int) + (s : Int) - 1 = ((L + s - 1 : Nat) : Int) := by omega
    rw [this]
    norm_cast
  rw [hcast, Int.toNat_natCast, Nat.lt_iff_add_one_le, Nat.le_div_iff_mul_le (by omega)]
  have : (k + 1) * s = k * s + s := Nat.succ_mul k s
  omega

/-- The sums of a block read from a buffer that still holds the row from
column `x` on are the sums over the row. -/
theorem block_sum_eq (chan : PixelInfo → ℚ) (buf row : List PixelInfo) (x cn : Nat)
    (hbuf : ∀ i, x ≤ i → buf[i]? = row[i]?) :
    ((intRange (cn : Int)).map (fun px => chan (readAt buf ((x : Int) + px)))).sum
      = ((List.range cn).map (fun j => chan (readAt row ((x + j : Nat) : Int)))).sum := by
  unfold intRange
  rw [Int.toNat_natCast, List.map_map]
  congr 1
  apply List.map_congr_left
  intro j _
  have hidx : (x : Int) + Int.ofNat j = ((x + j : Nat) : Int) := by
    simp only [Int.ofNat_eq_coe]
    push_cast
    rfl
  have hneg : ¬ (((x + j : Nat) : Int) < 0) := by omega
  simp only [Function.comp, hidx]
  congr 1
  unfold readAt
  rw [if_neg hneg, if_neg hneg, Int.toNat_natCast, List.getD_eq_getElem?_getD,
    List.getD_eq_getElem?_getD, hbuf (x + j) (by omega)]

/-- A counted loop over a buffer whose elements after `k` iterations are
described by `T k`. -/
theorem foldl_range_getElem? {α : Type} (f : List α → Nat → List α) (K : Nat)
    (T : Nat → Nat → Option α) (row : List α)
    (hstep : ∀ k buf, k < K → (∀ i, buf[i]? = T k i) → ∀ i, (f buf k)[i]? = T (k + 1) i)
    (h0 : ∀ i, row[i]? = T 0 i) (n : Nat) :
    ((List.range K).foldl f row)[n]? = T K n :=
  foldl_range_invariant (fun k (buf : List α) => ∀ i, buf[i]? = T k i) f K hstep row h0 n

/-- With `pixelation > 0` and block size `s = max(1, floor(fl(40 * pixelation)))`,
`fl` the binary32 product, element `n` of the result of `applyPixelation` on a row of the image width is
element `n` of the row with `r`, `g`, `b` replaced by the block means of the
row over the block of `n`. -/
theorem applyPixelation_blocks (m : GIFGlitcher) (row : List PixelInfo) (y : Int) (s : Nat)
    (hp : 0 < m.currentParams.pixelation)
    (hs : (s : Int) = max 1 (Int.floor (f32 (m.currentParams.pixelation * 40))))
    (hlen : (row.length : Int) = m.imageWidth) (n : Nat) :
    (m.applyPixelation row y)[n]?
      = row[n]?.map (fun q =>
          { q with
            r := blockMean (fun p => p.r) row (n / s * s) (min ((n / s + 1) * s) row.length),
            g := blockMean (fun p => p.g) row (n / s * s) (min ((n / s + 1) * s) row.length),
            b := blockMean (fun p => p.b) row (n / s * s)
              (min ((n / s + 1) * s) row.length) }) := by
  have hs1 : 1 ≤ s := by omega
  have htrunc : truncToInt (f32 (m.currentParams.pixelation * 40))
      = Int.floor (f32 (m.currentParams.pixelation * 40)) := by
    unfold truncToInt
    rw [if_pos (f32_nonneg _ (by linarith))]
  unfold GIFGlitcher.applyPixelation
  rw [if_neg (not_le.mpr hp), htrunc]
  simp only
  rw [← hs, ← hlen]
  unfold strideRange
  rw [List.foldl_map]
  rw [foldl_range_getElem? _ _
    (fun k i =>
      if i < k * s then
        row[i]?.map (fun q =>
          { q with
            r := blockMean (fun p => p.r) row (i / s * s) (min ((i / s + 1) * s) row.length),
            g := blockMean (fun p => p.g) row (i / s * s) (min ((i / s + 1) * s) row.length),
            b := blockMean (fun p => p.b) row (i / s * s)
              (min ((i / s + 1) * s) row.length) })
      else row[i]?) row ?_ ?_ n]
  · by_cases hn : n < row.length
    · have hlt : n < (((row.length : Int) + (s : Int) - 1) / (s : Int)).toNat * s := by
        by_contra hcon
        have hle : (((row.length : Int) + (s : Int) - 1) / (s : Int)).toNat * s ≤ n :=
          not_lt.mp hcon
        have hnot : ¬ ((((row.length : Int) + (s : Int) - 1) / (s : Int)).toNat
            < (((row.length : Int) + (s : Int) - 1) / (s : Int)).toNat) := lt_irrefl _
        exact hnot ((block_index_lt_iff row.length s _ hs1).mpr (by omega))
      rw [if_pos hlt]
    · have hnone : row[n]? = none := List.getElem?_eq_none_iff.mpr (by omega)
      rw [hnone]
      simp only [Option.map_none', ite_self]
  · intro k buf hk hP
    beta_reduce at hP
    have hx : k * s < row.length := (block_index_lt_iff row.length s k hs1).mp hk
    have hidx : Int.ofNat k * (s : Int) = ((k * s : Nat) : Int) := by
      simp only [Int.ofNat_eq_coe]
      push_cast
      rfl
    have hsucc : (k + 1) * s = k * s + s := Nat.succ_mul k s
    have hcn : (s : Int) ⊓ ((row.length : Int) - ((k * s : Nat) : Int))
        = ((min s (row.length - k * s) : Nat) : Int) := by
      generalize k * s = x at hx
      omega
    have hbuf : ∀ i, k * s ≤ i → buf[i]? = row[i]? := by
      intro i hi
      rw [hP i, if_neg (by omega)]
    have hsumr := foldl_sum4 (intRange ((min s (row.length - k * s) : Nat) : Int))
      (fun px => (readAt buf (((k * s : Nat) : Int) + px)).r)
      (fun px => (readAt buf (((k * s : Nat) : Int) + px)).g)
      (fun px => (readAt buf (((k * s : Nat) : Int) + px)).b) 0 0 0 0
    have hlenr : (intRange ((min s (row.length - k * s) : Nat) : Int)).length
        = min s (row.length - k * s) := by
      unfold intRange
      rw [List.length_map, List.length_range, Int.toNat_natCast]
    have hpos : (0 : Int) + ((min s (row.length - k * s) : Nat) : Int) > 0 := by
      generalize k * s = x at hx
      omega
    intro i
    simp only [hidx, hcn, hsumr, hlenr, if_pos hpos]
    show _ = if i < (k + 1) * s then _ else _
    rw [foldl_modifyAt_block]
    rw [block_sum_eq (fun p => p.r) buf row _ _ hbuf, block_sum_eq (fun p => p.g) buf row _ _ hbuf,
      block_sum_eq (fun p => p.b) buf row _ _ hbuf]
    have hc1 : 1 ≤ min s (row.length - k * s) := by
      generalize k * s = x at hx
      omega
    have hc2 : min ((k + 1) * s) row.length - k * s = min s (row.length - k * s) := by
      rw [hsucc]
      generalize k * s = x at hx
      omega
    have hc3 : min s (row.length - k * s) < s
        → row.length = k * s + min s (row.length - k * s) := by
      generalize k * s = x at hx
      omega
    have hc4 : min s (row.length - k * s) ≤ s := min_le_left _ _
    generalize min s (row.length - k * s) = c at hc1 hc2 hc3 hc4
    by_cases ha : k * s ≤ i ∧ i < k * s + c
    · have hlt : i < (k + 1) * s := by
        rw [hsucc]
        omega
      have hdiv : i / s = k := Nat.div_eq_of_lt_le ha.1 hlt
      rw [if_pos ha, if_pos hlt, hbuf i ha.1, hdiv]
      unfold blockMean
      rw [hc2]
      simp only [zero_add, Int.cast_natCast]
    · rw [if_neg ha]
      by_cases hb : i < k * s
      · have hlt : i < (k + 1) * s := by
          rw [hsucc]
          omega
        rw [if_pos hlt, hP i, if_pos hb]
      · have hge : k * s + c ≤ i := by omega
        rw [hbuf i (by omega)]
        by_cases hlt : i < (k + 1) * s
        · have hcs : c < s := by
            rw [hsucc] at hlt
            omega
          have hnone : row[i]? = none :=
            List.getElem?_eq_none_iff.mpr (by
              rw [hc3 hcs]
              exact hge)
          rw [if_pos hlt, hnone]
          rfl
        · rw [if_neg hlt]
  · intro i
    simp

/-- C16 (amended): for every row of the image width `W` and `pixelation = p > 0`,
with block size `s = max(1, floor(fl(40 * p)))`, where `fl(40 * p)` is the
binary32 product `pixelation * 40.0f` that the code truncates,
`applyPixelation` sets `r`, `g` and `b` of every column `n` to the arithmetic
mean of that channel of the input row over the block
`[k * s, min((k + 1) * s, W))` with `k = n / s` that contains `n` (a partial
last block averages only its own pixels) and keeps the other fields; in
particular for `0 < p < 1/40` the row is unchanged. -/
theorem pixelation_averages_each_block (m : GIFGlitcher) (row : List PixelInfo) (y : Int)
    (s : Nat) (hp : 0 < m.currentParams.pixelation)
    (hs : (s : Int) = max 1 (Int.floor (f32 (m.currentParams.pixelation * 40))))
    (hlen : (row.length : Int) = m.imageWidth) :
    (∀ n, n < row.length →
        readAt (m.applyPixelation row y) n
          = { readAt row n with
              r := blockMean (fun p => p.r) row (n / s * s) (min ((n / s + 1) * s) row.length),
              g := blockMean (fun p => p.g) row (n / s * s) (min ((n / s + 1) * s) row.length),
              b := blockMean (fun p => p.b) row (n / s * s)
                (min ((n / s + 1) * s) row.length) })
      ∧ (m.currentParams.pixelation < 1 / 40 → m.applyPixelation row y = row) := by
  have hread : ∀ (l : List PixelInfo) (n : Nat), readAt l (n : Int) = (l[n]?).getD default := by
    intro l n
    have hneg : ¬ ((n : Int) < 0) := by omega
    unfold readAt
    rw [if_neg hneg, Int.toNat_natCast, List.getD_eq_getElem?_getD]
  constructor
  · intro n hn
    rw [hread, hread, applyPixelation_blocks m row y s hp hs hlen n,
      List.getElem?_eq_getElem hn]
    rfl
  · intro hsmall
    have hone : pow2 0 = 1 := by rw [pow2_eq]; norm_num
    have hle : f32 (m.currentParams.pixelation * 40) ≤ 1 := by
      rw [← hone]
      exact f32_le_pow2 _ 0 (by decide) (by rw [hone]; linarith)
    have hfloor : Int.floor (f32 (m.currentParams.pixelation * 40)) ≤ 1 := by
      have h1 : Int.floor (f32 (m.currentParams.pixelation * 40)) ≤ Int.floor (1 : ℚ) :=
        Int.floor_le_floor hle
      rwa [Int.floor_one] at h1
    have hs1 : s = 1 := by
      omega
    apply List.ext_getElem?
    intro n
    rw [applyPixelation_blocks m row y s hp hs hlen n, hs1]
    cases hrow : row[n]? with
    | none => rfl
    | some q =>
      have hn : n < row.length := by
        by_contra hcon
        rw [List.getElem?_eq_none_iff.mpr (not_lt.mp hcon)] at hrow
        exact Option.noConfusion hrow
      have hmin : min (n + 1) row.length - n = 1 := by omega
      have hq : readAt row (n : Int) = q := by
        rw [hread, hrow]
        rfl
      simp only [Option.map_some', blockMean, Nat.div_one, Nat.mul_one, hmin, List.range_succ,
        List.range_zero, List.nil_append, List.map_cons, List.map_nil, List.sum_cons,
        List.sum_nil, Nat.add_zero, add_zero, Nat.cast_one, div_one, hq]

/-- Witness of the amended C16 on the row `51/255, 102/255, 230/255` (as
binary32 values) with `pixelation = 0.05f`, a block size of 2: the full block
holds the mean of its two pixels, the partial last block keeps its pixel. -/
theorem pixelation_averages_each_block_witness :
    (readAt (pixelationModule.applyPixelation redRampRow 0) (0 : Nat)).r
        = ((readAt redRampRow 0).r + (readAt redRampRow 1).r) / 2
      ∧ (readAt (pixelationModule.applyPixelation redRampRow 0) (2 : Nat)).r
        = (readAt redRampRow 2).r := by
  have h := (pixelation_averages_each_block pixelationModule redRampRow 0 2
    (by decide!) (by decide!) (by decide)).1
  rw [h 0 (by decide), h 2 (by decide)]
  decide!

/-- C16 as stated fails at `pixelation = 0.175f`.  The exact product
`40 * 0.175f` is below 7, so the block size of the claim is
`max(1, floor(40 * p)) = 6` and column 6 of a row of width 7 is a block of its
own that keeps its pixel.  The code truncates the binary32 product
`0.175f * 40.0f = 7.0f`: its block size is 7, and on six black pixels followed
by a red one every column, column 6 included, gets the mean `1/7` of the whole
row. -/
theorem pixelation_block_size_follows_the_binary32_product :
    0 < coarsePixelationModule.currentParams.pixelation
      ∧ (blackThenRedRow.length : Int) = coarsePixelationModule.imageWidth
      ∧ max 1 (Int.floor (coarsePixelationModule.currentParams.pixelation * 40)) = 6
      ∧ readAt (coarsePixelationModule.applyPixelation blackThenRedRow 0) (6 : Nat)
          ≠ { readAt blackThenRedRow (6 : Nat) with
              r := blockMean (fun p => p.r) blackThenRedRow (6 / 6 * 6)
                (min ((6 / 6 + 1) * 6) blackThenRedRow.length),
              g := blockMean (fun p => p.g) blackThenRedRow (6 / 6 * 6)
                (min ((6 / 6 + 1) * 6) blackThenRedRow.length),
              b := blockMean (fun p => p.b) blackThenRedRow (6 / 6 * 6)
                (min ((6 / 6 + 1) * 6) blackThenRedRow.length) }
      ∧ (readAt (coarsePixelationModule.applyPixelation blackThenRedRow 0) (6 : Nat)).r = 1 / 7
      ∧ (readAt (coarsePixelationModule.applyPixelation blackThenRedRow 0) (0 : Nat)).r
          = 1 / 7 := by
  decide!

/-! ## Pixel sort: what is sorted -/

/-- The pixels of a segment are never empty. -/
theorem SortSegment.pixels_ne_nil (s : SortSegment) : s.pixels ≠ [] := by
  cases s <;> simp [SortSegment.pixels]

/-- Only the empty list of segments gives the empty row. -/
theorem rowOfSegments_eq_nil (segs : List SortSegment) (h : rowOfSegments segs = []) :
    segs = [] := by
  cases segs with
  | nil => rfl
  | cons s rest =>
    simp only [rowOfSegments, List.append_eq_nil] at h
    exact absurd h.1 s.pixels_ne_nil

/-- A valid segment in front of valid segments: the segment may end at the
last pixel only when nothing follows. -/
theorem validSegments_cons (t : ℚ) (s : SortSegment) (rest : List SortSegment)
    (hrest : validSegments t rest) (hs : s.valid t rest.isEmpty) :
    validSegments t (s :: rest) := by
  cases rest with
  | nil => exact hs
  | cons s2 rest => exact ⟨hs, hrest⟩

/-- The parts of a valid list of segments. -/
theorem validSegments_uncons (t : ℚ) (s : SortSegment) (rest : List SortSegment)
    (h : validSegments t (s :: rest)) : s.valid t rest.isEmpty ∧ validSegments t rest := by
  cases rest with
  | nil => exact ⟨h, trivial⟩
  | cons s2 rest => exact h

/-- The list view of the loop sorts every segment on its own. -/
theorem sortRuns_segments (sort : List PixelInfo → List PixelInfo) (t : ℚ)
    (segs : List SortSegment) (hvalid : validSegments t segs) :
    sortRuns sort t none (rowOfSegments segs) = sortedSegments sort segs := by
  induction segs with
  | nil => rfl
  | cons s rest ih =>
    obtain ⟨hs, hrest⟩ := validSegments_uncons t s rest hvalid
    have hlast : rest.isEmpty = true → rowOfSegments rest = [] := by
      intro h
      cases rest with
      | nil => rfl
      | cons a l => exact Bool.noConfusion h
    cases s with
    | dark p =>
      simp only [rowOfSegments, sortedSegments, SortSegment.pixels, SortSegment.sortedPixels,
        List.singleton_append]
      simp only [SortSegment.valid] at hs
      by_cases hb : GIFGlitcher.sortBrightness p > t
      · have hl : rest.isEmpty = true := by
          rcases hs with h | h
          · exact absurd hb (not_lt.mpr h)
          · exact h
        have hnil : rest = [] := List.isEmpty_iff.mp hl
        subst hnil
        simp [sortRuns, rowOfSegments, sortedSegments, hb]
      · simp only [sortRuns, hb, if_false]
        rw [ih hrest]
    | run first mid stop =>
      simp only [SortSegment.valid] at hs
      obtain ⟨hfirst, hmid, hstop⟩ := hs
      have hstop' : GIFGlitcher.sortBrightness stop < t ∨ rowOfSegments rest = [] := by
        rcases hstop with h | h
        · exact Or.inl h
        · exact Or.inr (hlast h)
      have hrow : rowOfSegments (SortSegment.run first mid stop :: rest)
          = first :: (mid ++ stop :: rowOfSegments rest) := by
        simp [rowOfSegments, SortSegment.pixels]
      have hne : mid ++ stop :: rowOfSegments rest ≠ [] := by simp
      rw [hrow]
      simp only [sortRuns, hfirst, if_true, hne, if_false]
      rw [sortRuns_some_append sort t mid [first] stop (rowOfSegments rest) hmid hstop',
        ih hrest]
      simp [sortedSegments, SortSegment.sortedPixels]

/-- Every row can be cut into valid segments. -/
theorem exists_valid_segments (t : ℚ) (n : Nat) :
    ∀ row : List PixelInfo, row.length ≤ n →
      ∃ segs, validSegments t segs ∧ rowOfSegments segs = row := by
  induction n with
  | zero =>
    intro row hrow
    have hnil : row = [] := List.length_eq_zero.mp (Nat.le_zero.mp hrow)
    exact ⟨[], trivial, hnil.symm⟩
  | succ n ih =>
    intro row hrow
    cases row with
    | nil => exact ⟨[], trivial, rfl⟩
    | cons p ps =>
      have hps : ps.length ≤ n := by
        simp only [List.length_cons] at hrow
        omega
      by_cases hopen : GIFGlitcher.sortBrightness p > t ∧ ps ≠ []
      · obtain ⟨mid, q, rest, hsplit, hmid, hq⟩ := exists_run_end t ps hopen.2
        have hrestlen : rest.length ≤ n := by
          have hl := congrArg List.length hsplit
          simp only [List.length_append, List.length_cons] at hl
          omega
        obtain ⟨segs, hsegs, hrow'⟩ := ih rest hrestlen
        refine ⟨SortSegment.run p mid q :: segs, ?_, ?_⟩
        · apply validSegments_cons t _ segs hsegs
          refine ⟨hopen.1, hmid, ?_⟩
          rcases hq with h | h
          · exact Or.inl h
          · right
            have hnil : segs = [] := rowOfSegments_eq_nil segs (by rw [hrow', h])
            rw [hnil]
            rfl
        · rw [hsplit]
          simp [rowOfSegments, SortSegment.pixels, hrow']
      · obtain ⟨segs, hsegs, hrow'⟩ := ih ps hps
        refine ⟨SortSegment.dark p :: segs, ?_, ?_⟩
        · apply validSegments_cons t _ segs hsegs
          by_cases hb : GIFGlitcher.sortBrightness p > t
          · right
            have hnil : ps = [] := by
              by_contra hne
              exact hopen ⟨hb, hne⟩
            have hsnil : segs = [] := rowOfSegments_eq_nil segs (by rw [hrow', hnil])
            rw [hsnil]
            rfl
          · exact Or.inl (not_lt.mp hb)
        · simp [rowOfSegments, SortSegment.pixels, hrow']

/-- The pixel-sort step, segment by segment: for every row of the image width,
every threshold `pixelSort = t > 0` and every `std::sort` that meets its
contract, the row can be cut into valid segments such that the step sorts each
segment on its own. -/
theorem applyPixelSort_segments (m : GIFGlitcher)
    (ext : Externals) (row : List PixelInfo) (ht : 0 < m.currentParams.pixelSort)
    (hW : m.imageWidth = Int.ofNat row.length) (hsort : StdSortContract ext.stdSort) :
    ∃ segs, validSegments m.currentParams.pixelSort segs
      ∧ rowOfSegments segs = row
      ∧ m.applyPixelSort ext row = sortedSegments (ext.stdSort GIFGlitcher.sumLess) segs
      ∧ ∀ l, (ext.stdSort GIFGlitcher.sumLess l).Perm l
          ∧ (ext.stdSort GIFGlitcher.sumLess l).Pairwise
              (fun a b => ¬ (GIFGlitcher.channelSum b < GIFGlitcher.channelSum a)) := by
  obtain ⟨segs, hvalid, hrow⟩ := exists_valid_segments m.currentParams.pixelSort row.length
    row (le_refl _)
  refine ⟨segs, hvalid, hrow, ?_, ?_⟩
  · rw [applyPixelSort_eq_sortRuns m ext row ht hW (fun l => (hsort l).1.length_eq), ← hrow]
    exact sortRuns_segments _ _ segs hvalid
  · intro l
    refine ⟨(hsort l).1, (hsort l).2.imp ?_⟩
    intro a b hab
    simpa [GIFGlitcher.sumLess] using hab

/-- In a row whose last pixel is darker than the threshold, every run is
closed by a pixel darker than the threshold and every pixel outside the runs
is not brighter than it. -/
theorem validSegments_closed (t : ℚ) (segs : List SortSegment)
    (hvalid : validSegments t segs)
    (hlast : ∀ pre p, rowOfSegments segs = pre ++ [p] → GIFGlitcher.sortBrightness p < t) :
    ∀ s ∈ segs, s.valid t false := by
  induction segs with
  | nil =>
    intro s hs
    exact absurd hs (List.not_mem_nil s)
  | cons s rest ih =>
    obtain ⟨hs, hrest⟩ := validSegments_uncons t s rest hvalid
    have hrest' : ∀ u ∈ rest, u.valid t false :=
      ih hrest (fun pre p hp => hlast (s.pixels ++ pre) p (by
        rw [rowOfSegments, hp, List.append_assoc]))
    intro u hu
    rcases List.mem_cons.mp hu with h | h
    · subst h
      cases rest with
      | cons s2 rest2 => exact hs
      | nil =>
        cases u with
        | dark p =>
          exact Or.inl (le_of_lt (hlast [] p (by simp [rowOfSegments, SortSegment.pixels])))
        | run first mid stop =>
          obtain ⟨h1, h2, _⟩ := hs
          exact ⟨h1, h2, Or.inl (hlast (first :: mid) stop
            (by simp [rowOfSegments, SortSegment.pixels]))⟩
    · exact hrest' u h

/-- C15 (amended): for every row of the image width whose last pixel is darker
than the threshold, every threshold `pixelSort = t > 0` and every `std::sort`
that meets its contract (the result is a permutation of the range, ascending
in the binary32 sum `r + g + b`), the row can be cut into segments such that
the pixel-sort step sorts each segment on its own.  Brightness is the value
the code computes, `(r + g + b) / 3.f` in binary32.  A run opens at a pixel
with brightness greater than `t`, swallows the following pixels whose
brightness is not less than `t` (a brightness equal to `t` included), and is
closed by the first pixel with brightness less than `t`.  The opening and the
swallowed pixels are replaced by their sorted arrangement; the closing pixel
and every pixel outside the runs stay where they are. -/
theorem pixel_sort_sorts_each_run_before_its_closing_pixel (m : GIFGlitcher)
    (ext : Externals) (row : List PixelInfo) (ht : 0 < m.currentParams.pixelSort)
    (hW : m.imageWidth = Int.ofNat row.length) (hsort : StdSortContract ext.stdSort)
    (hlast : ∀ pre p, row = pre ++ [p] → GIFGlitcher.sortBrightness p < m.currentParams.pixelSort) :
    ∃ segs, (∀ s ∈ segs, s.valid m.currentParams.pixelSort false)
      ∧ rowOfSegments segs = row
      ∧ m.applyPixelSort ext row = sortedSegments (ext.stdSort GIFGlitcher.sumLess) segs
      ∧ ∀ l, (ext.stdSort GIFGlitcher.sumLess l).Perm l
          ∧ (ext.stdSort GIFGlitcher.sumLess l).Pairwise
              (fun a b => ¬ (GIFGlitcher.channelSum b < GIFGlitcher.channelSum a)) := by
  obtain ⟨segs, hvalid, hrow, hres, hperm⟩ := applyPixelSort_segments m ext row ht hW hsort
  refine ⟨segs, ?_, hrow, hres, hperm⟩
  apply validSegments_closed _ segs hvalid
  intro pre p hp
  rw [hrow] at hp
  exact hlast pre p hp

/-- Witness of the amended C15 with insertion sort as `std::sort` on the row
`0.95f, 0.9f, 0.92f, 0` at threshold `0.9f`, whose last pixel is darker than
the threshold.  The brightness of the grey pixel `0.9f`, computed in binary32,
is below `0.9f`, so this pixel closes the run that column 0 opens and the row
is returned as it is. -/
theorem pixel_sort_sorts_each_run_before_its_closing_pixel_witness :
    (∃ segs, (∀ s ∈ segs, s.valid highThresholdModule.currentParams.pixelSort false)
      ∧ rowOfSegments segs = roundedBrightnessRow
      ∧ highThresholdModule.applyPixelSort quietExternals roundedBrightnessRow
          = sortedSegments (quietExternals.stdSort GIFGlitcher.sumLess) segs)
      ∧ GIFGlitcher.sortBrightness (greyPixel 1 (f32 (9 / 10)))
          < highThresholdModule.currentParams.pixelSort
      ∧ highThresholdModule.applyPixelSort quietExternals roundedBrightnessRow
          = roundedBrightnessRow :=
  ⟨(pixel_sort_sorts_each_run_before_its_closing_pixel highThresholdModule quietExternals
    roundedBrightnessRow (by decide!) rfl quietExternals_sort_contract.1
    (by
      intro pre p hp
      have hl : (roundedBrightnessRow).getLast? = some p := by
        rw [hp]
        simp
      have hp' : p = greyPixel 3 0 := by
        simp [roundedBrightnessRow] at hl
        exact hl.symm
      subst hp'
      decide!)).imp
    (fun _ h => ⟨h.1, h.2.1, h.2.2.1⟩), by decide!, by decide!⟩

/-- C15 as stated fails, with insertion sort as `std::sort` and threshold
`0.1f`.  On the row `0.9f, 0.7f, 0.8f` every pixel is brighter than the
threshold, so the whole row is one run, but the step leaves the last column
out of the sort and returns `0.7f, 0.9f, 0.8f`, which is not ascending.  On the
row `0.9f, 0.1f, 0` the brightness of column 1 is exactly the threshold, so the
pixel is outside every run of brighter pixels, but the step sorts it together
with column 0 and returns `0.1f, 0.9f, 0`. -/
theorem pixel_sort_skips_last_column_and_moves_threshold_pixel :
    0 < pixelSortModule.currentParams.pixelSort
      ∧ pixelSortModule.imageWidth = Int.ofNat brightRunRow.length
      ∧ pixelSortModule.imageWidth = Int.ofNat thresholdPixelRow.length
      ∧ (∀ p ∈ brightRunRow,
          GIFGlitcher.sortBrightness p > pixelSortModule.currentParams.pixelSort)
      ∧ pixelSortModule.applyPixelSort quietExternals brightRunRow
          = [greyPixel 1 (f32 (7 / 10)), greyPixel 0 (f32 (9 / 10)), greyPixel 2 (f32 (8 / 10))]
      ∧ ¬ (pixelSortModule.applyPixelSort quietExternals brightRunRow).Pairwise
            (fun a b => GIFGlitcher.channelSum a ≤ GIFGlitcher.channelSum b)
      ∧ ¬ (GIFGlitcher.sortBrightness (readAt thresholdPixelRow 1)
            > pixelSortModule.currentParams.pixelSort)
      ∧ pixelSortModule.applyPixelSort quietExternals thresholdPixelRow
          = [greyPixel 1 (f32 (1 / 10)), greyPixel 0 (f32 (9 / 10)), greyPixel 2 0]
      ∧ readAt (pixelSortModule.applyPixelSort quietExternals thresholdPixelRow) 1
          ≠ readAt thresholdPixelRow 1 := by
  decide!

/-! ## Geometric remap stays inside the image -/

/-- C29: for all `0 ≤ x < W` and `0 ≤ y < H` (so `W, H ≥ 1`) and every
combination of the mirror, flip and half-mirror flags, `applyGeometricEffects`
yields `0 ≤ sourceX < W` and `0 ≤ sourceY < H`, so the four source indices
`(sourceY * W + sourceX) * 4 .. + 3` read by `processImage` lie in
`[0, W * H * 4)`. -/
theorem geometric_remap_stays_inside_image (m : GIFGlitcher) (pixel : PixelInfo) (x y : Int)
    (hx : 0 ≤ x ∧ x < m.imageWidth) (hy : 0 ≤ y ∧ y < m.imageHeight) :
    0 ≤ (m.applyGeometricEffects pixel x y).sourceX
      ∧ (m.applyGeometricEffects pixel x y).sourceX < m.imageWidth
      ∧ 0 ≤ (m.applyGeometricEffects pixel x y).sourceY
      ∧ (m.applyGeometricEffects pixel x y).sourceY < m.imageHeight
      ∧ 0 ≤ ((m.applyGeometricEffects pixel x y).sourceY * m.imageWidth
              + (m.applyGeometricEffects pixel x y).sourceX) * 4
      ∧ ((m.applyGeometricEffects pixel x y).sourceY * m.imageWidth
              + (m.applyGeometricEffects pixel x y).sourceX) * 4 + 3
          < m.imageWidth * m.imageHeight * 4 := by
  have hsx : 0 ≤ (m.applyGeometricEffects pixel x y).sourceX
      ∧ (m.applyGeometricEffects pixel x y).sourceX < m.imageWidth := by
    unfold GIFGlitcher.applyGeometricEffects
    simp only
    split_ifs <;> simp only <;> omega
  have hsy : 0 ≤ (m.applyGeometricEffects pixel x y).sourceY
      ∧ (m.applyGeometricEffects pixel x y).sourceY < m.imageHeight := by
    unfold GIFGlitcher.applyGeometricEffects
    simp only
    split_ifs <;> simp only <;> omega
  generalize (m.applyGeometricEffects pixel x y).sourceX = sx at hsx
  generalize (m.applyGeometricEffects pixel x y).sourceY = sy at hsy
  have h1 : 0 ≤ sy * m.imageWidth := mul_nonneg hsy.1 (by omega)
  have h2 : (sy + 1) * m.imageWidth ≤ m.imageHeight * m.imageWidth :=
    mul_le_mul_of_nonneg_right (by omega) (by omega)
  have h3 : (sy + 1) * m.imageWidth = sy * m.imageWidth + m.imageWidth := by ring
  have h4 : m.imageWidth * m.imageHeight = m.imageHeight * m.imageWidth := mul_comm _ _
  refine ⟨hsx.1, hsx.2, hsy.1, hsy.2, ?_, ?_⟩
  · omega
  · rw [h4]
    omega

/-- Witness of C29 on a 3 x 2 image with mirror and half vertical mirror set,
at the pixel `(2, 1)`. -/
theorem geometric_remap_stays_inside_image_witness :
    (GIFGlitcher.applyGeometricEffects
        { imageWidth := 3, imageHeight := 2,
          currentParams := { mirrorEffect := true, halfMirrorVerticalEffect := true } }
        default 2 1).sourceX < 3
      ∧ (GIFGlitcher.applyGeometricEffects
        { imageWidth := 3, imageHeight := 2,
          currentParams := { mirrorEffect := true, halfMirrorVerticalEffect := true } }
        default 2 1).sourceY < 2 :=
  have h := geometric_remap_stays_inside_image
    { imageWidth := 3, imageHeight := 2,
      currentParams := { mirrorEffect := true, halfMirrorVerticalEffect := true } }
    default 2 1 (by decide) (by decide)
  ⟨h.2.1, h.2.2.2.1⟩

/-! ## Bit crush -/

/-- Masking a byte with `0xFF << k` clears its low `k` bits. -/
theorem byte_land_mask : ∀ n : Nat, n < 256 → ∀ k : Nat, k < 8 →
    n &&& (255 * 2 ^ k) = n - n % 2 ^ k := by
  set_option maxRecDepth 100000 in decide

/-- The byte `static_cast<int>(v * 255)` of a channel value in `[0, 1]`. -/
theorem channel_byte (v : ℚ) (h0 : 0 ≤ v) (h1 : v ≤ 1) :
    truncToInt (v * 255) = Int.floor (v * 255)
      ∧ ∃ n : Nat, n < 256 ∧ Int.floor (v * 255) = (n : Int) := by
  have hnn : 0 ≤ v * 255 := by positivity
  have hfl0 : 0 ≤ Int.floor (v * 255) := Int.floor_nonneg.mpr hnn
  have hfl1 : Int.floor (v * 255) < 256 := by
    rw [Int.floor_lt]
    push_cast
    linarith
  refine ⟨?_, (Int.floor (v * 255)).toNat, by omega, by omega⟩
  unfold truncToInt
  rw [if_pos hnn]

/-- The masked byte of the bit crush: `x & (0xFF << k) = x - x mod 2^k` for a
byte `x` and `k < 8`. -/
theorem crushed_byte (v : ℚ) (h0 : 0 ≤ v) (h1 : v ≤ 1) (k : Nat) (hk : k < 8) :
    Int.land (truncToInt (v * 255)) (255 * 2 ^ k)
      = Int.floor (v * 255) - Int.floor (v * 255) % 2 ^ k := by
  obtain ⟨htr, n, hn, hfl⟩ := channel_byte v h0 h1
  rw [htr, hfl]
  have hmask : (255 * 2 ^ k : Int) = ((255 * 2 ^ k : Nat) : Int) := by push_cast; rfl
  have hland : Int.land (n : Int) ((255 * 2 ^ k : Nat) : Int) = ((n &&& (255 * 2 ^ k) : Nat) : Int) :=
    rfl
  rw [hmask, hland, byte_land_mask n hn k hk]
  have hle : n % 2 ^ k ≤ n := Nat.mod_le _ _
  push_cast [Nat.cast_sub hle]
  rfl

/-- C21: for every `bitCrush = c` in `(0, 1]` with `k = floor(7 * c)` and every
row whose channel values lie in `[0, 1]`: if `k ≥ 1`, the bit crush replaces
each of `r`, `g`, `b` by `(floor(255 * v) - floor(255 * v) mod 2^k) / 255`, the
byte with its low `k` bits cleared, and keeps the other fields; if `k = 0` the
row is unchanged. -/
theorem bit_crush_clears_low_bits (m : GIFGlitcher) (row : List PixelInfo) (k : Nat)
    (hc0 : 0 < m.currentParams.bitCrush) (hc1 : m.currentParams.bitCrush ≤ 1)
    (hk : (k : Int) = Int.floor (m.currentParams.bitCrush * 7))
    (hrow : ∀ p ∈ row, (0 ≤ p.r ∧ p.r ≤ 1) ∧ (0 ≤ p.g ∧ p.g ≤ 1) ∧ (0 ≤ p.b ∧ p.b ≤ 1)) :
    (1 ≤ k → m.applyBitCrush row
        = row.map (fun p =>
            { p with
              r := ((Int.floor (p.r * 255) - Int.floor (p.r * 255) % 2 ^ k : Int) : ℚ) / 255,
              g := ((Int.floor (p.g * 255) - Int.floor (p.g * 255) % 2 ^ k : Int) : ℚ) / 255,
              b := ((Int.floor (p.b * 255) - Int.floor (p.b * 255) % 2 ^ k : Int) : ℚ) / 255 }))
      ∧ (k = 0 → m.applyBitCrush row = row) := by
  have hpos : m.currentParams.bitCrush > 0 := hc0
  have htrunc : truncToInt (m.currentParams.bitCrush * 7)
      = Int.floor (m.currentParams.bitCrush * 7) := by
    unfold truncToInt
    rw [if_pos (by linarith)]
  have hk8 : k < 8 := by
    have : Int.floor (m.currentParams.bitCrush * 7) < 8 := by
      rw [Int.floor_lt]
      push_cast
      linarith
    omega
  unfold GIFGlitcher.applyBitCrush
  rw [if_pos hpos, htrunc, ← hk]
  simp only
  constructor
  · intro hk1
    have hbits : (8 : Int) - (k : Int) < 8 := by omega
    have hexp : ((8 : Int) - ((8 : Int) - (k : Int))).toNat = k := by omega
    rw [if_pos hbits, hexp]
    apply List.map_congr_left
    intro p hp
    obtain ⟨hr, hg, hb⟩ := hrow p hp
    rw [crushed_byte p.r hr.1 hr.2 k hk8, crushed_byte p.g hg.1 hg.2 k hk8,
      crushed_byte p.b hb.1 hb.2 k hk8]
  · intro hk0
    have hbits : ¬ ((8 : Int) - (k : Int) < 8) := by omega
    rw [if_neg hbits]

/-- Witness of C21 with `bitCrush = 1/2` (`k = 3`) on a pixel with bytes 255,
100 and 7: the bytes become 248, 96 and 0. -/
theorem bit_crush_clears_low_bits_witness :
    GIFGlitcher.applyBitCrush { currentParams := { bitCrush := 1 / 2 } }
        [{ r := 1, g := 100 / 255, b := 7 / 255, a := 1 }]
      = [{ r := 248 / 255, g := 96 / 255, b := 0, a := 1 }] := by
  have h := (bit_crush_clears_low_bits { currentParams := { bitCrush := 1 / 2 } }
    [{ r := 1, g := 100 / 255, b := 7 / 255, a := 1 }] 3 (by norm_num) (by norm_num)
    (by norm_num) (by
      intro p hp
      simp only [List.mem_singleton] at hp
      subst hp
      norm_num)).1 (by decide)
  rw [h]
  norm_num

/-! ## Data shift -/

/-- The 24-bit word packed from three bytes, shifted left by `s ≤ 7` bits in a
32-bit register, and unpacked again. -/
theorem shifted_word_bytes (R G B s : Nat) (hG : G < 256) (hB : B < 256) (hs : s ≤ 7) :
    ((((R * 2 ^ 16 ||| G * 2 ^ 8) ||| B) % 2 ^ 32 * 2 ^ s % 2 ^ 32) / 2 ^ 16) &&& 255
        = R * 2 ^ s % 256 + G / 2 ^ (8 - s)
      ∧ ((((R * 2 ^ 16 ||| G * 2 ^ 8) ||| B) % 2 ^ 32 * 2 ^ s % 2 ^ 32) / 2 ^ 8) &&& 255
        = G * 2 ^ s % 256 + B / 2 ^ (8 - s)
      ∧ (((R * 2 ^ 16 ||| G * 2 ^ 8) ||| B) % 2 ^ 32 * 2 ^ s % 2 ^ 32) &&& 255
        = B * 2 ^ s % 256 := by
  have h1 : R * 2 ^ 16 ||| G * 2 ^ 8 = R * 2 ^ 16 + G * 2 ^ 8 := by
    have h := Nat.mul_add_lt_is_or (show G * 2 ^ 8 < 2 ^ 16 by omega) R
    rw [Nat.mul_comm (2 ^ 16) R] at h
    exact h.symm
  have h2 : (R * 2 ^ 16 + G * 2 ^ 8) ||| B = R * 2 ^ 16 + G * 2 ^ 8 + B := by
    have h := Nat.mul_add_lt_is_or (show B < 2 ^ 8 by omega) (R * 2 ^ 8 + G)
    have e : 2 ^ 8 * (R * 2 ^ 8 + G) = R * 2 ^ 16 + G * 2 ^ 8 := by ring
    rw [e] at h
    exact h.symm
  have hand : ∀ x : Nat, x &&& 255 = x % 256 := fun x => Nat.and_pow_two_sub_one_eq_mod x 8
  rw [h1, h2, hand, hand, hand]
  interval_cases s <;> simp only [Nat.reducePow, Nat.reduceSub] <;> omega

/-- The packing, shift and unpacking of `dataShiftPixel` on a pixel whose
channel bytes are `R`, `G`, `B`. -/
theorem dataShiftPixel_bytes (p : PixelInfo) (R G B s : Nat)
    (hr : truncToInt (p.r * 255) = (R : Int)) (hg : truncToInt (p.g * 255) = (G : Int))
    (hb : truncToInt (p.b * 255) = (B : Int)) (hG : G < 256) (hB : B < 256) (hs : s ≤ 7) :
    GIFGlitcher.dataShiftPixel (s : Int) p
      = { p with r := ((R * 2 ^ s % 256 + G / 2 ^ (8 - s) : Nat) : ℚ) / 255,
                 g := ((G * 2 ^ s % 256 + B / 2 ^ (8 - s) : Nat) : ℚ) / 255,
                 b := ((B * 2 ^ s % 256 : Nat) : ℚ) / 255 } := by
  obtain ⟨h1, h2, h3⟩ := shifted_word_bytes R G B s hG hB hs
  have hword : ((Int.lor (Int.lor ((R : Int) * 2 ^ 16) ((G : Int) * 2 ^ 8)) (B : Int)) % 2 ^ 32
        * 2 ^ (s : Int).toNat) % 2 ^ 32
      = ((((R * 2 ^ 16 ||| G * 2 ^ 8) ||| B) % 2 ^ 32 * 2 ^ s % 2 ^ 32 : Nat) : Int) := by
    have e1 : (R : Int) * 2 ^ 16 = ((R * 2 ^ 16 : Nat) : Int) := by push_cast; rfl
    have e2 : (G : Int) * 2 ^ 8 = ((G * 2 ^ 8 : Nat) : Int) := by push_cast; rfl
    have e3 : ∀ a b : Nat, Int.lor (a : Int) (b : Int) = ((a ||| b : Nat) : Int) :=
      fun _ _ => rfl
    rw [e1, e2, e3, e3, Int.toNat_natCast]
    push_cast
    rfl
  have hland : ∀ a : Nat, Int.land (a : Int) 255 = ((a &&& 255 : Nat) : Int) := fun _ => rfl
  have hdiv : ∀ (a : Nat) (k : Nat), ((a : Nat) : Int) / 2 ^ k = ((a / 2 ^ k : Nat) : Int) := by
    intro a k
    push_cast
    rfl
  unfold GIFGlitcher.dataShiftPixel
  simp only [hr, hg, hb, hword, hdiv, hland, h1, h2, h3, Int.cast_natCast]

/-- The data-shift loop, pointwise: column `n` of a row of the image width
is shifted exactly when the draw of its 32-pixel block `n / 32` triggers; one
random number is drawn per block. -/
theorem applyDataShift_pointwise (m : GIFGlitcher) (ext : Externals) (row : List PixelInfo)
    (rng : Nat) (hd : 0 < m.currentParams.dataShift)
    (hlen : (row.length : Int) = m.imageWidth) (n : Nat) :
    (m.applyDataShift ext row rng).1[n]?
      = row[n]?.map (fun p =>
          if ext.uniform (rng + n / 32) < m.currentParams.dataShift * (1 / 10) then
            GIFGlitcher.dataShiftPixel (truncToInt (m.currentParams.dataShift * 7)) p
          else p) := by
  have hpos : m.currentParams.dataShift > 0 := hd
  unfold GIFGlitcher.applyDataShift
  rw [if_pos hpos]
  simp only
  rw [← hlen]
  unfold strideRange
  rw [List.foldl_map]
  have hinv := foldl_range_invariant
    (fun k (st : List PixelInfo × Nat) =>
      st.2 = rng + k ∧ ∀ i, st.1[i]? =
        if i < k * 32 then
          row[i]?.map (fun p =>
            if ext.uniform (rng + i / 32) < m.currentParams.dataShift * (1 / 10) then
              GIFGlitcher.dataShiftPixel (truncToInt (m.currentParams.dataShift * 7)) p
            else p)
        else row[i]?)
    (fun (st : List PixelInfo × Nat) (k : Nat) =>
      if ext.uniform st.2 < m.currentParams.dataShift * (1 / 10) then
        ((intRange (min 32 ((row.length : Int) - Int.ofNat k * 32))).foldl
          (fun buf bx => modifyAt buf (Int.ofNat k * 32 + bx)
            (GIFGlitcher.dataShiftPixel (truncToInt (m.currentParams.dataShift * 7))))
          st.1, st.2 + 1)
      else (st.1, st.2 + 1))
    (((row.length : Int) + 32 - 1) / 32).toNat ?_ (row, rng) ?_
  · have hfin := hinv.2 n
    by_cases hn : n < row.length
    · have hlt : n < (((row.length : Int) + 32 - 1) / 32).toNat * 32 := by omega
      rw [if_pos hlt] at hfin
      exact hfin
    · have hnone : row[n]? = none := List.getElem?_eq_none_iff.mpr (by omega)
      rw [hnone] at hfin
      simp only [Option.map_none', ite_self] at hfin
      rw [hnone]
      exact hfin
  · intro k st hk hP
    obtain ⟨hrng, hbuf⟩ := hP
    have hx : k * 32 < row.length := by omega
    have hidx : Int.ofNat k * 32 = ((k * 32 : Nat) : Int) := by
      simp only [Int.ofNat_eq_coe]
      push_cast
      rfl
    have hcn : min (32 : Int) ((row.length : Int) - ((k * 32 : Nat) : Int))
        = ((min 32 (row.length - k * 32) : Nat) : Int) := by omega
    have hkeep : ∀ i, k * 32 ≤ i → st.1[i]? = row[i]? := by
      intro i hi
      rw [hbuf i, if_neg (by omega)]
    simp only [hidx, hcn, hrng]
    by_cases htrig : ext.uniform (rng + k) < m.currentParams.dataShift * (1 / 10)
    · rw [if_pos htrig]
      refine ⟨by omega, ?_⟩
      intro i
      show (List.foldl _ st.1 _)[i]? = _
      rw [foldl_modifyAt_block]
      by_cases ha : k * 32 ≤ i ∧ i < k * 32 + min 32 (row.length - k * 32)
      · have hdiv : i / 32 = k := by omega
        rw [if_pos ha, if_pos (by omega), hkeep i ha.1, hdiv]
        simp only [if_pos htrig]
      · rw [if_neg ha]
        by_cases hb : i < k * 32
        · rw [if_pos (by omega), hbuf i, if_pos hb]
        · rw [hkeep i (by omega)]
          by_cases hlt : i < (k + 1) * 32
          · have hnone : row[i]? = none := List.getElem?_eq_none_iff.mpr (by omega)
            rw [if_pos hlt, hnone]
            rfl
          · rw [if_neg hlt]
    · rw [if_neg htrig]
      refine ⟨by omega, ?_⟩
      intro i
      show st.1[i]? = _
      by_cases hb : i < k * 32
      · rw [if_pos (by omega), hbuf i, if_pos hb]
      · rw [hkeep i (by omega)]
        by_cases hlt : i < (k + 1) * 32
        · have hdiv : i / 32 = k := by omega
          rw [if_pos hlt, hdiv]
          simp only [if_neg htrig]
          cases row[i]? with
          | none => rfl
          | some p => rfl
        · rw [if_neg hlt]
  · exact ⟨rfl, fun i => by simp⟩

/-- C22: data shift on a triggered block.  For `dataShift` in `(0, 1]` with
`s = floor(7 * dataShift)` (so `s ≤ 7`), a row of the image width and a pixel
at column `n` whose channels lie in `[0, 1]`, with bytes
`R, G, B = floor(255 * channel)`: when the draw of the 32-pixel block of `n`
triggers, the new channels are the bytes `R' = (R * 2^s mod 256) + G / 2^(8-s)`,
`G' = (G * 2^s mod 256) + B / 2^(8-s)` and `B' = B * 2^s mod 256`, each divided
by 255, and the other fields are kept; the low `s` bits of `B'` are zero, so
the bits shifted out of `R` do not wrap into `B`. -/
theorem data_shift_rolls_bytes_left (m : GIFGlitcher) (ext : Externals)
    (row : List PixelInfo) (rng s n : Nat) (p : PixelInfo)
    (hd0 : 0 < m.currentParams.dataShift) (hd1 : m.currentParams.dataShift ≤ 1)
    (hs : (s : Int) = Int.floor (m.currentParams.dataShift * 7))
    (hlen : (row.length : Int) = m.imageWidth) (hp : row[n]? = some p)
    (hchan : (0 ≤ p.r ∧ p.r ≤ 1) ∧ (0 ≤ p.g ∧ p.g ≤ 1) ∧ (0 ≤ p.b ∧ p.b ≤ 1))
    (htrig : ext.uniform (rng + n / 32) < m.currentParams.dataShift * (1 / 10)) :
    s ≤ 7
      ∧ (m.applyDataShift ext row rng).1[n]?
        = some { p with
            r := ((Int.floor (p.r * 255) * 2 ^ s % 256
                    + Int.floor (p.g * 255) / 2 ^ (8 - s) : Int) : ℚ) / 255,
            g := ((Int.floor (p.g * 255) * 2 ^ s % 256
                    + Int.floor (p.b * 255) / 2 ^ (8 - s) : Int) : ℚ) / 255,
            b := ((Int.floor (p.b * 255) * 2 ^ s % 256 : Int) : ℚ) / 255 }
      ∧ (Int.floor (p.b * 255) * 2 ^ s % 256) % 2 ^ s = 0 := by
  have htrunc : truncToInt (m.currentParams.dataShift * 7) = (s : Int) := by
    unfold truncToInt
    rw [if_pos (by linarith), hs]
  have hs7 : s ≤ 7 := by
    have : Int.floor (m.currentParams.dataShift * 7) < 8 := by
      rw [Int.floor_lt]
      push_cast
      linarith
    omega
  obtain ⟨hr, R, hR, hRfl⟩ := channel_byte p.r hchan.1.1 hchan.1.2
  obtain ⟨hg, G, hG, hGfl⟩ := channel_byte p.g hchan.2.1.1 hchan.2.1.2
  obtain ⟨hb, B, hB, hBfl⟩ := channel_byte p.b hchan.2.2.1 hchan.2.2.2
  refine ⟨hs7, ?_, ?_⟩
  · rw [applyDataShift_pointwise m ext row rng hd0 hlen n, hp, Option.map_some', if_pos htrig,
      htrunc, dataShiftPixel_bytes p R G B s (hr.trans hRfl) (hg.trans hGfl) (hb.trans hBfl)
        hG hB hs7, hRfl, hGfl, hBfl]
    have c1 : ∀ a : Nat,
        (((a : Int) * 2 ^ s % 256 : Int) : ℚ) = ((a * 2 ^ s % 256 : Nat) : ℚ) := by
      intro a
      norm_cast
    have c2 : ∀ a : Nat,
        (((a : Int) / 2 ^ (8 - s) : Int) : ℚ) = ((a / 2 ^ (8 - s) : Nat) : ℚ) := by
      intro a
      norm_cast
    simp only [Int.cast_add, Nat.cast_add, c1, c2]
  · rw [hBfl]
    interval_cases s <;> simp only [Int.reducePow] <;> omega

/-- Witness of C22 with `dataShift = 1/2` (`s = 3`) and a generator that
always triggers, on the pixel with bytes 255, 100, 7: the bytes become
`(255*8 mod 256) + 100/32 = 251`, `(100*8 mod 256) + 7/32 = 32` and
`7*8 mod 256 = 56`. -/
theorem data_shift_rolls_bytes_left_witness :
    (GIFGlitcher.applyDataShift { imageWidth := 1, currentParams := { dataShift := 1 / 2 } }
        quietExternals [{ r := 1, g := 100 / 255, b := 7 / 255, a := 1 }] 0).1[0]?
      = some { r := 251 / 255, g := 32 / 255, b := 56 / 255, a := 1 } := by
  have h := (data_shift_rolls_bytes_left
    { imageWidth := 1, currentParams := { dataShift := 1 / 2 } } quietExternals
    [{ r := 1, g := 100 / 255, b := 7 / 255, a := 1 }] 0 3 0
    { r := 1, g := 100 / 255, b := 7 / 255, a := 1 } (by norm_num) (by norm_num)
    (by norm_num) rfl rfl (by norm_num) (by norm_num [quietExternals])).2.1
  rw [h]
  norm_num

/-! ## Loading an animation: the frames of an accepted load -/

/-- When `loadGif` returns true, the stored frames are the frames of the frame
loop, run on a state that carries the dimensions of the decoded file. -/
theorem loadGif_frames_of_true (m : GIFGlitcher) (ext : Externals) (path : String)
    (htrue : (m.loadGif ext path).2 = true) :
    ∃ opened gif, ∃ m' : GIFGlitcher, ext.DGifOpenFileName path = some opened
      ∧ ext.DGifSlurp opened = some gif
      ∧ 1 ≤ gif.SWidth ∧ gif.SWidth ≤ 4096 ∧ 1 ≤ gif.SHeight ∧ gif.SHeight ≤ 4096
      ∧ 1 ≤ gif.ImageCount
      ∧ m'.imageWidth = gif.SWidth ∧ m'.imageHeight = gif.SHeight
      ∧ (m.loadGif ext path).1.gifFrames = (m'.loadFrames ext gif).2.2 := by
  obtain ⟨hempty, hnoctx, hnoopen, hnoslurp, hdecoded⟩ := loadGif_cases m ext path
  have hfalse : ∀ s : GIFGlitcher, m.loadGif ext path = (s, false) →
      ¬ (m.loadGif ext path).2 = true := by
    intro s hs h
    rw [hs] at h
    exact Bool.noConfusion h
  cases hp : path.isEmpty with
  | true => exact absurd htrue (hfalse _ (hempty hp))
  | false =>
    cases hv : m.vg with
    | none => exact absurd htrue (hfalse _ (hnoctx hp hv))
    | some c =>
      have hsome : m.vg.isSome = true := by rw [hv]; rfl
      cases hopen : ext.DGifOpenFileName path with
      | none => exact absurd htrue (hfalse _ (hnoopen hp hsome hopen))
      | some opened =>
        cases hslurp : ext.DGifSlurp opened with
        | none => exact absurd htrue (hfalse _ (hnoslurp opened hp hsome hopen hslurp))
        | some gif =>
          have heq := hdecoded opened gif hp hsome hopen hslurp
          rw [heq] at htrue ⊢
          generalize ({ m with imagePath := path,
                               decodeLog := m.decodeLog ++ [path] } : GIFGlitcher) = m0
            at htrue ⊢
          unfold GIFGlitcher.loadDecoded at htrue ⊢
          by_cases hdim : gif.SWidth ≤ 0 ∨ gif.SHeight ≤ 0 ∨ gif.SWidth > 4096
              ∨ gif.SHeight > 4096
          · rw [if_pos hdim] at htrue
            exact Bool.noConfusion htrue
          · rw [if_neg hdim] at htrue ⊢
            dsimp only at htrue ⊢
            by_cases hcount : gif.ImageCount ≤ 0
            · rw [if_pos hcount] at htrue
              exact Bool.noConfusion htrue
            · rw [if_neg hcount]
              have hlen := loadFrames_length (m0.resetFrameStore gif) ext gif
              have hne : ((m0.resetFrameStore gif).loadFrames ext gif).2.2 ≠ [] := by
                intro h
                rw [h] at hlen
                simp at hlen
                omega
              obtain ⟨_, h2, _⟩ :=
                installFrames_of_ne_nil (m0.resetFrameStore gif) ext path _ hne
              obtain ⟨r1, r2, _, _⟩ := resetFrameStore_fields m0 gif
              exact ⟨opened, gif, m0.resetFrameStore gif, rfl, hslurp, by omega, by omega,
                by omega, by omega, by omega, r1, r2, h2⟩

/-! ## Loading an animation: frame delays -/

/-- The frame loop stores the delay computed by the delay loop of each image,
in order. -/
theorem loadFrames_delays (m : GIFGlitcher) (ext : Externals) (gif : GifFileType) :
    (m.loadFrames ext gif).2.2.map (fun f => f.delay)
      = (List.range gif.ImageCount.toNat).map
          (fun i => GIFGlitcher.frameDelay (readAt gif.SavedImages (Int.ofNat i))) := by
  unfold GIFGlitcher.loadFrames intRange
  simp only
  rw [List.foldl_map]
  exact foldl_range_invariant
    (fun k (st : List Nat × List Nat × List GifFrame) =>
      st.2.2.map (fun f => f.delay)
        = (List.range k).map
            (fun i => GIFGlitcher.frameDelay (readAt gif.SavedImages (Int.ofNat i))))
    (fun st i => m.loadFrame ext gif st (Int.ofNat i)) gif.ImageCount.toNat
    (by
      intro i st _ hP
      show (m.loadFrame ext gif st (Int.ofNat i)).2.2.map (fun f => f.delay) = _
      unfold GIFGlitcher.loadFrame
      simp only [List.map_append, hP, List.range_succ, List.map_cons, List.map_nil])
    (List.replicate (m.imageWidth * m.imageHeight * 4).toNat 0,
      List.replicate (m.imageWidth * m.imageHeight * 4).toNat 0, [])
    rfl

/-- The delay loop of an image: 100 ms without a graphics-control extension;
otherwise ten times the 16-bit centisecond delay `Bytes[2] * 256 + Bytes[1]`
of the first one when that is positive, and 100 ms when it is zero.  In every
case the delay is positive. -/
theorem frameDelay_cases (image : SavedImage) :
    (image.ExtensionBlocks.find? (fun eb => decide (eb.Function = GRAPHICS_EXT_FUNC_CODE))
        = none → GIFGlitcher.frameDelay image = 100)
      ∧ (∀ eb, image.ExtensionBlocks.find?
            (fun eb => decide (eb.Function = GRAPHICS_EXT_FUNC_CODE)) = some eb →
          readByte eb.Bytes 1 < 256 →
          GIFGlitcher.frameDelay image
            = if 0 < readByte eb.Bytes 2 * 256 + readByte eb.Bytes 1
              then 10 * ((readByte eb.Bytes 2 * 256 + readByte eb.Bytes 1 : Nat) : Int)
              else 100)
      ∧ 0 < GIFGlitcher.frameDelay image := by
  unfold GIFGlitcher.frameDelay
  refine ⟨?_, ?_, ?_⟩
  · intro h
    rw [h]
  · intro eb h hb
    rw [h]
    have hor : (readByte eb.Bytes 2 <<< 8) ||| readByte eb.Bytes 1
        = readByte eb.Bytes 2 * 256 + readByte eb.Bytes 1 := by
      have h := Nat.mul_add_lt_is_or (show readByte eb.Bytes 1 < 2 ^ 8 from hb)
        (readByte eb.Bytes 2)
      rw [Nat.shiftLeft_eq, Nat.mul_comm (readByte eb.Bytes 2) (2 ^ 8), ← h]
    simp only [hor]
    by_cases hz : 0 < readByte eb.Bytes 2 * 256 + readByte eb.Bytes 1
    · have hz' :
          (((readByte eb.Bytes 2 * 256 + readByte eb.Bytes 1 : Nat) : Int)) * 10 > 0 := by
        omega
      rw [if_pos hz', if_pos hz]
      ring
    · have hz' :
          ¬ ((((readByte eb.Bytes 2 * 256 + readByte eb.Bytes 1 : Nat) : Int)) * 10 > 0) := by
        omega
      rw [if_neg hz', if_neg hz]
  · split
    · dsimp only
      split
      · assumption
      · decide
    · decide

/-- C25: when `loadGif` returns true it holds exactly one frame per decoded
image, in order, and the delay of frame `i` is the delay of image `i`: ten
times the centisecond delay `Bytes[2] * 256 + Bytes[1]` of its first
graphics-control extension when that value is positive, and the default
100 ms when the value is zero or the image has no graphics-control extension;
every stored frame delay is strictly positive. -/
theorem loadGif_stores_one_frame_per_image_with_positive_delay (m : GIFGlitcher)
    (ext : Externals) (path : String) (htrue : (m.loadGif ext path).2 = true) :
    ∃ opened gif, ext.DGifOpenFileName path = some opened
      ∧ ext.DGifSlurp opened = some gif
      ∧ (m.loadGif ext path).1.gifFrames.length = gif.ImageCount.toNat
      ∧ (∀ i : Nat, i < gif.ImageCount.toNat →
          (((readAt gif.SavedImages (i : Int)).ExtensionBlocks.find?
                (fun eb => decide (eb.Function = GRAPHICS_EXT_FUNC_CODE)) = none →
              ((m.loadGif ext path).1.gifFrames.getD i default).delay = 100)
            ∧ (∀ eb, (readAt gif.SavedImages (i : Int)).ExtensionBlocks.find?
                  (fun eb => decide (eb.Function = GRAPHICS_EXT_FUNC_CODE)) = some eb →
                readByte eb.Bytes 1 < 256 →
                ((m.loadGif ext path).1.gifFrames.getD i default).delay
                  = if 0 < readByte eb.Bytes 2 * 256 + readByte eb.Bytes 1
                    then 10 * ((readByte eb.Bytes 2 * 256 + readByte eb.Bytes 1 : Nat) : Int)
                    else 100)))
      ∧ ∀ f ∈ (m.loadGif ext path).1.gifFrames, 0 < f.delay := by
  obtain ⟨opened, gif, m', hopen, hslurp, _, _, _, _, _, _, _, hframes⟩ :=
    loadGif_frames_of_true m ext path htrue
  have hlen : (m.loadGif ext path).1.gifFrames.length = gif.ImageCount.toNat := by
    rw [hframes]
    exact loadFrames_length m' ext gif
  have hdelays := loadFrames_delays m' ext gif
  rw [← hframes] at hdelays
  have hdelay : ∀ i : Nat, i < gif.ImageCount.toNat →
      ((m.loadGif ext path).1.gifFrames.getD i default).delay
        = GIFGlitcher.frameDelay (readAt gif.SavedImages (i : Int)) := by
    intro i hi
    have h := congrArg (fun l => l[i]?) hdelays
    simp only [List.getElem?_map, List.getElem?_range hi, Option.map_some'] at h
    rw [List.getElem?_eq_getElem (by omega), Option.map_some'] at h
    rw [List.getD_eq_getElem?_getD, List.getElem?_eq_getElem (by omega), Option.getD_some]
    exact Option.some.inj h
  refine ⟨opened, gif, hopen, hslurp, hlen, ?_, ?_⟩
  · intro i hi
    rw [hdelay i hi]
    exact ⟨(frameDelay_cases _).1, (frameDelay_cases _).2.1⟩
  · intro f hf
    obtain ⟨i, hi, hfi⟩ := List.getElem_of_mem hf
    have hi' : i < gif.ImageCount.toNat := by omega
    have h := hdelay i hi'
    rw [List.getD_eq_getElem?_getD, List.getElem?_eq_getElem hi, Option.getD_some, hfi] at h
    rw [h]
    exact (frameDelay_cases _).2.2

/-- Witness of C25 on a two-image animation whose images carry the
centisecond delays 5 and 0: the stored delays are 50 ms and the default
100 ms. -/
theorem loadGif_stores_one_frame_per_image_with_positive_delay_witness :
    (contextModule.loadGif backgroundDisposalExternals "a.gif").1.gifFrames.map
        (fun f => f.delay) = [50, 100]
      ∧ ∀ f ∈ (contextModule.loadGif backgroundDisposalExternals "a.gif").1.gifFrames,
          0 < f.delay := by
  obtain ⟨_, _, _, _, _, _, hpos⟩ :=
    loadGif_stores_one_frame_per_image_with_positive_delay contextModule
      backgroundDisposalExternals "a.gif" (by rfl)
  exact ⟨by rfl, hpos⟩

/-! ## The parameter snapshot stays in range -/

/-- The clamp returns a value between its bounds. -/
theorem clampQ_mem (x a b : ℚ) (hab : a ≤ b) : a ≤ clampQ x a b ∧ clampQ x a b ≤ b := by
  unfold clampQ
  exact ⟨le_max_right _ _, max_le (min_le_right _ _) hab⟩

/-- C26: for every CV voltage and every knob value within the range configured
for it by the constructor, every numeric field of the snapshot derived by
`process` lies within its documented range: brightness, contrast, saturation
and glitchArtifacts in `[0, 2]`, sharpness and glitchBlockSize in `[0, 5]`, and
hueShift, pixelation, edgeDetect, rgbAberration, noise, glitchSlice,
posterize, ditherIntensity, interlaceIntensity, glitchDisplacement, bitCrush,
dataShift and pixelSort in `[0, 1]`. -/
theorem snapshot_fields_lie_in_documented_ranges (params : ParamIds → ℚ)
    (inputs : InputIds → ℚ)
    (hknob : ∀ id, (configParam id).1 ≤ params id ∧ params id ≤ (configParam id).2) :
    (0 ≤ (newParams params inputs).brightness ∧ (newParams params inputs).brightness ≤ 2)
      ∧ (0 ≤ (newParams params inputs).contrast ∧ (newParams params inputs).contrast ≤ 2)
      ∧ (0 ≤ (newParams params inputs).saturation ∧ (newParams params inputs).saturation ≤ 2)
      ∧ (0 ≤ (newParams params inputs).glitchArtifacts
          ∧ (newParams params inputs).glitchArtifacts ≤ 2)
      ∧ (0 ≤ (newParams params inputs).sharpness ∧ (newParams params inputs).sharpness ≤ 5)
      ∧ (0 ≤ (newParams params inputs).glitchBlockSize
          ∧ (newParams params inputs).glitchBlockSize ≤ 5)
      ∧ (0 ≤ (newParams params inputs).hueShift ∧ (newParams params inputs).hueShift ≤ 1)
      ∧ (0 ≤ (newParams params inputs).pixelation ∧ (newParams params inputs).pixelation ≤ 1)
      ∧ (0 ≤ (newParams params inputs).edgeDetect ∧ (newParams params inputs).edgeDetect ≤ 1)
      ∧ (0 ≤ (newParams params inputs).rgbAberration
          ∧ (newParams params inputs).rgbAberration ≤ 1)
      ∧ (0 ≤ (newParams params inputs).noise ∧ (newParams params inputs).noise ≤ 1)
      ∧ (0 ≤ (newParams params inputs).glitchSlice ∧ (newParams params inputs).glitchSlice ≤ 1)
      ∧ (0 ≤ (newParams params inputs).posterize ∧ (newParams params inputs).posterize ≤ 1)
      ∧ (0 ≤ (newParams params inputs).ditherIntensity
          ∧ (newParams params inputs).ditherIntensity ≤ 1)
      ∧ (0 ≤ (newParams params inputs).interlaceIntensity
          ∧ (newParams params inputs).interlaceIntensity ≤ 1)
      ∧ (0 ≤ (newParams params inputs).glitchDisplacement
          ∧ (newParams params inputs).glitchDisplacement ≤ 1)
      ∧ (0 ≤ (newParams params inputs).bitCrush ∧ (newParams params inputs).bitCrush ≤ 1)
      ∧ (0 ≤ (newParams params inputs).dataShift ∧ (newParams params inputs).dataShift ≤ 1)
      ∧ (0 ≤ (newParams params inputs).pixelSort ∧ (newParams params inputs).pixelSort ≤ 1) := by
  have h1 : ∀ x : ℚ, 0 ≤ clampQ x 0 1 ∧ clampQ x 0 1 ≤ 1 :=
    fun x => clampQ_mem x 0 1 (by norm_num)
  have h2 : ∀ x : ℚ, 0 ≤ clampQ x 0 2 ∧ clampQ x 0 2 ≤ 2 :=
    fun x => clampQ_mem x 0 2 (by norm_num)
  have h5 : ∀ x : ℚ, 0 ≤ clampQ x 0 5 ∧ clampQ x 0 5 ≤ 5 :=
    fun x => clampQ_mem x 0 5 (by norm_num)
  exact ⟨h2 _, h2 _, h2 _, h2 _, h5 _, hknob ParamIds.GLITCH_BLOCK_SIZE_PARAM, h1 _, h1 _, h1 _,
    h1 _, h1 _, h1 _, h1 _, hknob ParamIds.DITHER_INTENSITY_PARAM,
    hknob ParamIds.INTERLACE_INTENSITY_PARAM, h1 _, h1 _, h1 _, h1 _⟩

/-- Witness of C26: all knobs at 1 (inside every configured range) and 10 V on
every input; the brightness `1 + 10/10 = 2` is the upper bound and the bit
crush `1 + 1` is clamped to 1. -/
theorem snapshot_fields_lie_in_documented_ranges_witness :
    (newParams (fun _ => 1) (fun _ => 10)).brightness ≤ 2
      ∧ (newParams (fun _ => 1) (fun _ => 10)).bitCrush ≤ 1 :=
  have h := snapshot_fields_lie_in_documented_ranges (fun _ => 1) (fun _ => 10)
    (by intro id; cases id <;> norm_num [configParam])
  ⟨h.1.2, h.2.2.2.2.2.2.2.2.2.2.2.2.2.2.2.2.1.2⟩

/-! ## The frame loop on malformed or unusual files -/

/-- Evaluation for C23: in the animation `backgroundDisposalGif`, image 0 has
the disposal method restore-to-background and covers the canvas, and image 1
draws only the pixel `(0, 0)`.  The load is accepted, and in the snapshot of
frame 1 the pixel `(1, 0)`, which lies in the rectangle of image 0 and is not
drawn by image 1, still holds the colour of image 0 with alpha 255: the
rectangle of image 0 was not cleared. -/
theorem background_disposal_of_previous_frame_is_not_applied :
    (contextModule.loadGif backgroundDisposalExternals "a.gif").2 = true
      ∧ (GIFGlitcher.gifControl (readAt backgroundDisposalGif.SavedImages 0)).2
          = DISPOSE_BACKGROUND
      ∧ ((contextModule.loadGif backgroundDisposalExternals "a.gif").1.gifFrames.getD 0
            default).data = [10, 20, 30, 255, 10, 20, 30, 255]
      ∧ ((contextModule.loadGif backgroundDisposalExternals "a.gif").1.gifFrames.getD 1
            default).data = [40, 50, 60, 255, 10, 20, 30, 255] := by
  refine ⟨by rfl, by rfl, by rfl, by rfl⟩

/-- Evaluation for C28: the decoded 1 x 1 animation `wideImageGif` is accepted
by `loadGif` (its canvas is valid and it has one image), and compositing its
2-pixel-wide image assigns the canvas indices 0 to 7, of which 4 to 7 are not
below the canvas size `1 * 1 * 4`. -/
theorem compositing_writes_past_canvas_for_wide_image :
    (contextModule.loadGif wideImageExternals "a.gif").2 = true
      ∧ (contextModule.loadGif wideImageExternals "a.gif").1.imageWidth = 1
      ∧ (contextModule.loadGif wideImageExternals "a.gif").1.imageHeight = 1
      ∧ drawFrameWrites 1 (readAt wideImageGif.SavedImages 0)
          (GIFGlitcher.gifControl (readAt wideImageGif.SavedImages 0)).1
          = [0, 1, 2, 3, 4, 5, 6, 7]
      ∧ ¬ ((7 : Int) < 1 * 1 * 4) := by
  refine ⟨by rfl, by rfl, by rfl, by rfl, by decide⟩

/-- Evaluation for C27: a module in PingPong mode whose direction flag is
still set from an earlier animation loads a two-frame animation, which puts
`currentFrame` at 0 and leaves the flag set.  In that state (`currentFrame = 0`
is below the frame count 2) one advance decrements the unsigned index to
`2^64 - 1`, which is not below the frame count. -/
theorem ping_pong_reverse_at_zero_leaves_the_frame_range :
    (reversedPingPongModule.loadGif backgroundDisposalExternals "a.gif").2 = true
      ∧ (reversedPingPongModule.loadGif backgroundDisposalExternals "a.gif").1.gifFrames.length
          = 2
      ∧ (reversedPingPongModule.loadGif backgroundDisposalExternals "a.gif").1.currentFrame = 0
      ∧ (reversedPingPongModule.loadGif backgroundDisposalExternals "a.gif").1.playbackMode
          = PlaybackMode.PING_PONG
      ∧ (reversedPingPongModule.loadGif backgroundDisposalExternals "a.gif").1.playbackReverse
          = true
      ∧ ((reversedPingPongModule.loadGif backgroundDisposalExternals "a.gif").1.advanceFrame
          backgroundDisposalExternals 0).1 = 2 ^ 64 - 1
      ∧ ¬ (((reversedPingPongModule.loadGif backgroundDisposalExternals "a.gif").1.advanceFrame
          backgroundDisposalExternals 0).1 < 2) := by
  have h : (reversedPingPongModule.loadGif backgroundDisposalExternals "a.gif").1.advanceFrame
      backgroundDisposalExternals 0 = (2 ^ 64 - 1, true, 0) := by rfl
  refine ⟨by rfl, by rfl, by rfl, by rfl, by rfl, ?_, ?_⟩
  · rw [h]
  · rw [h]
    decide

/-! ## Edge detection -/

/-- The square root `exactSqrt` is exact on squares. -/
theorem exactSqrt_mul_self (q : ℚ) : exactSqrt (q * q) = |q| := by
  unfold exactSqrt
  rw [Rat.mul_self_num, Rat.mul_self_den, Int.natAbs_mul, Nat.sqrt_eq, Nat.sqrt_eq]
  have hden : |(q.den : ℚ)| = (q.den : ℚ) := abs_of_nonneg (Nat.cast_nonneg q.den)
  have hq : |q| = |(q.num : ℚ)| / (q.den : ℚ) := by
    conv_lhs => rw [← Rat.num_div_den q]
    rw [abs_div, hden]
  have hnum : ((q.num.natAbs : Nat) : ℚ) = |(q.num : ℚ)| := by
    have hz : ((q.num.natAbs : Nat) : Int) = |q.num| := Int.natCast_natAbs q.num
    have hc := congrArg (fun z : Int => (z : ℚ)) hz
    simp only [Int.cast_natCast, Int.cast_abs] at hc
    exact hc
  rw [hq, hnum]

/-- With edge detection alone, `applyKernelEffects` on an interior row
replaces `r`, `g`, `b` of an interior column `n` by the value `edge` computed
from the row itself. -/
theorem applyKernelEffects_edge_interior (m : GIFGlitcher) (ext : Externals)
    (row : List PixelInfo) (y : Int) (he : 0 < m.currentParams.edgeDetect)
    (hs : m.currentParams.sharpness ≤ 0) (hsqrt : ∀ q : ℚ, ext.sqrt (q * q) = |q|)
    (hy : 0 < y ∧ y < m.imageHeight - 1) (n : Nat) (h1 : 1 ≤ n)
    (h2 : (n : Int) < m.imageWidth - 1) :
    (m.applyKernelEffects ext row y)[n]?
      = row[n]?.map (fun p =>
          { p with
            r := 3 * |avgBrightness (readAt row ((n : Int) + 1))
                    - avgBrightness (readAt row ((n : Int) - 1))| * m.currentParams.edgeDetect,
            g := 3 * |avgBrightness (readAt row ((n : Int) + 1))
                    - avgBrightness (readAt row ((n : Int) - 1))| * m.currentParams.edgeDetect,
            b := 3 * |avgBrightness (readAt row ((n : Int) + 1))
                    - avgBrightness (readAt row ((n : Int) - 1))|
                  * m.currentParams.edgeDetect }) := by
  have hed : m.currentParams.edgeDetect > 0 := he
  have hsh : ¬ (m.currentParams.sharpness > 0) := not_lt.mpr hs
  unfold GIFGlitcher.applyKernelEffects
  rw [if_neg (fun h => absurd h.1 (not_le.mpr he))]
  rw [foldl_pointwise _ _ n _ (nodup_intRangeFrom _ _) ?_ ?_ row,
    if_pos ((mem_intRangeFrom _ _ _).mpr ⟨by omega, h2⟩)]
  · intro buf x _ hne
    simp only [if_pos hed, if_neg hsh]
    exact getElem?_modifyAt_ne _ _ _ _ hne
  · intro buf _
    have c1 : ∀ i : Int, (i = -1 ∨ i = 0 ∨ i = 1) →
        ((n : Int) + -1 ≥ 0 ∧ (n : Int) + -1 < m.imageWidth ∧ y + i ≥ 0
          ∧ y + i < m.imageHeight) := by
      intro i hi
      omega
    have c2 : ∀ i : Int, (i = -1 ∨ i = 0 ∨ i = 1) →
        ((n : Int) + 0 ≥ 0 ∧ (n : Int) + 0 < m.imageWidth ∧ y + i ≥ 0
          ∧ y + i < m.imageHeight) := by
      intro i hi
      omega
    have c3 : ∀ i : Int, (i = -1 ∨ i = 0 ∨ i = 1) →
        ((n : Int) + 1 ≥ 0 ∧ (n : Int) + 1 < m.imageWidth ∧ y + i ≥ 0
          ∧ y + i < m.imageHeight) := by
      intro i hi
      omega
    simp only [if_pos hed, if_neg hsh, List.foldl_cons, List.foldl_nil,
      if_pos (c1 (-1) (Or.inl rfl)), if_pos (c1 0 (Or.inr (Or.inl rfl))),
      if_pos (c1 1 (Or.inr (Or.inr rfl))),
      if_pos (c2 (-1) (Or.inl rfl)), if_pos (c2 0 (Or.inr (Or.inl rfl))),
      if_pos (c2 1 (Or.inr (Or.inr rfl))),
      if_pos (c3 (-1) (Or.inl rfl)), if_pos (c3 0 (Or.inr (Or.inl rfl))),
      if_pos (c3 1 (Or.inr (Or.inr rfl)))]
    rw [getElem?_modifyAt_self]
    congr 1
    funext p
    have e1 : (n : Int) + -1 = (n : Int) - 1 := by ring
    simp only [avgBrightness, e1, add_zero]
    generalize ((readAt row ((n : Int) - 1)).r + (readAt row ((n : Int) - 1)).g
      + (readAt row ((n : Int) - 1)).b) / 3 = a
    generalize ((readAt row (n : Int)).r + (readAt row (n : Int)).g
      + (readAt row (n : Int)).b) / 3 = b
    generalize ((readAt row ((n : Int) + 1)).r + (readAt row ((n : Int) + 1)).g
      + (readAt row ((n : Int) + 1)).b) / 3 = c
    have h3 : ext.sqrt ((3 * (c - a)) * (3 * (c - a))) = 3 * |c - a| := by
      rw [hsqrt, abs_mul]
      norm_num
    rw [← h3]
    norm_num
    left
    congr 1
    ring

/-- C30: edge detection uses only the current row.  For `edgeDetect = e > 0`,
`sharpness = 0`, an exact square root, every interior row `0 < y < H - 1` and
every interior column `0 < n < W - 1` of a row of width `W`,
`applyKernelEffects` sets `r = g = b = 3 * |L(n+1) - L(n-1)| * e`, where `L` is
the mean of `r`, `g`, `b` of the pre-stage pixel of the same row; the vertical
gradient term is 0, and the stage receives no other row. -/
theorem edge_detect_is_horizontal_gradient_of_current_row (m : GIFGlitcher)
    (ext : Externals) (row : List PixelInfo) (y : Int) (he : 0 < m.currentParams.edgeDetect)
    (hs : m.currentParams.sharpness = 0) (hsqrt : ∀ q : ℚ, ext.sqrt (q * q) = |q|)
    (hy : 0 < y ∧ y < m.imageHeight - 1) (n : Nat) (h1 : 1 ≤ n)
    (h2 : (n : Int) < m.imageWidth - 1) (hlen : (row.length : Int) = m.imageWidth) :
    readAt (m.applyKernelEffects ext row y) n
      = { readAt row n with
          r := 3 * |avgBrightness (readAt row ((n : Int) + 1))
                  - avgBrightness (readAt row ((n : Int) - 1))| * m.currentParams.edgeDetect,
          g := 3 * |avgBrightness (readAt row ((n : Int) + 1))
                  - avgBrightness (readAt row ((n : Int) - 1))| * m.currentParams.edgeDetect,
          b := 3 * |avgBrightness (readAt row ((n : Int) + 1))
                  - avgBrightness (readAt row ((n : Int) - 1))|
                * m.currentParams.edgeDetect } := by
  have h := applyKernelEffects_edge_interior m ext row y he (le_of_eq hs) hsqrt hy n h1 h2
  have hn : n < row.length := by omega
  have hneg : ¬ ((n : Int) < 0) := by omega
  have hread : ∀ l : List PixelInfo, readAt l (n : Int) = (l[n]?).getD default := by
    intro l
    unfold readAt
    rw [if_neg hneg, Int.toNat_natCast, List.getD_eq_getElem?_getD]
  rw [hread, hread, h, List.getElem?_eq_getElem hn]
  rfl

/-- Witness of C30 on the middle row of a 3 x 3 image with `e = 1/2`: for the
grey row `1/10, 5/10, 7/10` the centre becomes `3 * |7/10 - 1/10| / 2 = 9/10`. -/
theorem edge_detect_is_horizontal_gradient_of_current_row_witness :
    (readAt (edgeModule.applyKernelEffects exactSqrtExternals
        [greyPixel 0 (1 / 10), greyPixel 1 (5 / 10), greyPixel 2 (7 / 10)] 1) (1 : Nat)).r
      = 9 / 10 := by
  rw [edge_detect_is_horizontal_gradient_of_current_row edgeModule exactSqrtExternals
    [greyPixel 0 (1 / 10), greyPixel 1 (5 / 10), greyPixel 2 (7 / 10)] 1
    (by norm_num [edgeModule]) rfl exactSqrt_mul_self (by decide) 1 (le_refl 1) (by decide)
    (by decide)]
  have e0 : Int.toNat 0 = 0 := rfl
  have e2 : Int.toNat 2 = 2 := rfl
  norm_num [readAt, greyPixel, avgBrightness, edgeModule, e0, e2]
  rw [abs_of_pos (by norm_num : (0 : ℚ) < 3 / 5)]
  norm_num

/-! ## Compositing a frame, pointwise -/

/-- Writing the four bytes of pixel `p`: byte `q` of the canvas is replaced
exactly when it belongs to pixel `p`. -/
theorem write4_getElem? (cv : List Nat) (p : Nat) (a0 a1 a2 a3 : Nat) (q : Nat) :
    (writeAt (writeAt (writeAt (writeAt cv ((4 * p : Nat) : Int) a0)
        (((4 * p : Nat) : Int) + 1) a1) (((4 * p : Nat) : Int) + 2) a2)
        (((4 * p : Nat) : Int) + 3) a3)[q]?
      = cv[q]?.map (fun old => if q / 4 = p then [a0, a1, a2, a3].getD (q % 4) 0 else old) := by
  have hw : ∀ (l : List Nat) (j : Nat) (a : Nat),
      writeAt l (((4 * p : Nat) : Int) + (j : Int)) a = l.set (4 * p + j) a := by
    intro l j a
    have hneg : ¬ (((4 * p : Nat) : Int) + (j : Int) < 0) := by omega
    have hto : (((4 * p : Nat) : Int) + (j : Int)).toNat = 4 * p + j := by omega
    unfold writeAt
    rw [if_neg hneg, hto]
  have h0 := hw cv 0 a0
  have h1 := hw (cv.set (4 * p + 0) a0) 1 a1
  have h2 := hw ((cv.set (4 * p + 0) a0).set (4 * p + 1) a1) 2 a2
  have h3 := hw (((cv.set (4 * p + 0) a0).set (4 * p + 1) a1).set (4 * p + 2) a2) 3 a3
  simp only [Nat.cast_zero, add_zero, Nat.cast_one, Nat.cast_ofNat] at h0 h1 h2 h3
  rw [h0, h1, h2, h3]
  simp only [List.getElem?_set, List.length_set]
  by_cases hq : q < cv.length
  · rw [List.getElem?_eq_getElem hq, Option.map_some']
    by_cases hp : q / 4 = p
    · rw [if_pos hp]
      have hcases : q = 4 * p ∨ q = 4 * p + 1 ∨ q = 4 * p + 2 ∨ q = 4 * p + 3 := by omega
      rcases hcases with h | h | h | h
      · have hm : q % 4 = 0 := by omega
        rw [if_neg (by omega), if_neg (by omega), if_neg (by omega), if_pos (by omega),
          if_pos (by omega), hm]
        rfl
      · have hm : q % 4 = 1 := by omega
        rw [if_neg (by omega), if_neg (by omega), if_pos (by omega), if_pos (by omega), hm]
        rfl
      · have hm : q % 4 = 2 := by omega
        rw [if_neg (by omega), if_pos (by omega), if_pos (by omega), hm]
        rfl
      · have hm : q % 4 = 3 := by omega
        rw [if_pos (by omega), if_pos (by omega), hm]
        rfl
    · rw [if_neg hp, if_neg (by omega), if_neg (by omega), if_neg (by omega),
        if_neg (by omega)]
  · have hnone : cv[q]? = none := List.getElem?_eq_none_iff.mpr (by omega)
    rw [hnone, Option.map_none']
    by_cases c3 : 4 * p + 3 = q
    · rw [if_pos c3, if_neg (by omega)]
    · rw [if_neg c3]
      by_cases c2 : 4 * p + 2 = q
      · rw [if_pos c2, if_neg (by omega)]
      · rw [if_neg c2]
        by_cases c1 : 4 * p + 1 = q
        · rw [if_pos c1, if_neg (by omega)]
        · rw [if_neg c1]
          by_cases c0 : 4 * p = q
          · rw [if_pos c0, if_neg (by omega)]
          · rw [if_neg c0]

/-- A byte position lies in row `k` of a rectangle that fits into the canvas
width exactly when its pixel has that row and a column of the rectangle. -/
theorem rect_row_iff (Wn L Wd k T P : Nat) (hWn : 0 < Wn) (hfit : L + Wd ≤ Wn) :
    ((k + T) * Wn + L ≤ P ∧ P < (k + T) * Wn + L + Wd)
      ↔ (P / Wn = k + T ∧ L ≤ P % Wn ∧ P % Wn < L + Wd) := by
  have hdm := Nat.div_add_mod P Wn
  have hmod := Nat.mod_lt P hWn
  constructor
  · rintro ⟨h1, h2⟩
    have hsucc : (k + T + 1) * Wn = (k + T) * Wn + Wn := Nat.succ_mul _ _
    have hdiv : P / Wn = k + T := Nat.div_eq_of_lt_le (by omega) (by omega)
    rw [hdiv, Nat.mul_comm] at hdm
    exact ⟨hdiv, by omega, by omega⟩
  · rintro ⟨h1, h2, h3⟩
    rw [h1, Nat.mul_comm] at hdm
    constructor <;> omega

/-- The offset of a byte position inside row `k` of the rectangle. -/
theorem rect_row_offset (Wn L k T P : Nat) (hdiv : P / Wn = k + T) :
    P - ((k + T) * Wn + L) = P % Wn - L := by
  have hdm := Nat.div_add_mod P Wn
  rw [hdiv, Nat.mul_comm] at hdm
  omega

/-- Two nested loops that paint the pixels of a rectangle which fits into the
canvas width: pixel `(x, y)` of the rectangle, with source index
`s = y * Wd + x`, is written (four bytes) when `wr s` holds.  Byte `q` of the
result is a painted value exactly when its pixel lies in the rectangle and was
written. -/
theorem paintRect_getElem? (Wn L T Wd Ht : Nat) (hWn : 0 < Wn) (hfit : L + Wd ≤ Wn)
    (wr : Nat → Prop) [DecidablePred wr] (v0 v1 v2 v3 : Nat → Nat) (cv : List Nat) (q : Nat) :
    ((List.range Ht).foldl
        (fun cv y =>
          (List.range Wd).foldl
            (fun cv x =>
              if wr (y * Wd + x) then
                writeAt (writeAt (writeAt (writeAt cv
                  ((4 * ((y + T) * Wn + L + x) : Nat) : Int) (v0 (y * Wd + x)))
                  (((4 * ((y + T) * Wn + L + x) : Nat) : Int) + 1) (v1 (y * Wd + x)))
                  (((4 * ((y + T) * Wn + L + x) : Nat) : Int) + 2) (v2 (y * Wd + x)))
                  (((4 * ((y + T) * Wn + L + x) : Nat) : Int) + 3) (v3 (y * Wd + x))
              else cv)
            cv)
        cv)[q]?
      = cv[q]?.map (fun old =>
          if (T ≤ q / 4 / Wn ∧ q / 4 / Wn < T + Ht ∧ L ≤ q / 4 % Wn ∧ q / 4 % Wn < L + Wd)
              ∧ wr ((q / 4 / Wn - T) * Wd + (q / 4 % Wn - L))
          then
            [v0 ((q / 4 / Wn - T) * Wd + (q / 4 % Wn - L)),
             v1 ((q / 4 / Wn - T) * Wd + (q / 4 % Wn - L)),
             v2 ((q / 4 / Wn - T) * Wd + (q / 4 % Wn - L)),
             v3 ((q / 4 / Wn - T) * Wd + (q / 4 % Wn - L))].getD (q % 4) 0
          else old) := by
  rw [foldl_range_getElem? _ Ht
    (fun k i => cv[i]?.map (fun old =>
      if (T ≤ i / 4 / Wn ∧ i / 4 / Wn < T + k ∧ L ≤ i / 4 % Wn ∧ i / 4 % Wn < L + Wd)
          ∧ wr ((i / 4 / Wn - T) * Wd + (i / 4 % Wn - L))
      then
        [v0 ((i / 4 / Wn - T) * Wd + (i / 4 % Wn - L)),
         v1 ((i / 4 / Wn - T) * Wd + (i / 4 % Wn - L)),
         v2 ((i / 4 / Wn - T) * Wd + (i / 4 % Wn - L)),
         v3 ((i / 4 / Wn - T) * Wd + (i / 4 % Wn - L))].getD (i % 4) 0
      else old)) cv ?_ ?_ q]
  · intro k buf hk hbuf
    beta_reduce at hbuf
    intro i
    beta_reduce
    rw [foldl_range_getElem? _ Wd
      (fun j i => buf[i]?.map (fun old =>
        if ((k + T) * Wn + L ≤ i / 4 ∧ i / 4 < (k + T) * Wn + L + j)
            ∧ wr (k * Wd + (i / 4 - ((k + T) * Wn + L)))
        then
          [v0 (k * Wd + (i / 4 - ((k + T) * Wn + L))),
           v1 (k * Wd + (i / 4 - ((k + T) * Wn + L))),
           v2 (k * Wd + (i / 4 - ((k + T) * Wn + L))),
           v3 (k * Wd + (i / 4 - ((k + T) * Wn + L)))].getD (i % 4) 0
        else old)) buf ?_ ?_ i]
    · rw [hbuf i]
      cases cv[i]? with
      | none => rfl
      | some old =>
        simp only [Option.map_some']
        congr 1
        by_cases hrow : (k + T) * Wn + L ≤ i / 4 ∧ i / 4 < (k + T) * Wn + L + Wd
        · obtain ⟨hdiv, hpx1, hpx2⟩ := (rect_row_iff Wn L Wd k T (i / 4) hWn hfit).mp hrow
          have hoff := rect_row_offset Wn L k T (i / 4) hdiv
          have hsub : i / 4 / Wn - T = k := by omega
          have hnot : ¬ (T ≤ i / 4 / Wn ∧ i / 4 / Wn < T + k ∧ L ≤ i / 4 % Wn
              ∧ i / 4 % Wn < L + Wd) := by omega
          have hyes : T ≤ i / 4 / Wn ∧ i / 4 / Wn < T + (k + 1) ∧ L ≤ i / 4 % Wn
              ∧ i / 4 % Wn < L + Wd := by omega
          simp only [hrow, hnot, hyes, hoff, hsub, true_and, false_and, if_false]
          split_ifs with g1 g2 <;> first | rfl | exact absurd g2.2 g1
        · have hne : ¬ (i / 4 / Wn = k + T ∧ L ≤ i / 4 % Wn ∧ i / 4 % Wn < L + Wd) :=
            fun h => hrow ((rect_row_iff Wn L Wd k T (i / 4) hWn hfit).mpr h)
          have hiff : (T ≤ i / 4 / Wn ∧ i / 4 / Wn < T + (k + 1) ∧ L ≤ i / 4 % Wn
                ∧ i / 4 % Wn < L + Wd)
              ↔ (T ≤ i / 4 / Wn ∧ i / 4 / Wn < T + k ∧ L ≤ i / 4 % Wn
                ∧ i / 4 % Wn < L + Wd) := by
            constructor
            · rintro ⟨a, b, c, d⟩
              refine ⟨a, ?_, c, d⟩
              by_contra hcon
              exact hne ⟨by omega, c, d⟩
            · rintro ⟨a, b, c, d⟩
              exact ⟨a, by omega, c, d⟩
          simp only [hrow, false_and, if_false, hiff]
    · intro j buf2 hj hbuf2
      beta_reduce at hbuf2
      intro i
      beta_reduce
      have hstep : (if wr (k * Wd + j) then
            writeAt (writeAt (writeAt (writeAt buf2
              ((4 * ((k + T) * Wn + L + j) : Nat) : Int) (v0 (k * Wd + j)))
              (((4 * ((k + T) * Wn + L + j) : Nat) : Int) + 1) (v1 (k * Wd + j)))
              (((4 * ((k + T) * Wn + L + j) : Nat) : Int) + 2) (v2 (k * Wd + j)))
              (((4 * ((k + T) * Wn + L + j) : Nat) : Int) + 3) (v3 (k * Wd + j))
          else buf2)[i]?
          = buf2[i]?.map (fun old =>
              if i / 4 = (k + T) * Wn + L + j ∧ wr (k * Wd + j) then
                [v0 (k * Wd + j), v1 (k * Wd + j), v2 (k * Wd + j),
                 v3 (k * Wd + j)].getD (i % 4) 0
              else old) := by
        by_cases hw : wr (k * Wd + j)
        · rw [if_pos hw, write4_getElem?]
          simp only [hw, and_true]
        · rw [if_neg hw]
          simp only [hw, and_false, if_false]
          cases buf2[i]? <;> rfl
      rw [hstep, hbuf2 i]
      cases buf[i]? with
      | none => rfl
      | some old =>
        simp only [Option.map_some']
        congr 1
        by_cases hp : i / 4 = (k + T) * Wn + L + j
        · have hoff : i / 4 - ((k + T) * Wn + L) = j := by omega
          have hnot : ¬ ((k + T) * Wn + L ≤ i / 4 ∧ i / 4 < (k + T) * Wn + L + j) := by omega
          have hyes : (k + T) * Wn + L ≤ i / 4 ∧ i / 4 < (k + T) * Wn + L + (j + 1) := by
            omega
          simp only [hnot, hyes, hoff, false_and, true_and, if_false]
          simp only [← hp, true_and]
          split_ifs with g1 g2 <;> first | rfl | exact absurd g2.2 g1
        · have hiff : ((k + T) * Wn + L ≤ i / 4 ∧ i / 4 < (k + T) * Wn + L + (j + 1))
              ↔ ((k + T) * Wn + L ≤ i / 4 ∧ i / 4 < (k + T) * Wn + L + j) := by
            constructor
            · rintro ⟨a, b⟩
              exact ⟨a, by omega⟩
            · rintro ⟨a, b⟩
              exact ⟨a, by omega⟩
          simp only [hp, false_and, if_false, hiff]
    · intro i
      beta_reduce
      have hnot : ¬ ((k + T) * Wn + L ≤ i / 4 ∧ i / 4 < (k + T) * Wn + L + 0) := by omega
      simp only [hnot, false_and, if_false]
      cases buf[i]? <;> rfl
  · intro i
    beta_reduce
    have hnot : ¬ (T ≤ i / 4 / Wn ∧ i / 4 / Wn < T + 0 ∧ L ≤ i / 4 % Wn
        ∧ i / 4 % Wn < L + Wd) := by omega
    simp only [hnot, false_and, if_false]
    cases cv[i]? <;> rfl

/-- The compositing loop, pointwise: byte `q` of the canvas is replaced when
its pixel lies in the rectangle of the image and the colour index of that
pixel is not the transparent one; it then holds the channel `q mod 4` of the
palette colour with alpha 255. -/
theorem drawFrame_getElem? (Wn : Nat) (image : SavedImage) (cm : Option ColorMapObject)
    (tc : Int) (cv : List Nat) (L T Wd Ht : Nat)
    (hL : image.ImageDesc.Left = (L : Int)) (hT : image.ImageDesc.Top = (T : Int))
    (hWd : image.ImageDesc.Width = (Wd : Int)) (hHt : image.ImageDesc.Height = (Ht : Int))
    (hWn : 0 < Wn) (hfit : L + Wd ≤ Wn) (q : Nat) :
    (GIFGlitcher.drawFrame (Wn : Int) image cm tc cv)[q]?
      = cv[q]?.map (fun old =>
          if (T ≤ q / 4 / Wn ∧ q / 4 / Wn < T + Ht ∧ L ≤ q / 4 % Wn ∧ q / 4 % Wn < L + Wd)
              ∧ (readByte image.RasterBits
                  (((q / 4 / Wn - T) * Wd + (q / 4 % Wn - L) : Nat) : Int) : Int) ≠ tc
          then
            [(readAt (match cm with
                      | some c => c.Colors
                      | none => [])
                (readByte image.RasterBits
                  (((q / 4 / Wn - T) * Wd + (q / 4 % Wn - L) : Nat) : Int) : Int)).Red,
             (readAt (match cm with
                      | some c => c.Colors
                      | none => [])
                (readByte image.RasterBits
                  (((q / 4 / Wn - T) * Wd + (q / 4 % Wn - L) : Nat) : Int) : Int)).Green,
             (readAt (match cm with
                      | some c => c.Colors
                      | none => [])
                (readByte image.RasterBits
                  (((q / 4 / Wn - T) * Wd + (q / 4 % Wn - L) : Nat) : Int) : Int)).Blue,
             255].getD (q % 4) 0
          else old) := by
  unfold GIFGlitcher.drawFrame intRange
  rw [hL, hT, hWd, hHt]
  simp only [Int.toNat_natCast, List.foldl_map]
  have hsrc : ∀ y x : Nat,
      Int.ofNat y * (Wd : Int) + Int.ofNat x = ((y * Wd + x : Nat) : Int) := by
    intro y x
    simp only [Int.ofNat_eq_coe]
    push_cast
    rfl
  have hdst : ∀ y x : Nat,
      ((Int.ofNat y + (T : Int)) * (Wn : Int) + (Int.ofNat x + (L : Int))) * 4
        = ((4 * ((y + T) * Wn + L + x) : Nat) : Int) := by
    intro y x
    simp only [Int.ofNat_eq_coe]
    push_cast
    ring
  simp only [hsrc, hdst]
  exact paintRect_getElem? Wn L T Wd Ht hWn hfit
    (fun s => (readByte image.RasterBits ((s : Nat) : Int) : Int) ≠ tc)
    (fun s => (readAt (match cm with
                      | some c => c.Colors
                      | none => [])
                (readByte image.RasterBits ((s : Nat) : Int) : Int)).Red)
    (fun s => (readAt (match cm with
                      | some c => c.Colors
                      | none => [])
                (readByte image.RasterBits ((s : Nat) : Int) : Int)).Green)
    (fun s => (readAt (match cm with
                      | some c => c.Colors
                      | none => [])
                (readByte image.RasterBits ((s : Nat) : Int) : Int)).Blue)
    (fun _ => 255) cv q

/-! ## The snapshots of the frame loop -/

/-- The frame loop, frame by frame: the snapshot stored for an image whose
disposal method is neither restore-to-background nor restore-to-previous is
the image composited onto the previous snapshot (the zeroed canvas for the
first image). -/
theorem loadFrames_snapshot (m : GIFGlitcher) (ext : Externals) (gif : GifFileType) (i : Nat)
    (hi : i < gif.ImageCount.toNat)
    (hdisp : (GIFGlitcher.gifControl (readAt gif.SavedImages (Int.ofNat i))).2
        ≠ DISPOSE_BACKGROUND
      ∧ (GIFGlitcher.gifControl (readAt gif.SavedImages (Int.ofNat i))).2 ≠ DISPOSE_PREVIOUS) :
    ((m.loadFrames ext gif).2.2.getD i default).data
      = GIFGlitcher.drawFrame m.imageWidth (readAt gif.SavedImages (Int.ofNat i))
          (match (readAt gif.SavedImages (Int.ofNat i)).ImageDesc.ColorMap with
            | some cm => some cm
            | none => gif.SColorMap)
          (GIFGlitcher.gifControl (readAt gif.SavedImages (Int.ofNat i))).1
          (if i = 0 then List.replicate (m.imageWidth * m.imageHeight * 4).toNat 0
            else ((m.loadFrames ext gif).2.2.getD (i - 1) default).data) := by
  have hinv := foldl_range_invariant
    (fun k (st : List Nat × List Nat × List GifFrame) =>
      st.2.2.length = k
        ∧ st.1 = (if k = 0 then List.replicate (m.imageWidth * m.imageHeight * 4).toNat 0
            else (st.2.2.getD (k - 1) default).data)
        ∧ ∀ j, j < k →
          ((GIFGlitcher.gifControl (readAt gif.SavedImages (Int.ofNat j))).2
              ≠ DISPOSE_BACKGROUND
            ∧ (GIFGlitcher.gifControl (readAt gif.SavedImages (Int.ofNat j))).2
              ≠ DISPOSE_PREVIOUS) →
          (st.2.2.getD j default).data
            = GIFGlitcher.drawFrame m.imageWidth (readAt gif.SavedImages (Int.ofNat j))
                (match (readAt gif.SavedImages (Int.ofNat j)).ImageDesc.ColorMap with
                  | some cm => some cm
                  | none => gif.SColorMap)
                (GIFGlitcher.gifControl (readAt gif.SavedImages (Int.ofNat j))).1
                (if j = 0 then List.replicate (m.imageWidth * m.imageHeight * 4).toNat 0
                  else (st.2.2.getD (j - 1) default).data))
    (fun st k => m.loadFrame ext gif st (Int.ofNat k)) gif.ImageCount.toNat
    (by
      intro k st _ hP
      obtain ⟨hlen, hcanvas, hprev⟩ := hP
      have hframes : (m.loadFrame ext gif st (Int.ofNat k)).2.2
          = st.2.2 ++ [{ data := (m.loadFrame ext gif st (Int.ofNat k)).1,
                         delay := GIFGlitcher.frameDelay (readAt gif.SavedImages (Int.ofNat k)),
                         imageHandle :=
                           if m.vg.isSome then
                             ext.nvgCreateImageRGBA m.imageWidth m.imageHeight
                               (m.loadFrame ext gif st (Int.ofNat k)).1
                           else 0 }] := rfl
      have hlast : ((m.loadFrame ext gif st (Int.ofNat k)).2.2.getD k default).data
          = (m.loadFrame ext gif st (Int.ofNat k)).1 := by
        rw [hframes, List.getD_append_right _ _ _ _ (by omega), hlen, Nat.sub_self]
        rfl
      have hold : ∀ j, j < k → (m.loadFrame ext gif st (Int.ofNat k)).2.2.getD j default
          = st.2.2.getD j default := by
        intro j hj
        rw [hframes, List.getD_append _ _ _ _ (by omega)]
      refine ⟨?_, ?_, ?_⟩
      · rw [hframes, List.length_append, hlen]
        rfl
      · rw [if_neg (Nat.succ_ne_zero k), Nat.add_sub_cancel, hlast]
      · intro j hj hd
        rcases Nat.lt_succ_iff_lt_or_eq.mp hj with hlt | heq
        · rw [hold j hlt, hprev j hlt hd]
          by_cases hj0 : j = 0
          · rw [if_pos hj0, if_pos hj0]
          · rw [if_neg hj0, if_neg hj0, hold (j - 1) (by omega)]
        · subst heq
          rw [hlast]
          have hcan : (m.loadFrame ext gif st (Int.ofNat j)).1
              = GIFGlitcher.drawFrame m.imageWidth (readAt gif.SavedImages (Int.ofNat j))
                  (match (readAt gif.SavedImages (Int.ofNat j)).ImageDesc.ColorMap with
                    | some cm => some cm
                    | none => gif.SColorMap)
                  (GIFGlitcher.gifControl (readAt gif.SavedImages (Int.ofNat j))).1 st.1 := by
            unfold GIFGlitcher.loadFrame
            simp only [if_neg hd.1, if_neg hd.2, ite_self]
          rw [hcan, hcanvas]
          by_cases hj0 : j = 0
          · rw [if_pos hj0, if_pos hj0]
          · rw [if_neg hj0, if_neg hj0, hold (j - 1) (by omega)])
    (List.replicate (m.imageWidth * m.imageHeight * 4).toNat 0,
      List.replicate (m.imageWidth * m.imageHeight * 4).toNat 0, [])
    ⟨rfl, rfl, fun j hj => absurd hj (Nat.not_lt_zero j)⟩
  have hfold : m.loadFrames ext gif
      = (List.range gif.ImageCount.toNat).foldl
          (fun st k => m.loadFrame ext gif st (Int.ofNat k))
          (List.replicate (m.imageWidth * m.imageHeight * 4).toNat 0,
            List.replicate (m.imageWidth * m.imageHeight * 4).toNat 0, []) := by
    unfold GIFGlitcher.loadFrames intRange
    simp only
    rw [List.foldl_map]
  rw [hfold]
  exact hinv.2.2 i hi hdisp

/-- An indexed write keeps the length of a buffer. -/
theorem writeAt_length {α : Type} (buf : List α) (i : Int) (v : α) :
    (writeAt buf i v).length = buf.length := by
  unfold writeAt
  split
  · rfl
  · exact List.length_set _ _ _

/-- The compositing loop keeps the size of the canvas. -/
theorem drawFrame_length (W : Int) (image : SavedImage) (cm : Option ColorMapObject)
    (tc : Int) (cv : List Nat) : (GIFGlitcher.drawFrame W image cm tc cv).length = cv.length := by
  unfold GIFGlitcher.drawFrame
  apply foldl_preserves (fun c : List Nat => c.length = cv.length)
  · intro c y hc
    apply foldl_preserves (fun c : List Nat => c.length = cv.length)
    · intro c2 x hc2
      dsimp only
      split
      · rw [writeAt_length, writeAt_length, writeAt_length, writeAt_length, hc2]
      · exact hc2
    · exact hc
  · rfl

/-- The restore-to-background loop keeps the size of the canvas. -/
theorem clearRect_length (W : Int) (image : SavedImage) (cv : List Nat) :
    (GIFGlitcher.clearRect W image cv).length = cv.length := by
  unfold GIFGlitcher.clearRect
  apply foldl_preserves (fun c : List Nat => c.length = cv.length)
  · intro c y hc
    apply foldl_preserves (fun c : List Nat => c.length = cv.length)
    · intro c2 x hc2
      dsimp only
      rw [writeAt_length, writeAt_length, writeAt_length, writeAt_length, hc2]
    · exact hc
  · rfl

/-- Every snapshot of the frame loop has the size of the canvas. -/
theorem loadFrames_data_length (m : GIFGlitcher) (ext : Externals) (gif : GifFileType) :
    ∀ f ∈ (m.loadFrames ext gif).2.2,
      f.data.length = (m.imageWidth * m.imageHeight * 4).toNat := by
  have hinv := foldl_preserves
    (fun (st : List Nat × List Nat × List GifFrame) =>
      st.1.length = (m.imageWidth * m.imageHeight * 4).toNat
        ∧ st.2.1.length = (m.imageWidth * m.imageHeight * 4).toNat
        ∧ ∀ f ∈ st.2.2, f.data.length = (m.imageWidth * m.imageHeight * 4).toNat)
    (m.loadFrame ext gif)
    (by
      intro st i hP
      obtain ⟨h1, h2, h3⟩ := hP
      have hpre : (if i > 0 then
            if (GIFGlitcher.gifControl (readAt gif.SavedImages i)).2 = DISPOSE_BACKGROUND then
              GIFGlitcher.clearRect m.imageWidth (readAt gif.SavedImages i) st.1
            else if (GIFGlitcher.gifControl (readAt gif.SavedImages i)).2 = DISPOSE_PREVIOUS
              then st.2.1
            else st.1
          else st.1).length = (m.imageWidth * m.imageHeight * 4).toNat := by
        split_ifs
        · rw [clearRect_length, h1]
        · exact h2
        · exact h1
        · exact h1
      unfold GIFGlitcher.loadFrame
      refine ⟨?_, hpre, ?_⟩
      · show (GIFGlitcher.drawFrame _ _ _ _ _).length = _
        rw [drawFrame_length]
        exact hpre
      · intro f hf
        rcases List.mem_append.mp hf with h | h
        · exact h3 f h
        · rw [List.mem_singleton] at h
          rw [h]
          show (GIFGlitcher.drawFrame _ _ _ _ _).length = _
          rw [drawFrame_length]
          exact hpre)
    (intRange gif.ImageCount)
    (List.replicate (m.imageWidth * m.imageHeight * 4).toNat 0,
      List.replicate (m.imageWidth * m.imageHeight * 4).toNat 0, [])
    ⟨by simp, by simp, fun f hf => absurd hf (List.not_mem_nil f)⟩
  exact hinv.2.2

/-- C24: compositing skips transparent pixels.  For every image `i` of a
decoded file whose rectangle lies inside the canvas and whose disposal method
is neither restore-to-background nor restore-to-previous, and for every
position `(px, py)` of the canvas and channel `c`: the snapshot stored for
frame `i` holds the byte of the previous snapshot (of the all-zero canvas for
the first frame) when the position is outside the rectangle of the image or
its colour index equals the transparent index of the image; otherwise it holds
the red, green or blue byte of the palette colour of its index, or 255 for
alpha. -/
theorem compositing_keeps_canvas_under_transparent_pixels (m : GIFGlitcher)
    (ext : Externals) (gif : GifFileType) (i : Nat) (image : SavedImage)
    (cm : ColorMapObject) (px py c : Int) (hi : i < gif.ImageCount.toNat)
    (himg : readAt gif.SavedImages (Int.ofNat i) = image)
    (hcm : (match image.ImageDesc.ColorMap with
            | some own => some own
            | none => gif.SColorMap) = some cm)
    (hrect : 0 ≤ image.ImageDesc.Left ∧ 0 ≤ image.ImageDesc.Top
      ∧ 0 ≤ image.ImageDesc.Width ∧ 0 ≤ image.ImageDesc.Height
      ∧ image.ImageDesc.Left + image.ImageDesc.Width ≤ m.imageWidth
      ∧ image.ImageDesc.Top + image.ImageDesc.Height ≤ m.imageHeight)
    (hdisp : (GIFGlitcher.gifControl image).2 ≠ DISPOSE_BACKGROUND
      ∧ (GIFGlitcher.gifControl image).2 ≠ DISPOSE_PREVIOUS)
    (hpx : 0 ≤ px ∧ px < m.imageWidth) (hpy : 0 ≤ py ∧ py < m.imageHeight)
    (hc : 0 ≤ c ∧ c < 4) :
    readByte ((m.loadFrames ext gif).2.2.getD i default).data
        ((py * m.imageWidth + px) * 4 + c)
      = if (image.ImageDesc.Left ≤ px ∧ px < image.ImageDesc.Left + image.ImageDesc.Width
            ∧ image.ImageDesc.Top ≤ py ∧ py < image.ImageDesc.Top + image.ImageDesc.Height)
          ∧ (readByte image.RasterBits
              ((py - image.ImageDesc.Top) * image.ImageDesc.Width
                + (px - image.ImageDesc.Left)) : Int) ≠ (GIFGlitcher.gifControl image).1
        then
          readByte
            [(readAt cm.Colors (readByte image.RasterBits
                ((py - image.ImageDesc.Top) * image.ImageDesc.Width
                  + (px - image.ImageDesc.Left)) : Int)).Red,
             (readAt cm.Colors (readByte image.RasterBits
                ((py - image.ImageDesc.Top) * image.ImageDesc.Width
                  + (px - image.ImageDesc.Left)) : Int)).Green,
             (readAt cm.Colors (readByte image.RasterBits
                ((py - image.ImageDesc.Top) * image.ImageDesc.Width
                  + (px - image.ImageDesc.Left)) : Int)).Blue,
             255] c
        else
          readByte
            (if i = 0 then List.replicate (m.imageWidth * m.imageHeight * 4).toNat 0
              else ((m.loadFrames ext gif).2.2.getD (i - 1) default).data)
            ((py * m.imageWidth + px) * 4 + c) := by
  subst himg
  obtain ⟨hL0, hT0, hW0, hH0, hfitW, hfitH⟩ := hrect
  obtain ⟨Wn, hWn⟩ := Int.eq_ofNat_of_zero_le (show 0 ≤ m.imageWidth by omega)
  obtain ⟨Hn, hHn⟩ := Int.eq_ofNat_of_zero_le (show 0 ≤ m.imageHeight by omega)
  obtain ⟨L, hL⟩ := Int.eq_ofNat_of_zero_le hL0
  obtain ⟨T, hT⟩ := Int.eq_ofNat_of_zero_le hT0
  obtain ⟨Wd, hWd⟩ := Int.eq_ofNat_of_zero_le hW0
  obtain ⟨Ht, hHt⟩ := Int.eq_ofNat_of_zero_le hH0
  obtain ⟨pxn, rfl⟩ := Int.eq_ofNat_of_zero_le hpx.1
  obtain ⟨pyn, rfl⟩ := Int.eq_ofNat_of_zero_le hpy.1
  obtain ⟨cn, rfl⟩ := Int.eq_ofNat_of_zero_le hc.1
  have hWpos : 0 < Wn := by omega
  have hpxlt : pxn < Wn := by omega
  have hpylt : pyn < Hn := by omega
  have hcn : cn < 4 := by omega
  have hfit : L + Wd ≤ Wn := by omega
  have hq : ((pyn : Int) * m.imageWidth + (pxn : Int)) * 4 + (cn : Int)
      = (((pyn * Wn + pxn) * 4 + cn : Nat) : Int) := by
    rw [hWn]
    push_cast
    ring
  have hq4 : ((pyn * Wn + pxn) * 4 + cn) / 4 = pyn * Wn + pxn := by omega
  have hqm : ((pyn * Wn + pxn) * 4 + cn) % 4 = cn := by omega
  have hdiv : (pyn * Wn + pxn) / Wn = pyn := by
    rw [Nat.add_comm, Nat.add_mul_div_right _ _ hWpos, Nat.div_eq_of_lt hpxlt, Nat.zero_add]
  have hmod : (pyn * Wn + pxn) % Wn = pxn := by
    rw [Nat.add_comm, Nat.add_mul_mod_self_right, Nat.mod_eq_of_lt hpxlt]
  have hsize : (m.imageWidth * m.imageHeight * 4).toNat = Wn * Hn * 4 := by
    rw [hWn, hHn]
    have : (((Wn : Nat) : Int) * ((Hn : Nat) : Int) * 4) = ((Wn * Hn * 4 : Nat) : Int) := by
      push_cast
      rfl
    rw [this, Int.toNat_natCast]
  have hqlt : (pyn * Wn + pxn) * 4 + cn < Wn * Hn * 4 := by
    have h1 : (pyn + 1) * Wn ≤ Hn * Wn := Nat.mul_le_mul_right _ hpylt
    have h2 : (pyn + 1) * Wn = pyn * Wn + Wn := Nat.succ_mul _ _
    have h3 : Wn * Hn = Hn * Wn := Nat.mul_comm _ _
    omega
  have hbyte : ∀ (l : List Nat) (n : Nat), readByte l ((n : Nat) : Int) = (l[n]?).getD 0 := by
    intro l n
    have hneg : ¬ (((n : Nat) : Int) < 0) := by omega
    unfold readByte
    rw [if_neg hneg, Int.toNat_natCast, List.getD_eq_getElem?_getD]
  have hprevlen : (if i = 0 then List.replicate (m.imageWidth * m.imageHeight * 4).toNat 0
      else ((m.loadFrames ext gif).2.2.getD (i - 1) default).data).length = Wn * Hn * 4 := by
    by_cases hi0 : i = 0
    · rw [if_pos hi0, List.length_replicate, hsize]
    · rw [if_neg hi0, ← hsize]
      have hlen := loadFrames_length m ext gif
      have hlt : i - 1 < (m.loadFrames ext gif).2.2.length := by omega
      rw [List.getD_eq_getElem _ _ hlt]
      exact loadFrames_data_length m ext gif _ (List.getElem_mem _)
  rw [loadFrames_snapshot m ext gif i hi hdisp, hq, hcm]
  simp only [hbyte]
  generalize (if i = 0 then List.replicate (m.imageWidth * m.imageHeight * 4).toNat 0
      else ((m.loadFrames ext gif).2.2.getD (i - 1) default).data) = prev at hprevlen ⊢
  have hprevq : (pyn * Wn + pxn) * 4 + cn < prev.length := by
    rw [hprevlen]
    exact hqlt
  rw [hWn, drawFrame_getElem? Wn _ _ _ _ L T Wd Ht hL hT hWd hHt hWpos hfit,
    List.getElem?_eq_getElem hprevq, Option.map_some', Option.getD_some,
    Option.getD_some, hq4, hqm, hdiv, hmod, hL, hT, hWd, hHt, ← List.getD_eq_getElem?_getD]
  by_cases hin : T ≤ pyn ∧ pyn < T + Ht ∧ L ≤ pxn ∧ pxn < L + Wd
  · have hin' : (L : Int) ≤ (pxn : Int) ∧ (pxn : Int) < (L : Int) + (Wd : Int)
        ∧ (T : Int) ≤ (pyn : Int) ∧ (pyn : Int) < (T : Int) + (Ht : Int) := by omega
    have hidx : (((pyn - T) * Wd + (pxn - L) : Nat) : Int)
        = ((pyn : Int) - (T : Int)) * (Wd : Int) + ((pxn : Int) - (L : Int)) := by
      push_cast [Nat.cast_sub hin.1, Nat.cast_sub hin.2.2.1]
      rfl
    simp only [hin, hin', hidx, and_self, true_and]
  · have hin' : ¬ ((L : Int) ≤ (pxn : Int) ∧ (pxn : Int) < (L : Int) + (Wd : Int)
        ∧ (T : Int) ≤ (pyn : Int) ∧ (pyn : Int) < (T : Int) + (Ht : Int)) := by omega
    rw [if_neg (fun h => hin h.1), if_neg (fun h => hin' h.1)]

/-- Witness of C24 on the second image of `backgroundDisposalGif`, which
draws only the pixel `(0, 0)`: at position `(1, 0)`, outside its rectangle,
the snapshot of frame 1 holds the red byte 10 of the snapshot of frame 0, and
at position `(0, 0)` it holds the red byte 40 of palette colour 1. -/
theorem compositing_keeps_canvas_under_transparent_pixels_witness :
    readByte ((twoByOneModule.loadFrames quietExternals backgroundDisposalGif).2.2.getD 1
        default).data ((0 * twoByOneModule.imageWidth + 1) * 4 + 0) = 10
      ∧ readByte ((twoByOneModule.loadFrames quietExternals backgroundDisposalGif).2.2.getD 1
        default).data ((0 * twoByOneModule.imageWidth + 0) * 4 + 0) = 40 :=
  ⟨(compositing_keeps_canvas_under_transparent_pixels twoByOneModule quietExternals
      backgroundDisposalGif 1 (readAt backgroundDisposalGif.SavedImages 1)
      { Colors := [{ Red := 10, Green := 20, Blue := 30 },
                   { Red := 40, Green := 50, Blue := 60 }] }
      1 0 0 (by decide) rfl rfl (by decide) (by decide) (by decide) (by decide)
      (by decide)).trans (by decide),
    (compositing_keeps_canvas_under_transparent_pixels twoByOneModule quietExternals
      backgroundDisposalGif 1 (readAt backgroundDisposalGif.SavedImages 1)
      { Colors := [{ Red := 10, Green := 20, Blue := 30 },
                   { Red := 40, Green := 50, Blue := 60 }] }
      0 0 0 (by decide) rfl rfl (by decide) (by decide) (by decide) (by decide)
      (by decide)).trans (by decide)⟩
